import Mathlib

/-!
# xinput_calibrator: the click-validation and calibration engine

Shallow embedding of `src/calibrator.cpp` (`reset`, `add_click`, `along_axis`,
`finish`, `finish_data`) and of the declarations of `src/calibrator.hpp`
(`XYinfo`, `struct Calib`, `num_blocks`, the corner names `UL`, `UR`, `LL`, `LR`).

Conventions of the embedding.

* C `int` values are integers of `ℤ`; signed overflow is undefined in C, so the
  embedding describes the executions in which no `int` operation overflows.
* `int clicked_x[4]` is a record of four cells.  An access `a[i]` with `i` outside
  `0..3` is undefined in C; the accessors `get?` and `set?` return `none` there and
  every operation that performs such an access returns `none`.
* C `float` values are the finite numbers of IEEE-754 binary32, kept as rationals;
  every `float` operation is the exact operation followed by one rounding to
  nearest, ties to even (`f32`).  The exponent range is not bounded: with 32-bit
  `int` inputs no operation of `finish` overflows or underflows binary32.  A
  division by zero gives an infinity or a NaN, whose conversion to `int` is
  undefined in C; the embedding returns `none` there.  The conversion `(int)f` of
  a finite `float` is the truncation toward zero; it is undefined in C when the
  truncated value does not fit an `int`, and, as for the `int` operations, the
  embedding describes the executions in which it fits.
* `printf` output (the `verbose` diagnostics, the configuration snippets) is not
  part of the state and is left out.
-/

namespace XinputCalibrator

/-! ## Data model (`calibrator.hpp`) -/

/-- Number of blocks of the grid on which the targets are drawn (`num_blocks`). -/
def num_blocks : Int := 8

/-- Index of the upper-left point. -/
def UL : Int := 0
/-- Index of the upper-right point. -/
def UR : Int := 1
/-- Index of the lower-left point. -/
def LL : Int := 2
/-- Index of the lower-right point. -/
def LR : Int := 3

/-- Output types (`OutputType`). -/
inductive OutputType where
  | OUTYPE_AUTO
  | OUTYPE_XORGCONFD
  | OUTYPE_HAL
  | OUTYPE_XINPUT
deriving DecidableEq, Repr

/-- Min/max info of the X and Y axis (`XYinfo`). -/
structure XYinfo where
  x_min : Int
  x_max : Int
  y_min : Int
  y_max : Int
deriving DecidableEq, Repr

/-- A C array `int a[4]`. -/
structure IntArr4 where
  v0 : Int
  v1 : Int
  v2 : Int
  v3 : Int
deriving DecidableEq, Repr

/-- The read `a[i]`; `none` when `i` is outside `0..3`. -/
def IntArr4.get? (a : IntArr4) (i : Int) : Option Int :=
  if i = 0 then some a.v0
  else if i = 1 then some a.v1
  else if i = 2 then some a.v2
  else if i = 3 then some a.v3
  else none

/-- The store `a[i] = v`; `none` when `i` is outside `0..3`. -/
def IntArr4.set? (a : IntArr4) (i : Int) (v : Int) : Option IntArr4 :=
  if i = 0 then some { a with v0 := v }
  else if i = 1 then some { a with v1 := v }
  else if i = 2 then some { a with v2 := v }
  else if i = 3 then some { a with v3 := v }
  else none

/-- The calibration session (`struct Calib`), without the two strings
`device_name` and `geometry`, which the engine only passes on. -/
structure Calib where
  old_axys : XYinfo
  verbose : Bool
  num_clicks : Int
  clicked_x : IntArr4
  clicked_y : IntArr4
  threshold_doubleclick : Int
  threshold_misclick : Int
  output_type : OutputType
deriving DecidableEq, Repr

/-! ## Click ingestion (`calibrator.cpp`, lines 32-129) -/

/-- `reset`: only the counter is zeroed. -/
def reset (c : Calib) : Calib :=
  { c with num_clicks := 0 }

/-- `set_threshold_doubleclick`. -/
def set_threshold_doubleclick (c : Calib) (t : Int) : Calib :=
  { c with threshold_doubleclick := t }

/-- `set_threshold_misclick`. -/
def set_threshold_misclick (c : Calib) (t : Int) : Calib :=
  { c with threshold_misclick := t }

/-- `get_numclicks`. -/
def get_numclicks (c : Calib) : Int :=
  c.num_clicks

/-- `along_axis`: `xy` is within the mis-click threshold of `x0` or of `y0`. -/
def along_axis (c : Calib) (xy x0 y0 : Int) : Bool :=
  decide (|xy - x0| ≤ c.threshold_misclick) || decide (|xy - y0| ≤ c.threshold_misclick)

/-- The double-click loop of `add_click` (lines 61-72) with `k` iterations left:
the next index read is `k - 1`.  The result is `some true` when the loop hits
`return false`, `some false` when it runs to `i < 0`. -/
def doubleclick_loop (c : Calib) (x y : Int) : Nat → Option Bool
  | 0 => some false
  | k + 1 =>
    match c.clicked_x.get? (k : Int), c.clicked_y.get? (k : Int) with
    | some px, some py =>
      if |x - px| ≤ c.threshold_doubleclick ∧ |y - py| ≤ c.threshold_doubleclick then
        some true
      else
        doubleclick_loop c x y k
    | _, _ => none

/-- The double-click detection of `add_click` (lines 60-73): `some true` when the
click is dropped there. -/
def doubleclick_detect (c : Calib) (x y : Int) : Option Bool :=
  if c.threshold_doubleclick > 0 ∧ c.num_clicks > 0 then
    doubleclick_loop c x y c.num_clicks.toNat
  else
    some false

/-- The value of the local `misclick` at line 100 of `add_click`, inside the
guard of line 76. -/
def misclick_flag (c : Calib) (x y : Int) : Bool :=
  if c.num_clicks = 1 then
    !(along_axis c x c.clicked_x.v0 c.clicked_y.v0 ||
      along_axis c y c.clicked_x.v0 c.clicked_y.v0)
  else if c.num_clicks = 2 then
    !((along_axis c y c.clicked_x.v0 c.clicked_y.v0 &&
        along_axis c c.clicked_x.v1 c.clicked_x.v0 c.clicked_y.v0) ||
      (along_axis c x c.clicked_x.v0 c.clicked_y.v0 &&
        along_axis c c.clicked_y.v1 c.clicked_x.v0 c.clicked_y.v0))
  else if c.num_clicks = 3 then
    !((along_axis c x c.clicked_x.v1 c.clicked_y.v1 &&
        along_axis c y c.clicked_x.v2 c.clicked_y.v2) ||
      (along_axis c y c.clicked_x.v1 c.clicked_y.v1 &&
        along_axis c x c.clicked_x.v2 c.clicked_y.v2))
  else
    true

/-- The mis-click detection of `add_click` (lines 76-113): `true` when the
session is reset there. -/
def misclick_detect (c : Calib) (x y : Int) : Bool :=
  if c.threshold_misclick > 0 ∧ c.num_clicks > 0 then misclick_flag c x y else false

/-- `add_click`: the returned boolean and the session after the call. -/
def add_click (c : Calib) (x y : Int) : Option (Bool × Calib) :=
  match doubleclick_detect c x y with
  | none => none
  | some true => some (false, c)
  | some false =>
    if misclick_detect c x y then
      some (false, reset c)
    else
      match c.clicked_x.set? c.num_clicks x, c.clicked_y.set? c.num_clicks y with
      | some cx, some cy =>
        some (true, { c with clicked_x := cx, clicked_y := cy, num_clicks := c.num_clicks + 1 })
      | _, _ => none

/-! ## Single-precision arithmetic -/

/-- Rounding of a rational to the nearest integer, ties to the even one. -/
def roundEven (q : ℚ) : ℤ :=
  if q - ⌊q⌋ < 1/2 then ⌊q⌋
  else if 1/2 < q - ⌊q⌋ then ⌊q⌋ + 1
  else if ⌊q⌋ % 2 = 0 then ⌊q⌋ else ⌊q⌋ + 1

/-- `m` is a nearest integer of `q`, the even one at a tie. -/
def IsNearestEven (q : ℚ) (m : ℤ) : Prop :=
  |q - m| < 1/2 ∨ (|q - m| = 1/2 ∧ m % 2 = 0)

/-- Exponent of the unit in the last place of a 24-bit significand holding `q`:
with `2 ^ e ≤ |q| < 2 ^ (e + 1)` it is `e - 23`. -/
def ulp_exp (q : ℚ) : ℤ := Int.log 2 |q| - 23

/-- Rounding of a rational to binary32: nearest number with a 24-bit significand,
ties to even. -/
def f32 (q : ℚ) : ℚ :=
  if q = 0 then 0 else (roundEven (q / 2 ^ ulp_exp q) : ℚ) * 2 ^ ulp_exp q

/-- The conversion `(float)i` of an `int`. -/
def float_of_int (i : Int) : ℚ := f32 (i : ℚ)

/-- The `float` product `a * b`. -/
def float_mul (a b : ℚ) : ℚ := f32 (a * b)

/-- The `float` sum `a + b`. -/
def float_add (a b : ℚ) : ℚ := f32 (a + b)

/-- The `float` quotient `a / b`; `none` (an infinity or a NaN) when `b` is zero. -/
def float_div (a b : ℚ) : Option ℚ :=
  if b = 0 then none else some (f32 (a / b))

/-- The conversion of a finite `float` to `int`: truncation toward zero. -/
def int_of_float (a : ℚ) : Int := if 0 ≤ a then ⌊a⌋ else ⌈a⌉

/-! ## The finishing computation (`calibrator.cpp`, lines 131-173, 263-293) -/

/-- `finish_data`: the value returned by the writer.  `output_xorgconfd` and
`output_hal` print and return `true`; with `OUTYPE_AUTO` one of the two is chosen
by `has_xorgconfd_support`, which asks the X server; any other output type is
refused. -/
def finish_data (c : Calib) (_new_axys : XYinfo) (_swap_xy : Bool) : Bool :=
  match c.output_type with
  | .OUTYPE_AUTO => true
  | .OUTYPE_XORGCONFD => true
  | .OUTYPE_HAL => true
  | .OUTYPE_XINPUT => false

/-- Lines 140-141 of `finish`: `SWAP(clicked_x[LL], clicked_x[UR])` and
`SWAP(clicked_y[LL], clicked_y[UR])`. -/
def swap_LL_UR (c : Calib) : Calib :=
  { c with
    clicked_x := { c.clicked_x with v1 := c.clicked_x.v2, v2 := c.clicked_x.v1 }
    clicked_y := { c.clicked_y with v1 := c.clicked_y.v2, v2 := c.clicked_y.v1 } }

/-- One assignment of lines 148-152:
`(int)(((a + b) * scale / 2) + lo)`, all of it in `float`. -/
def scaled_average (a b : Int) (scale : ℚ) (lo : Int) : Option Int := do
  let half ← float_div (float_mul (float_of_int (a + b)) scale) (float_of_int 2)
  pure (int_of_float (float_add half (float_of_int lo)))

/-- Lines 157 and 160: `(int)((hi - lo) / (float)(num_blocks - 2))`. -/
def inset_delta (lo hi : Int) : Option Int := do
  let d ← float_div (float_of_int (hi - lo)) (float_of_int (num_blocks - 2))
  pure (int_of_float d)

/-- Lines 144-162 of `finish`: the bounds computed from the clicks as they are
stored at that point. -/
def finish_axys (c : Calib) (width height : Int) : Option XYinfo := do
  let scale_x ← float_div (float_of_int (c.old_axys.x_max - c.old_axys.x_min)) (float_of_int width)
  let x_min ← scaled_average c.clicked_x.v0 c.clicked_x.v2 scale_x c.old_axys.x_min
  let x_max ← scaled_average c.clicked_x.v1 c.clicked_x.v3 scale_x c.old_axys.x_min
  let scale_y ← float_div (float_of_int (c.old_axys.y_max - c.old_axys.y_min)) (float_of_int height)
  let y_min ← scaled_average c.clicked_y.v0 c.clicked_y.v1 scale_y c.old_axys.y_min
  let y_max ← scaled_average c.clicked_y.v2 c.clicked_y.v3 scale_y c.old_axys.y_min
  let delta_x ← inset_delta x_min x_max
  let x_min := x_min - delta_x
  let x_max := x_max + delta_x
  let delta_y ← inset_delta y_min y_max
  let y_min := y_min - delta_y
  let y_max := y_max + delta_y
  pure { x_min := x_min, x_max := x_max, y_min := y_min, y_max := y_max }

/-- What a call of `finish` does: the returned boolean, the arguments of the call
of `finish_data` (`none` when the writer is not called) and the session after the
call. -/
structure FinishResult where
  ret : Bool
  written : Option (XYinfo × Bool)
  state : Calib
deriving DecidableEq, Repr

/-- `finish`. -/
def finish (c : Calib) (width height : Int) : Option FinishResult :=
  if get_numclicks c ≠ 4 then
    some { ret := false, written := none, state := c }
  else
    let swap_xy : Bool :=
      decide (|c.clicked_x.v0 - c.clicked_x.v1| < |c.clicked_y.v0 - c.clicked_y.v1|)
    let c1 := if swap_xy then swap_LL_UR c else c
    match finish_axys c1 width height with
    | none => none
    | some axys =>
      let axys : XYinfo :=
        if swap_xy then
          { x_min := axys.y_max, x_max := axys.y_min, y_min := axys.x_max, y_max := axys.x_min }
        else axys
      some { ret := finish_data c1 axys swap_xy, written := some (axys, swap_xy), state := c1 }

/-! ## The rules of the specification, in its words -/

/-- The stored click at index `i` is within the double-click threshold of `(x, y)`
on both axes. -/
def near_stored (c : Calib) (x y : Int) (i : Int) : Prop :=
  ∃ px py, c.clicked_x.get? i = some px ∧ c.clicked_y.get? i = some py ∧
    |x - px| ≤ c.threshold_doubleclick ∧ |y - py| ≤ c.threshold_doubleclick

/-- The double-click rule of the specification: the check is enabled and some
prior click is within the threshold of `(x, y)` on both axes. -/
def doubleclick_rule (c : Calib) (x y : Int) : Prop :=
  c.threshold_doubleclick > 0 ∧ ∃ i : Int, 0 ≤ i ∧ i < c.num_clicks ∧ near_stored c x y i

/-- The predicate `alongAxis(v, x0, y0)` of the specification for threshold `m`. -/
def alongAxis (m v x0 y0 : Int) : Prop :=
  |v - x0| ≤ m ∨ |v - y0| ≤ m

/-- The alignment test of the specification for `n = 1`, `2` and `3` prior
clicks. -/
def spec_aligned (c : Calib) (x y : Int) : Prop :=
  (c.num_clicks = 1 ∧
    (alongAxis c.threshold_misclick x c.clicked_x.v0 c.clicked_y.v0 ∨
     alongAxis c.threshold_misclick y c.clicked_x.v0 c.clicked_y.v0)) ∨
  (c.num_clicks = 2 ∧
    ((alongAxis c.threshold_misclick y c.clicked_x.v0 c.clicked_y.v0 ∧
      alongAxis c.threshold_misclick c.clicked_x.v1 c.clicked_x.v0 c.clicked_y.v0) ∨
     (alongAxis c.threshold_misclick x c.clicked_x.v0 c.clicked_y.v0 ∧
      alongAxis c.threshold_misclick c.clicked_y.v1 c.clicked_x.v0 c.clicked_y.v0))) ∨
  (c.num_clicks = 3 ∧
    ((alongAxis c.threshold_misclick x c.clicked_x.v1 c.clicked_y.v1 ∧
      alongAxis c.threshold_misclick y c.clicked_x.v2 c.clicked_y.v2) ∨
     (alongAxis c.threshold_misclick y c.clicked_x.v1 c.clicked_y.v1 ∧
      alongAxis c.threshold_misclick x c.clicked_x.v2 c.clicked_y.v2)))

/-- The mis-click rule of the specification: the check is enabled, there is a
prior click and the click is not aligned. -/
def misclick_rule (c : Calib) (x y : Int) : Prop :=
  c.threshold_misclick > 0 ∧ c.num_clicks > 0 ∧ ¬ spec_aligned c x y


/-! ## Concrete sessions -/

/-- `CalibratorXorgPrint`: the session as constructed, `calloc` zero-filling the
counter and the click arrays. -/
def CalibratorXorgPrint (axys0 : XYinfo) (verbose0 : Bool) (thr_misclick thr_doubleclick : Int)
    (output_type : OutputType) : Calib :=
  { old_axys := axys0
    verbose := verbose0
    num_clicks := 0
    clicked_x := ⟨0, 0, 0, 0⟩
    clicked_y := ⟨0, 0, 0, 0⟩
    threshold_doubleclick := thr_doubleclick
    threshold_misclick := thr_misclick
    output_type := output_type }

/-- A fresh session with the default thresholds of `main.c` (mis-click 15,
double-click 7) and the range `0..1000` on both axes. -/
def session0 : Calib :=
  CalibratorXorgPrint ⟨0, 1000, 0, 1000⟩ false 15 7 .OUTYPE_XORGCONFD

/-- The session `session0` after the click `(100, 100)`. -/
def session1 : Calib :=
  { session0 with num_clicks := 1, clicked_x := ⟨100, 0, 0, 0⟩, clicked_y := ⟨100, 0, 0, 0⟩ }

/-- The session `session1` after the click `(900, 110)`. -/
def session2 : Calib :=
  { session0 with num_clicks := 2, clicked_x := ⟨100, 900, 0, 0⟩, clicked_y := ⟨100, 110, 0, 0⟩ }

/-- The session `session2` after the click `(110, 900)`. -/
def session3 : Calib :=
  { session0 with
    num_clicks := 3, clicked_x := ⟨100, 900, 110, 0⟩, clicked_y := ⟨100, 110, 900, 0⟩ }

/-! ## The finishing formulas of the specification, in single precision -/

/-- Step 3 of the specification: the scale factor `(hi - lo) / len`, computed in
`float` as the code does. -/
def spec_scale (lo hi len : Int) : ℚ :=
  f32 (f32 ((hi - lo : Int) : ℚ) / f32 (len : ℚ))

/-- Step 4 of the specification: `(a + b) * scale / 2 + lo`, computed in `float`
and truncated toward zero to an integer. -/
def spec_average (a b : Int) (scale : ℚ) (lo : Int) : Int :=
  int_of_float (f32 (f32 (f32 (f32 ((a + b : Int) : ℚ) * scale) / 2) + f32 (lo : ℚ)))

/-- Step 5 of the specification: `delta = (hi - lo) / (num_blocks - 2)`, that is
`(hi - lo) / 6`, computed in `float` and truncated toward zero. -/
def spec_delta (lo hi : Int) : Int :=
  int_of_float (f32 (f32 ((hi - lo : Int) : ℚ) / 6))

/-- Steps 3 to 5 of the specification on the four corner clicks `ul`, `ur`, `ll`,
`lr` (each a pair `(x, y)`). -/
def spec_axis_range (old : XYinfo) (width height : Int) (ul ur ll lr : Int × Int) : XYinfo :=
  let scale_x := spec_scale old.x_min old.x_max width
  let scale_y := spec_scale old.y_min old.y_max height
  let x_min := spec_average ul.1 ll.1 scale_x old.x_min
  let x_max := spec_average ur.1 lr.1 scale_x old.x_min
  let y_min := spec_average ul.2 ur.2 scale_y old.y_min
  let y_max := spec_average ll.2 lr.2 scale_y old.y_min
  let delta_x := spec_delta x_min x_max
  let delta_y := spec_delta y_min y_max
  { x_min := x_min - delta_x, x_max := x_max + delta_x,
    y_min := y_min - delta_y, y_max := y_max + delta_y }

/-- The four clicks of the first witness of the specification, all accepted:
UL `(100, 100)`, UR `(900, 110)`, LL `(110, 900)`, LR `(890, 890)`. -/
def session4 : Calib :=
  { session0 with
    num_clicks := 4, clicked_x := ⟨100, 900, 110, 890⟩, clicked_y := ⟨100, 110, 900, 890⟩ }

/-- Four clicks of a device that reports its axes transposed:
UL `(100, 100)`, UR `(110, 900)`, LL `(900, 110)`, LR `(890, 890)`. -/
def session4_swapped : Calib :=
  { session0 with
    num_clicks := 4, clicked_x := ⟨100, 110, 900, 890⟩, clicked_y := ⟨100, 900, 110, 890⟩ }
/-- Step 6 of the specification: exchange `x_min` with `y_max` and `y_min` with
`x_max`. -/
def spec_unswap (a : XYinfo) : XYinfo :=
  { x_min := a.y_max, x_max := a.y_min, y_min := a.x_max, y_max := a.x_min }

/-- Well-formed clicks: on the corners as `finish` relabels them (UR and LL
exchanged when the axes are transposed), the two left clicks have an x-sum no
greater than the two right clicks and the two upper clicks a y-sum no greater
than the two lower clicks. -/
def well_formed_clicks (c : Calib) : Prop :=
  if |c.clicked_x.v0 - c.clicked_x.v1| < |c.clicked_y.v0 - c.clicked_y.v1| then
    c.clicked_x.v0 + c.clicked_x.v1 ≤ c.clicked_x.v2 + c.clicked_x.v3 ∧
    c.clicked_y.v0 + c.clicked_y.v2 ≤ c.clicked_y.v1 + c.clicked_y.v3
  else
    c.clicked_x.v0 + c.clicked_x.v2 ≤ c.clicked_x.v1 + c.clicked_x.v3 ∧
    c.clicked_y.v0 + c.clicked_y.v1 ≤ c.clicked_y.v2 + c.clicked_y.v3

/-! ## The finishing formulas of the specification, in exact arithmetic -/

/-- Truncation of a rational toward zero. -/
def trunc_toward_zero (q : ℚ) : Int := if 0 ≤ q then ⌊q⌋ else ⌈q⌉

/-- Step 3 of the specification as written: the quotient `(hi - lo) / len`. -/
def exact_scale (lo hi len : Int) : ℚ := ((hi - lo : Int) : ℚ) / (len : ℚ)

/-- Step 4 of the specification as written: `(a + b) * scale / 2 + lo`, truncated
toward zero to an integer. -/
def exact_average (a b : Int) (scale : ℚ) (lo : Int) : Int :=
  trunc_toward_zero (((a + b : Int) : ℚ) * scale / 2 + (lo : ℚ))

/-- Step 5 of the specification as written: `delta = trunc((hi - lo) / 6)`. -/
def exact_delta (lo hi : Int) : Int := trunc_toward_zero (((hi - lo : Int) : ℚ) / 6)

/-- Step 4 of the specification as written, on the four corner clicks `ul`, `ur`,
`ll`, `lr`: the raw bounds. -/
def exact_raw (old : XYinfo) (width height : Int) (ul ur ll lr : Int × Int) : XYinfo :=
  { x_min := exact_average ul.1 ll.1 (exact_scale old.x_min old.x_max width) old.x_min
    x_max := exact_average ur.1 lr.1 (exact_scale old.x_min old.x_max width) old.x_min
    y_min := exact_average ul.2 ur.2 (exact_scale old.y_min old.y_max height) old.y_min
    y_max := exact_average ll.2 lr.2 (exact_scale old.y_min old.y_max height) old.y_min }

/-- Step 5 of the specification as written, on raw bounds: each minimum lowered and
each maximum raised by the `delta` of its axis. -/
def inset (raw : XYinfo) : XYinfo :=
  { x_min := raw.x_min - exact_delta raw.x_min raw.x_max
    x_max := raw.x_max + exact_delta raw.x_min raw.x_max
    y_min := raw.y_min - exact_delta raw.y_min raw.y_max
    y_max := raw.y_max + exact_delta raw.y_min raw.y_max }

/-- Steps 3 to 5 of the specification as written, in exact arithmetic. -/
def exact_axis_range (old : XYinfo) (width height : Int) (ul ur ll lr : Int × Int) : XYinfo :=
  inset (exact_raw old width height ul ur ll lr)

/-- The raw bounds of step 4 as the code computes them, in `float`. -/
def float_raw (old : XYinfo) (width height : Int) (ul ur ll lr : Int × Int) : XYinfo :=
  { x_min := spec_average ul.1 ll.1 (spec_scale old.x_min old.x_max width) old.x_min
    x_max := spec_average ur.1 lr.1 (spec_scale old.x_min old.x_max width) old.x_min
    y_min := spec_average ul.2 ur.2 (spec_scale old.y_min old.y_max height) old.y_min
    y_max := spec_average ll.2 lr.2 (spec_scale old.y_min old.y_max height) old.y_min }

/-- Each bound of `a` is within 1 of the same bound of `b`. -/
def within_one (a b : XYinfo) : Prop :=
  |a.x_min - b.x_min| ≤ 1 ∧ |a.x_max - b.x_max| ≤ 1 ∧
  |a.y_min - b.y_min| ≤ 1 ∧ |a.y_max - b.y_max| ≤ 1

/-- Inputs of moderate size: the old bounds are at most `2 ^ 20` in absolute
value, the width and the height are at most `2 ^ 20`, and the four clicks lie on
the screen. -/
def moderate_inputs (c : Calib) (width height : Int) : Prop :=
  (|c.old_axys.x_min| ≤ 2 ^ 20 ∧ |c.old_axys.x_max| ≤ 2 ^ 20 ∧
    |c.old_axys.y_min| ≤ 2 ^ 20 ∧ |c.old_axys.y_max| ≤ 2 ^ 20) ∧
  (width ≤ 2 ^ 20 ∧ height ≤ 2 ^ 20) ∧
  (0 ≤ c.clicked_x.v0 ∧ c.clicked_x.v0 ≤ width ∧ 0 ≤ c.clicked_x.v1 ∧ c.clicked_x.v1 ≤ width ∧
    0 ≤ c.clicked_x.v2 ∧ c.clicked_x.v2 ≤ width ∧ 0 ≤ c.clicked_x.v3 ∧ c.clicked_x.v3 ≤ width) ∧
  (0 ≤ c.clicked_y.v0 ∧ c.clicked_y.v0 ≤ height ∧ 0 ≤ c.clicked_y.v1 ∧ c.clicked_y.v1 ≤ height ∧
    0 ≤ c.clicked_y.v2 ∧ c.clicked_y.v2 ≤ height ∧ 0 ≤ c.clicked_y.v3 ∧ c.clicked_y.v3 ≤ height)

/-- Four clicks on a display 15 pixels wide and 1000 pixels high, not transposed:
UL `(2, 100)`, UR `(14, 110)`, LL `(13, 900)`, LR `(14, 890)`. -/
def session4_narrow : Calib :=
  { session0 with
    num_clicks := 4, clicked_x := ⟨2, 14, 13, 14⟩, clicked_y := ⟨100, 110, 900, 890⟩ }

/-- The clicks of `session4_narrow` with the axes transposed, on a display 1000
pixels wide and 15 pixels high: UL `(100, 2)`, UR `(110, 14)`, LL `(900, 13)`,
LR `(890, 14)`. -/
def session4_narrow_swapped : Calib :=
  { session0 with
    num_clicks := 4, clicked_x := ⟨100, 110, 900, 890⟩, clicked_y := ⟨2, 14, 13, 14⟩ }

/-! ## Sequences of calls -/

/-- A call of the engine made by the event handler. -/
inductive Call where
  | add_click (x y : Int)
  | reset
deriving DecidableEq, Repr

/-- The session after a sequence of calls; `none` when one of them accesses the
click arrays out of bounds. -/
def run_calls (c : Calib) : List Call → Option Calib
  | [] => some c
  | Call.add_click x y :: rest =>
    match add_click c x y with
    | none => none
    | some (_, c') => run_calls c' rest
  | Call.reset :: rest => run_calls (reset c) rest

/-- The discipline of the event handler of the GUI (`on_button_press_event` of
`gui_gtkmm.cpp`, which calls `finish` and leaves as soon as four clicks are
stored): every `add_click` of the sequence is issued on a session that holds at
most three clicks.  A call that would be undefined ends the check. -/
def respects_capacity (c : Calib) : List Call → Bool
  | [] => true
  | Call.add_click x y :: rest =>
    decide (c.num_clicks ≤ 3) &&
      (match add_click c x y with
       | none => true
       | some (_, c') => respects_capacity c' rest)
  | Call.reset :: rest => respects_capacity (reset c) rest

/-- A fresh session with the mis-click check disabled (`--misclick 0`) and the
default double-click threshold 7. -/
def session0_nomisclick : Calib :=
  CalibratorXorgPrint ⟨0, 1000, 0, 1000⟩ false 0 7 .OUTYPE_XORGCONFD

/-! ## The targets drawn by the GUI (`gui_gtkmm.cpp`) -/

/-- The arrays `X` and `Y` of target centres that `set_display_size` computes for
a display of the given size (indices UL, UR, LL, LR); the C division of `int` is
the truncating one. -/
def set_display_size (width height : Int) : IntArr4 × IntArr4 :=
  let delta_x := Int.tdiv width num_blocks
  let delta_y := Int.tdiv height num_blocks
  (⟨delta_x, width - delta_x - 1, delta_x, width - delta_x - 1⟩,
   ⟨delta_y, delta_y, height - delta_y - 1, height - delta_y - 1⟩)

/-- An already calibrated device of range `2 ^ 28 .. 2 ^ 28 + 8` on the x axis, on a
display of 8 by 8 pixels, with the four targets of `set_display_size 8 8` as
clicks. -/
def session_far : Calib :=
  { old_axys := ⟨268435456, 268435464, 0, 8⟩
    verbose := false
    num_clicks := 4
    clicked_x := (set_display_size 8 8).1
    clicked_y := (set_display_size 8 8).2
    threshold_doubleclick := 7
    threshold_misclick := 15
    output_type := .OUTYPE_XORGCONFD }

/-! ## Relations between sessions -/

/-- The session with every stored click `(px, py)` replaced by `(py, px)`: the two
click arrays exchanged, all other fields equal. -/
def transpose (s : Calib) : Calib :=
  { s with clicked_x := s.clicked_y, clicked_y := s.clicked_x }

/-- A call of the engine: `add_click`, `reset` or `finish`. -/
inductive EngineCall where
  | add_click (x y : Int)
  | reset
  | finish (width height : Int)
deriving DecidableEq, Repr

/-- What the caller observes of a call: the boolean of `add_click`, nothing for
`reset`, and for `finish` the boolean it returns together with the bounds and the
flag handed to the writer (`none` when `finish` is refused). -/
inductive Outcome where
  | clicked (accepted : Bool)
  | was_reset
  | finished (ret : Bool) (written : Option (XYinfo × Bool))
deriving DecidableEq, Repr

/-- The outcomes of a sequence of calls and the session after it; `none` when a
call is undefined (an access outside the click arrays, or a division by a zero
width or height in `finish`). -/
def run_trace (c : Calib) : List EngineCall → Option (List Outcome × Calib)
  | [] => some ([], c)
  | EngineCall.add_click x y :: rest =>
    match add_click c x y with
    | none => none
    | some (b, c') =>
      match run_trace c' rest with
      | none => none
      | some (os, c'') => some (Outcome.clicked b :: os, c'')
  | EngineCall.reset :: rest =>
    match run_trace (reset c) rest with
    | none => none
    | some (os, c'') => some (Outcome.was_reset :: os, c'')
  | EngineCall.finish width height :: rest =>
    match finish c width height with
    | none => none
    | some r =>
      match run_trace r.state rest with
      | none => none
      | some (os, c'') => some (Outcome.finished r.ret r.written :: os, c'')

/-- The stored clicks are pairwise separated: two clicks at distinct positions
below `num_clicks` differ by more than the double-click threshold on one axis. -/
def separated (c : Calib) : Prop :=
  ∀ i j : Int, 0 ≤ i → i < j → j < c.num_clicks →
    ∀ xi yi xj yj, c.clicked_x.get? i = some xi → c.clicked_y.get? i = some yi →
      c.clicked_x.get? j = some xj → c.clicked_y.get? j = some yj →
      |xi - xj| > c.threshold_doubleclick ∨ |yi - yj| > c.threshold_doubleclick

/-- Two sessions are equivalent when they agree on both thresholds, on `old_axys`,
on `num_clicks = n ≤ 4` and on the clicks at the positions `0 .. n - 1`; the array
contents at the positions from `n` on may differ. -/
def equivalent (a b : Calib) : Prop :=
  a.threshold_doubleclick = b.threshold_doubleclick ∧
  a.threshold_misclick = b.threshold_misclick ∧
  a.old_axys = b.old_axys ∧
  a.num_clicks = b.num_clicks ∧ a.num_clicks ≤ 4 ∧
  ∀ i : Int, 0 ≤ i → i < a.num_clicks →
    a.clicked_x.get? i = b.clicked_x.get? i ∧ a.clicked_y.get? i = b.clicked_y.get? i

/-- The equivalence that `finish` respects: equivalent sessions with the same
output type, the field that selects the writer in `finish_data`. -/
def equivalent_out (a b : Calib) : Prop :=
  equivalent a b ∧ a.output_type = b.output_type

/-- Two calls of `add_click` give the same result: both are undefined, or both
return the same boolean and leave equivalent sessions of the same output type. -/
def agree_add_click (ra rb : Option (Bool × Calib)) : Prop :=
  match ra, rb with
  | none, none => True
  | some (p, a'), some (q, b') => p = q ∧ equivalent_out a' b'
  | _, _ => False

/-- Two calls of `finish` give the same result: both are undefined, or both return
the same boolean, hand the same bounds and flag to the writer (or both are
refused) and leave equivalent sessions of the same output type. -/
def agree_finish (ra rb : Option FinishResult) : Prop :=
  match ra, rb with
  | none, none => True
  | some r, some r' =>
    r.ret = r'.ret ∧ r.written = r'.written ∧ equivalent_out r.state r'.state
  | _, _ => False

/-- Two sequences of calls give the same results: both are undefined, or they
give the same outcomes and leave equivalent sessions of the same output type. -/
def agree_trace (ra rb : Option (List Outcome × Calib)) : Prop :=
  match ra, rb with
  | none, none => True
  | some (oa, a'), some (ob, b') => oa = ob ∧ equivalent_out a' b'
  | _, _ => False

/-- The session `session4` with the output type `OUTYPE_XINPUT`, which the writer
of this calibrator refuses. -/
def session4_xinput : Calib :=
  { session4 with output_type := .OUTYPE_XINPUT }

/-! # Theorems -/

/-! ## Array accesses -/

theorem get?_of_nat_lt (a : IntArr4) {k : Nat} (hk : k < 4) :
    ∃ v, a.get? (k : Int) = some v := by
  have h : k = 0 ∨ k = 1 ∨ k = 2 ∨ k = 3 := by omega
  rcases h with h | h | h | h <;> subst h <;> simp [IntArr4.get?]

/-! ## The double-click loop -/

theorem doubleclick_loop_hit (c : Calib) (x y : Int) :
    ∀ k : Nat, k ≤ 4 → (∃ i : Nat, i < k ∧ near_stored c x y (i : Int)) →
      doubleclick_loop c x y k = some true := by
  intro k
  induction k with
  | zero => intro _ h; obtain ⟨i, hi, _⟩ := h; omega
  | succ k ih =>
    intro hk h
    obtain ⟨px, hpx⟩ := get?_of_nat_lt c.clicked_x (show k < 4 by omega)
    obtain ⟨py, hpy⟩ := get?_of_nat_lt c.clicked_y (show k < 4 by omega)
    simp only [doubleclick_loop, hpx, hpy]
    split_ifs with hnear
    · rfl
    · apply ih (by omega)
      obtain ⟨i, hi, hn⟩ := h
      refine ⟨i, ?_, hn⟩
      rcases Nat.lt_succ_iff_lt_or_eq.mp hi with h1 | h1
      · exact h1
      · subst h1
        obtain ⟨qx, qy, e1, e2, h3⟩ := hn
        rw [hpx] at e1; rw [hpy] at e2
        cases e1; cases e2
        exact absurd h3 hnear

theorem doubleclick_loop_miss (c : Calib) (x y : Int) :
    ∀ k : Nat, k ≤ 4 → (¬ ∃ i : Nat, i < k ∧ near_stored c x y (i : Int)) →
      doubleclick_loop c x y k = some false := by
  intro k
  induction k with
  | zero => intro _ _; rfl
  | succ k ih =>
    intro hk h
    obtain ⟨px, hpx⟩ := get?_of_nat_lt c.clicked_x (show k < 4 by omega)
    obtain ⟨py, hpy⟩ := get?_of_nat_lt c.clicked_y (show k < 4 by omega)
    simp only [doubleclick_loop, hpx, hpy]
    split_ifs with hnear
    · exact absurd ⟨k, Nat.lt_succ_self k, px, py, hpx, hpy, hnear⟩ h
    · apply ih (by omega)
      rintro ⟨i, hi, hn⟩
      exact h ⟨i, Nat.lt_succ_of_lt hi, hn⟩

theorem doubleclick_detect_of_rule (c : Calib) (x y : Int) (hn : c.num_clicks ≤ 4)
    (h : doubleclick_rule c x y) : doubleclick_detect c x y = some true := by
  obtain ⟨ht, i, hi0, hin, hnear⟩ := h
  unfold doubleclick_detect
  rw [if_pos ⟨ht, by omega⟩]
  apply doubleclick_loop_hit c x y _ (by omega)
  refine ⟨i.toNat, by omega, ?_⟩
  rwa [Int.toNat_of_nonneg hi0]

theorem doubleclick_detect_of_not_rule (c : Calib) (x y : Int) (hn : c.num_clicks ≤ 4)
    (h : ¬ doubleclick_rule c x y) : doubleclick_detect c x y = some false := by
  unfold doubleclick_detect
  split_ifs with hg
  · apply doubleclick_loop_miss c x y _ (by omega)
    rintro ⟨i, hi, hnear⟩
    exact h ⟨hg.1, (i : Int), by omega, by omega, hnear⟩
  · rfl

/-! ## The mis-click test -/

theorem along_axis_iff (c : Calib) (v x0 y0 : Int) :
    along_axis c v x0 y0 = true ↔ alongAxis c.threshold_misclick v x0 y0 := by
  simp [along_axis, alongAxis]

theorem misclick_flag_eq_false_iff (c : Calib) (x y : Int) :
    misclick_flag c x y = false ↔ spec_aligned c x y := by
  unfold misclick_flag spec_aligned
  simp only [← along_axis_iff]
  split_ifs with h1 h2 h3
  · simp only [h1, true_and]
    cases along_axis c x c.clicked_x.v0 c.clicked_y.v0 <;>
      cases along_axis c y c.clicked_x.v0 c.clicked_y.v0 <;> simp
  · simp only [h2, true_and]
    cases along_axis c x c.clicked_x.v0 c.clicked_y.v0 <;>
      cases along_axis c y c.clicked_x.v0 c.clicked_y.v0 <;>
      cases along_axis c c.clicked_x.v1 c.clicked_x.v0 c.clicked_y.v0 <;>
      cases along_axis c c.clicked_y.v1 c.clicked_x.v0 c.clicked_y.v0 <;> simp
  · simp only [h3, true_and]
    cases along_axis c x c.clicked_x.v1 c.clicked_y.v1 <;>
      cases along_axis c y c.clicked_x.v1 c.clicked_y.v1 <;>
      cases along_axis c x c.clicked_x.v2 c.clicked_y.v2 <;>
      cases along_axis c y c.clicked_x.v2 c.clicked_y.v2 <;> simp
  · simp [h1, h2, h3]

theorem misclick_detect_iff (c : Calib) (x y : Int) :
    misclick_detect c x y = true ↔ misclick_rule c x y := by
  unfold misclick_detect misclick_rule
  split_ifs with hg
  · rw [← misclick_flag_eq_false_iff]
    simp [hg.1, hg.2]
  · simp only [Bool.false_eq_true, false_iff]
    rintro ⟨a, b, _⟩
    exact hg ⟨a, b⟩

/-! ## The three outcomes of `add_click` -/

theorem add_click_of_doubleclick (c : Calib) (x y : Int) (hn : c.num_clicks ≤ 4)
    (h : doubleclick_rule c x y) : add_click c x y = some (false, c) := by
  simp [add_click, doubleclick_detect_of_rule c x y hn h]

theorem add_click_of_misclick (c : Calib) (x y : Int) (hn : c.num_clicks ≤ 4)
    (hd : ¬ doubleclick_rule c x y) (hm : misclick_rule c x y) :
    add_click c x y = some (false, reset c) := by
  simp [add_click, doubleclick_detect_of_not_rule c x y hn hd, (misclick_detect_iff c x y).mpr hm]

theorem add_click_of_accept (c : Calib) (x y : Int) (hn : c.num_clicks ≤ 4)
    (hd : ¬ doubleclick_rule c x y) (hm : ¬ misclick_rule c x y) :
    add_click c x y =
      match c.clicked_x.set? c.num_clicks x, c.clicked_y.set? c.num_clicks y with
      | some cx, some cy =>
        some (true, { c with clicked_x := cx, clicked_y := cy, num_clicks := c.num_clicks + 1 })
      | _, _ => none := by
  have hm' : misclick_detect c x y = false := by
    rw [← Bool.not_eq_true, misclick_detect_iff]; exact hm
  simp [add_click, doubleclick_detect_of_not_rule c x y hn hd, hm']

theorem not_doubleclick_rule_of_detect (c : Calib) (x y : Int) (hn : c.num_clicks ≤ 4)
    (h : doubleclick_detect c x y = some false) : ¬ doubleclick_rule c x y := by
  intro hr
  rw [doubleclick_detect_of_rule c x y hn hr] at h
  cases h

/-! ## Claims on `add_click` -/

/-- C4. Double-click rejection: with `threshold_doubleclick > 0` and `1 ≤ n ≤ 4`
stored clicks, a click within the threshold (on both axes) of some stored click
among the first `n` makes `add_click` return `false` and leave the session exactly
as it was, whatever the mis-click threshold and the alignment of the click. -/
theorem add_click_doubleclick_rejected (c : Calib) (x y : Int)
    (ht : 0 < c.threshold_doubleclick) (_hn1 : 1 ≤ c.num_clicks) (hn4 : c.num_clicks ≤ 4)
    (h : ∃ i : Int, 0 ≤ i ∧ i < c.num_clicks ∧ ∃ px py,
      c.clicked_x.get? i = some px ∧ c.clicked_y.get? i = some py ∧
      |x - px| ≤ c.threshold_doubleclick ∧ |y - py| ≤ c.threshold_doubleclick) :
    add_click c x y = some (false, c) :=
  add_click_of_doubleclick c x y hn4 ⟨ht, h⟩

/-- Witness of C4: the click `(103, 95)` after the stored click `(100, 100)`, with
thresholds 7 and 15. -/
theorem add_click_doubleclick_rejected_witness :
    add_click session1 103 95 = some (false, session1) :=
  add_click_doubleclick_rejected session1 103 95 (by decide) (by decide) (by decide)
    ⟨0, by decide, by decide, 100, 100, rfl, rfl, by decide, by decide⟩

/-- C5. Mis-click at the second click: with exactly one stored click `(x0, y0)`,
`threshold_misclick = m > 0` and a click `(x, y)` that the double-click rule does not
reject, `add_click` returns `true` with count 2 exactly when one of `|x - x0|`,
`|x - y0|`, `|y - x0|`, `|y - y0|` is at most `m`; otherwise it returns `false` and
the count becomes 0. -/
theorem add_click_second_click (c : Calib) (x y : Int)
    (hn : c.num_clicks = 1) (hm : 0 < c.threshold_misclick)
    (hd : ¬ doubleclick_rule c x y) :
    ((∃ c', add_click c x y = some (true, c') ∧ c'.num_clicks = 2) ↔
      (|x - c.clicked_x.v0| ≤ c.threshold_misclick ∨
       |x - c.clicked_y.v0| ≤ c.threshold_misclick ∨
       |y - c.clicked_x.v0| ≤ c.threshold_misclick ∨
       |y - c.clicked_y.v0| ≤ c.threshold_misclick)) ∧
    (¬ (|x - c.clicked_x.v0| ≤ c.threshold_misclick ∨
        |x - c.clicked_y.v0| ≤ c.threshold_misclick ∨
        |y - c.clicked_x.v0| ≤ c.threshold_misclick ∨
        |y - c.clicked_y.v0| ≤ c.threshold_misclick) →
      add_click c x y = some (false, reset c) ∧ (reset c).num_clicks = 0) := by
  have hn4 : c.num_clicks ≤ 4 := by omega
  have hal : spec_aligned c x y ↔
      (|x - c.clicked_x.v0| ≤ c.threshold_misclick ∨
       |x - c.clicked_y.v0| ≤ c.threshold_misclick ∨
       |y - c.clicked_x.v0| ≤ c.threshold_misclick ∨
       |y - c.clicked_y.v0| ≤ c.threshold_misclick) := by
    simp [spec_aligned, alongAxis, hn, or_assoc]
  rw [← hal]
  by_cases ha : spec_aligned c x y
  · have hmr : ¬ misclick_rule c x y := fun h => h.2.2 ha
    have e := add_click_of_accept c x y hn4 hd hmr
    simp only [hn, IntArr4.set?] at e
    norm_num at e
    refine ⟨⟨fun _ => ha, fun _ => ⟨_, e, rfl⟩⟩, fun h => absurd ha h⟩
  · have hmr : misclick_rule c x y := ⟨hm, by omega, ha⟩
    have e := add_click_of_misclick c x y hn4 hd hmr
    refine ⟨⟨?_, fun h => absurd h ha⟩, fun _ => ⟨e, rfl⟩⟩
    rintro ⟨c', hc', _⟩
    rw [e] at hc'
    cases hc'

/-- Witness of C5: the click `(900, 110)` after `(100, 100)`: `|110 - 100| ≤ 15`. -/
theorem add_click_second_click_witness :
    ((∃ c', add_click session1 900 110 = some (true, c') ∧ c'.num_clicks = 2) ↔
      (|900 - session1.clicked_x.v0| ≤ session1.threshold_misclick ∨
       |900 - session1.clicked_y.v0| ≤ session1.threshold_misclick ∨
       |110 - session1.clicked_x.v0| ≤ session1.threshold_misclick ∨
       |110 - session1.clicked_y.v0| ≤ session1.threshold_misclick)) ∧
    (¬ (|900 - session1.clicked_x.v0| ≤ session1.threshold_misclick ∨
        |900 - session1.clicked_y.v0| ≤ session1.threshold_misclick ∨
        |110 - session1.clicked_x.v0| ≤ session1.threshold_misclick ∨
        |110 - session1.clicked_y.v0| ≤ session1.threshold_misclick) →
      add_click session1 900 110 = some (false, reset session1) ∧
        (reset session1).num_clicks = 0) :=
  add_click_second_click session1 900 110 (by decide) (by decide)
    (not_doubleclick_rule_of_detect session1 900 110 (by decide) (by decide))

/-- C6. Mis-click at the third click: with exactly two stored clicks `c0`, `c1`,
`threshold_misclick > 0` and a click `(x, y)` that the double-click rule does not
reject, `add_click` returns `true` with count 3 exactly when
`(alongAxis(y, c0.x, c0.y) ∧ alongAxis(c1.x, c0.x, c0.y)) ∨
(alongAxis(x, c0.x, c0.y) ∧ alongAxis(c1.y, c0.x, c0.y))`; otherwise it returns
`false` and the count becomes 0. -/
theorem add_click_third_click (c : Calib) (x y : Int)
    (hn : c.num_clicks = 2) (hm : 0 < c.threshold_misclick)
    (hd : ¬ doubleclick_rule c x y) :
    ((∃ c', add_click c x y = some (true, c') ∧ c'.num_clicks = 3) ↔
      ((alongAxis c.threshold_misclick y c.clicked_x.v0 c.clicked_y.v0 ∧
        alongAxis c.threshold_misclick c.clicked_x.v1 c.clicked_x.v0 c.clicked_y.v0) ∨
       (alongAxis c.threshold_misclick x c.clicked_x.v0 c.clicked_y.v0 ∧
        alongAxis c.threshold_misclick c.clicked_y.v1 c.clicked_x.v0 c.clicked_y.v0))) ∧
    (¬ ((alongAxis c.threshold_misclick y c.clicked_x.v0 c.clicked_y.v0 ∧
         alongAxis c.threshold_misclick c.clicked_x.v1 c.clicked_x.v0 c.clicked_y.v0) ∨
        (alongAxis c.threshold_misclick x c.clicked_x.v0 c.clicked_y.v0 ∧
         alongAxis c.threshold_misclick c.clicked_y.v1 c.clicked_x.v0 c.clicked_y.v0)) →
      add_click c x y = some (false, reset c) ∧ (reset c).num_clicks = 0) := by
  have hn4 : c.num_clicks ≤ 4 := by omega
  have hal : spec_aligned c x y ↔
      ((alongAxis c.threshold_misclick y c.clicked_x.v0 c.clicked_y.v0 ∧
        alongAxis c.threshold_misclick c.clicked_x.v1 c.clicked_x.v0 c.clicked_y.v0) ∨
       (alongAxis c.threshold_misclick x c.clicked_x.v0 c.clicked_y.v0 ∧
        alongAxis c.threshold_misclick c.clicked_y.v1 c.clicked_x.v0 c.clicked_y.v0)) := by
    simp [spec_aligned, hn]
  rw [← hal]
  by_cases ha : spec_aligned c x y
  · have hmr : ¬ misclick_rule c x y := fun h => h.2.2 ha
    have e := add_click_of_accept c x y hn4 hd hmr
    simp only [hn, IntArr4.set?] at e
    norm_num at e
    refine ⟨⟨fun _ => ha, fun _ => ⟨_, e, rfl⟩⟩, fun h => absurd ha h⟩
  · have hmr : misclick_rule c x y := ⟨hm, by omega, ha⟩
    have e := add_click_of_misclick c x y hn4 hd hmr
    refine ⟨⟨?_, fun h => absurd h ha⟩, fun _ => ⟨e, rfl⟩⟩
    rintro ⟨c', hc', _⟩
    rw [e] at hc'
    cases hc'

/-- Witness of C6: the click `(110, 900)` after `(100, 100)` and `(900, 110)`. -/
theorem add_click_third_click_witness :
    ((∃ c', add_click session2 110 900 = some (true, c') ∧ c'.num_clicks = 3) ↔
      ((alongAxis session2.threshold_misclick 900 session2.clicked_x.v0 session2.clicked_y.v0 ∧
        alongAxis session2.threshold_misclick session2.clicked_x.v1 session2.clicked_x.v0
          session2.clicked_y.v0) ∨
       (alongAxis session2.threshold_misclick 110 session2.clicked_x.v0 session2.clicked_y.v0 ∧
        alongAxis session2.threshold_misclick session2.clicked_y.v1 session2.clicked_x.v0
          session2.clicked_y.v0))) ∧
    (¬ ((alongAxis session2.threshold_misclick 900 session2.clicked_x.v0 session2.clicked_y.v0 ∧
         alongAxis session2.threshold_misclick session2.clicked_x.v1 session2.clicked_x.v0
           session2.clicked_y.v0) ∨
        (alongAxis session2.threshold_misclick 110 session2.clicked_x.v0 session2.clicked_y.v0 ∧
         alongAxis session2.threshold_misclick session2.clicked_y.v1 session2.clicked_x.v0
           session2.clicked_y.v0)) →
      add_click session2 110 900 = some (false, reset session2) ∧
        (reset session2).num_clicks = 0) :=
  add_click_third_click session2 110 900 (by decide) (by decide)
    (not_doubleclick_rule_of_detect session2 110 900 (by decide) (by decide))

/-- C7. Mis-click at the fourth click: with exactly three stored clicks `c0`, `c1`,
`c2`, `threshold_misclick > 0` and a click `(x, y)` that the double-click rule does
not reject, `add_click` returns `true` with count 4 exactly when
`(alongAxis(x, c1.x, c1.y) ∧ alongAxis(y, c2.x, c2.y)) ∨
(alongAxis(y, c1.x, c1.y) ∧ alongAxis(x, c2.x, c2.y))`, a condition in which `c0`
does not occur; otherwise it returns `false` and the count becomes 0. -/
theorem add_click_fourth_click (c : Calib) (x y : Int)
    (hn : c.num_clicks = 3) (hm : 0 < c.threshold_misclick)
    (hd : ¬ doubleclick_rule c x y) :
    ((∃ c', add_click c x y = some (true, c') ∧ c'.num_clicks = 4) ↔
      ((alongAxis c.threshold_misclick x c.clicked_x.v1 c.clicked_y.v1 ∧
        alongAxis c.threshold_misclick y c.clicked_x.v2 c.clicked_y.v2) ∨
       (alongAxis c.threshold_misclick y c.clicked_x.v1 c.clicked_y.v1 ∧
        alongAxis c.threshold_misclick x c.clicked_x.v2 c.clicked_y.v2))) ∧
    (¬ ((alongAxis c.threshold_misclick x c.clicked_x.v1 c.clicked_y.v1 ∧
         alongAxis c.threshold_misclick y c.clicked_x.v2 c.clicked_y.v2) ∨
        (alongAxis c.threshold_misclick y c.clicked_x.v1 c.clicked_y.v1 ∧
         alongAxis c.threshold_misclick x c.clicked_x.v2 c.clicked_y.v2)) →
      add_click c x y = some (false, reset c) ∧ (reset c).num_clicks = 0) := by
  have hn4 : c.num_clicks ≤ 4 := by omega
  have hal : spec_aligned c x y ↔
      ((alongAxis c.threshold_misclick x c.clicked_x.v1 c.clicked_y.v1 ∧
        alongAxis c.threshold_misclick y c.clicked_x.v2 c.clicked_y.v2) ∨
       (alongAxis c.threshold_misclick y c.clicked_x.v1 c.clicked_y.v1 ∧
        alongAxis c.threshold_misclick x c.clicked_x.v2 c.clicked_y.v2)) := by
    simp [spec_aligned, hn]
  rw [← hal]
  by_cases ha : spec_aligned c x y
  · have hmr : ¬ misclick_rule c x y := fun h => h.2.2 ha
    have e := add_click_of_accept c x y hn4 hd hmr
    simp only [hn, IntArr4.set?] at e
    norm_num at e
    refine ⟨⟨fun _ => ha, fun _ => ⟨_, e, rfl⟩⟩, fun h => absurd ha h⟩
  · have hmr : misclick_rule c x y := ⟨hm, by omega, ha⟩
    have e := add_click_of_misclick c x y hn4 hd hmr
    refine ⟨⟨?_, fun h => absurd h ha⟩, fun _ => ⟨e, rfl⟩⟩
    rintro ⟨c', hc', _⟩
    rw [e] at hc'
    cases hc'

/-- Witness of C7: the click `(890, 890)` after `(100, 100)`, `(900, 110)` and
`(110, 900)`. -/
theorem add_click_fourth_click_witness :
    ((∃ c', add_click session3 890 890 = some (true, c') ∧ c'.num_clicks = 4) ↔
      ((alongAxis session3.threshold_misclick 890 session3.clicked_x.v1 session3.clicked_y.v1 ∧
        alongAxis session3.threshold_misclick 890 session3.clicked_x.v2 session3.clicked_y.v2) ∨
       (alongAxis session3.threshold_misclick 890 session3.clicked_x.v1 session3.clicked_y.v1 ∧
        alongAxis session3.threshold_misclick 890 session3.clicked_x.v2
          session3.clicked_y.v2))) ∧
    (¬ ((alongAxis session3.threshold_misclick 890 session3.clicked_x.v1 session3.clicked_y.v1 ∧
         alongAxis session3.threshold_misclick 890 session3.clicked_x.v2 session3.clicked_y.v2) ∨
        (alongAxis session3.threshold_misclick 890 session3.clicked_x.v1 session3.clicked_y.v1 ∧
         alongAxis session3.threshold_misclick 890 session3.clicked_x.v2
           session3.clicked_y.v2)) →
      add_click session3 890 890 = some (false, reset session3) ∧
        (reset session3).num_clicks = 0) :=
  add_click_fourth_click session3 890 890 (by decide) (by decide)
    (not_doubleclick_rule_of_detect session3 890 890 (by decide) (by decide))

/-- C8. Acceptance appends in order: from a session with `0 ≤ n ≤ 3` stored clicks
`add_click` always returns; when it returns `true` the new session has count
`n + 1`, holds `(x, y)` at position `n`, keeps the clicks at the positions below
`n`, both thresholds and `old_axys`; and it returns `true` exactly when neither
the double-click rule nor the mis-click rule fires. -/
theorem add_click_accept_appends (c : Calib) (x y : Int)
    (hn0 : 0 ≤ c.num_clicks) (hn3 : c.num_clicks ≤ 3) :
    (∃ r, add_click c x y = some r) ∧
    (∀ c', add_click c x y = some (true, c') →
      c'.num_clicks = c.num_clicks + 1 ∧
      c'.clicked_x.get? c.num_clicks = some x ∧
      c'.clicked_y.get? c.num_clicks = some y ∧
      (∀ i : Int, 0 ≤ i → i < c.num_clicks →
        c'.clicked_x.get? i = c.clicked_x.get? i ∧ c'.clicked_y.get? i = c.clicked_y.get? i) ∧
      c'.threshold_doubleclick = c.threshold_doubleclick ∧
      c'.threshold_misclick = c.threshold_misclick ∧
      c'.old_axys = c.old_axys) ∧
    ((∃ c', add_click c x y = some (true, c')) ↔
      (¬ doubleclick_rule c x y ∧ ¬ misclick_rule c x y)) := by
  have hn4 : c.num_clicks ≤ 4 := by omega
  by_cases hd : doubleclick_rule c x y
  · have e := add_click_of_doubleclick c x y hn4 hd
    refine ⟨⟨_, e⟩, ?_, ?_⟩
    · intro c' h; rw [e] at h; cases h
    · constructor
      · rintro ⟨c', h⟩; rw [e] at h; cases h
      · rintro ⟨h, _⟩; exact absurd hd h
  by_cases hm : misclick_rule c x y
  · have e := add_click_of_misclick c x y hn4 hd hm
    refine ⟨⟨_, e⟩, ?_, ?_⟩
    · intro c' h; rw [e] at h; cases h
    · constructor
      · rintro ⟨c', h⟩; rw [e] at h; cases h
      · rintro ⟨_, h⟩; exact absurd hm h
  have e := add_click_of_accept c x y hn4 hd hm
  have hcases : c.num_clicks = 0 ∨ c.num_clicks = 1 ∨ c.num_clicks = 2 ∨ c.num_clicks = 3 := by
    omega
  rcases hcases with h | h | h | h <;>
  · simp only [h, IntArr4.set?] at e
    norm_num at e
    refine ⟨⟨_, e⟩, ?_, ⟨fun _ => ⟨hd, hm⟩, fun _ => ⟨_, e⟩⟩⟩
    intro c' hc'
    rw [e] at hc'
    simp only [Option.some.injEq, Prod.mk.injEq, true_and] at hc'
    subst hc'
    refine ⟨by simp [h], by simp [h, IntArr4.get?], by simp [h, IntArr4.get?], ?_, rfl, rfl, rfl⟩
    intro i hi0 hi
    rw [h] at hi
    have hi' : i = 0 ∨ i = 1 ∨ i = 2 := by omega
    rcases hi' with hi' | hi' | hi' <;> subst hi' <;> first | omega | simp [IntArr4.get?]

/-- Witness of C8: the click `(110, 900)` offered to `session2`. -/
theorem add_click_accept_appends_witness :
    (∃ r, add_click session2 110 900 = some r) ∧
    (∀ c', add_click session2 110 900 = some (true, c') →
      c'.num_clicks = session2.num_clicks + 1 ∧
      c'.clicked_x.get? session2.num_clicks = some 110 ∧
      c'.clicked_y.get? session2.num_clicks = some 900 ∧
      (∀ i : Int, 0 ≤ i → i < session2.num_clicks →
        c'.clicked_x.get? i = session2.clicked_x.get? i ∧
        c'.clicked_y.get? i = session2.clicked_y.get? i) ∧
      c'.threshold_doubleclick = session2.threshold_doubleclick ∧
      c'.threshold_misclick = session2.threshold_misclick ∧
      c'.old_axys = session2.old_axys) ∧
    ((∃ c', add_click session2 110 900 = some (true, c')) ↔
      (¬ doubleclick_rule session2 110 900 ∧ ¬ misclick_rule session2 110 900)) :=
  add_click_accept_appends session2 110 900 (by decide) (by decide)

/-- C9. The first click is always accepted: with no stored click, whatever the
thresholds and the coordinates, `add_click` returns `true` and the session then
holds the single click `(x, y)`, everything else being as before. -/
theorem add_click_first_click (c : Calib) (x y : Int) (hn : c.num_clicks = 0) :
    add_click c x y =
      some (true, { c with
        clicked_x := { c.clicked_x with v0 := x }
        clicked_y := { c.clicked_y with v0 := y }
        num_clicks := 1 }) := by
  have hd : ¬ doubleclick_rule c x y := by
    rintro ⟨_, i, h0, h1, _⟩; omega
  have hm : ¬ misclick_rule c x y := by
    rintro ⟨_, h, _⟩; omega
  have e := add_click_of_accept c x y (by omega) hd hm
  simp only [hn, IntArr4.set?] at e
  norm_num at e
  exact e

/-- Witness of C9: the off-screen click `(-5, 4000)` offered to the fresh session. -/
theorem add_click_first_click_witness :
    add_click session0 (-5) 4000 =
      some (true, { session0 with
        clicked_x := { session0.clicked_x with v0 := -5 }
        clicked_y := { session0.clicked_y with v0 := 4000 }
        num_clicks := 1 }) :=
  add_click_first_click session0 (-5) 4000 (by decide)

/-! ## Rounding to binary32 -/

theorem roundEven_isNearestEven (q : ℚ) : IsNearestEven q (roundEven q) := by
  have h1 : (⌊q⌋ : ℚ) ≤ q := Int.floor_le q
  have h2 : q < ⌊q⌋ + 1 := Int.lt_floor_add_one q
  unfold IsNearestEven roundEven
  split_ifs with ha hb hc
  · left; rw [abs_lt]; constructor <;> linarith
  · left; rw [abs_lt]; push_cast; constructor <;> linarith
  · right
    have : q - ⌊q⌋ = 1/2 := le_antisymm (not_lt.mp hb) (not_lt.mp ha)
    exact ⟨by rw [this]; norm_num, hc⟩
  · right
    have : q - ⌊q⌋ = 1/2 := le_antisymm (not_lt.mp hb) (not_lt.mp ha)
    refine ⟨?_, by omega⟩
    push_cast
    have : q - (⌊q⌋ + 1) = -(1/2) := by linarith
    rw [this]; norm_num

theorem isNearestEven_unique {q : ℚ} {m n : ℤ} (hm : IsNearestEven q m)
    (hn : IsNearestEven q n) : m = n := by
  have hm1 : |q - m| ≤ 1/2 := by rcases hm with h | h; exact h.le; exact h.1.le
  have hn1 : |q - n| ≤ 1/2 := by rcases hn with h | h; exact h.le; exact h.1.le
  rw [abs_le] at hm1 hn1
  have hle : ((m - n : ℤ) : ℚ) ≤ 1 := by push_cast; linarith
  have hge : (-1 : ℚ) ≤ ((m - n : ℤ) : ℚ) := by push_cast; linarith
  have hle' : m - n ≤ 1 := by exact_mod_cast hle
  have hge' : -1 ≤ m - n := by exact_mod_cast hge
  by_contra hne
  have hcase : m = n + 1 ∨ n = m + 1 := by omega
  rcases hcase with h | h
  · subst h
    rcases hm with hm | hm
    · rw [abs_lt] at hm; push_cast at hm hn1; 
      rcases hn with hn | hn
      · rw [abs_lt] at hn; linarith [hm.1, hn.2]
      · have := hn.1; rw [abs_eq (by norm_num)] at this
        rcases this with t | t <;> linarith [hm.1, hm.2]
    · rcases hn with hn | hn
      · rw [abs_lt] at hn
        have := hm.1; rw [abs_eq (by norm_num)] at this; push_cast at this
        rcases this with t | t <;> linarith [hn.1, hn.2]
      · omega
  · subst h
    rcases hn with hn | hn
    · rw [abs_lt] at hn; push_cast at hn hm1
      rcases hm with hm | hm
      · rw [abs_lt] at hm; linarith [hm.2, hn.1]
      · have := hm.1; rw [abs_eq (by norm_num)] at this
        rcases this with t | t <;> linarith [hn.1, hn.2]
    · rcases hm with hm | hm
      · rw [abs_lt] at hm
        have := hn.1; rw [abs_eq (by norm_num)] at this; push_cast at this
        rcases this with t | t <;> linarith [hm.1, hm.2]
      · omega

theorem roundEven_eq_of {q : ℚ} {m : ℤ} (h : IsNearestEven q m) : roundEven q = m :=
  isNearestEven_unique (roundEven_isNearestEven q) h

theorem roundEven_intCast (n : ℤ) : roundEven (n : ℚ) = n :=
  roundEven_eq_of (Or.inl (by simp))

theorem roundEven_neg (q : ℚ) : roundEven (-q) = -roundEven q := by
  apply roundEven_eq_of
  have h := roundEven_isNearestEven q
  unfold IsNearestEven at *
  have e : -q - ((-roundEven q : ℤ) : ℚ) = -(q - roundEven q) := by push_cast; ring
  rw [e, abs_neg]
  rcases h with h | h
  · exact Or.inl h
  · exact Or.inr ⟨h.1, by omega⟩

theorem roundEven_mono {a b : ℚ} (h : a ≤ b) : roundEven a ≤ roundEven b := by
  have ha := roundEven_isNearestEven a
  have hb := roundEven_isNearestEven b
  by_contra hlt
  push_neg at hlt
  have h1 : roundEven b + 1 ≤ roundEven a := hlt
  have h1q : (roundEven b : ℚ) + 1 ≤ roundEven a := by exact_mod_cast h1
  have ha1 : |a - roundEven a| ≤ 1/2 := by rcases ha with h | h; exact h.le; exact h.1.le
  have hb1 : |b - roundEven b| ≤ 1/2 := by rcases hb with h | h; exact h.le; exact h.1.le
  rw [abs_le] at ha1 hb1
  -- a ≥ ra - 1/2 ≥ rb + 1/2 ≥ b, so a = b
  have hab : a = b := le_antisymm h (by linarith)
  subst hab
  exact absurd (isNearestEven_unique ha hb) (by omega)

theorem f32_zero : f32 0 = 0 := by simp [f32]

theorem two_zpow_pos (e : ℤ) : (0 : ℚ) < 2 ^ e := zpow_pos (by norm_num) e

theorem ulp_exp_eq_of {q : ℚ} {e : ℤ} (h1 : (2 : ℚ) ^ e ≤ |q|) (h2 : |q| < 2 ^ (e + 1)) :
    ulp_exp q = e - 23 := by
  have hpos : 0 < |q| := lt_of_lt_of_le (two_zpow_pos e) h1
  have a : e ≤ Int.log 2 |q| := (Int.zpow_le_iff_le_log (by norm_num) hpos).mp (by exact_mod_cast h1)
  have b : Int.log 2 |q| < e + 1 := (Int.lt_zpow_iff_log_lt (by norm_num) hpos).mp (by exact_mod_cast h2)
  unfold ulp_exp; omega

theorem ulp_exp_neg (q : ℚ) : ulp_exp (-q) = ulp_exp q := by simp [ulp_exp]

theorem f32_neg (q : ℚ) : f32 (-q) = -f32 q := by
  unfold f32
  by_cases h : q = 0
  · simp [h]
  · rw [if_neg h, if_neg (neg_ne_zero.mpr h), ulp_exp_neg, neg_div, roundEven_neg]
    push_cast; ring

theorem scaled_bounds {q : ℚ} (hq : 0 < q) :
    (2 : ℚ) ^ (23 : ℤ) ≤ q / 2 ^ ulp_exp q ∧ q / 2 ^ ulp_exp q < 2 ^ (24 : ℤ) := by
  have h1 : ((2 : ℕ) : ℚ) ^ Int.log 2 |q| ≤ |q| := Int.zpow_log_le_self (by norm_num) (abs_pos.mpr hq.ne')
  have h2 : |q| < ((2 : ℕ) : ℚ) ^ (Int.log 2 |q| + 1) := Int.lt_zpow_succ_log_self (by norm_num) _
  rw [abs_of_pos hq] at h1 h2
  push_cast at h1 h2
  have hp := two_zpow_pos (ulp_exp q)
  have e1 : (2 : ℚ) ^ Int.log 2 |q| = 2 ^ (23 : ℤ) * 2 ^ ulp_exp q := by
    rw [← zpow_add₀ (by norm_num : (2 : ℚ) ≠ 0)]; congr 1; unfold ulp_exp; ring
  have e2 : (2 : ℚ) ^ (Int.log 2 |q| + 1) = 2 ^ (24 : ℤ) * 2 ^ ulp_exp q := by
    rw [← zpow_add₀ (by norm_num : (2 : ℚ) ≠ 0)]; congr 1; unfold ulp_exp; ring
  rw [abs_of_pos hq] at e1 e2
  constructor
  · rw [le_div_iff₀ hp]; linarith
  · rw [div_lt_iff₀ hp]; linarith

theorem roundEven_scaled_bounds {q : ℚ} (hq : 0 < q) :
    (2 : ℤ) ^ 23 ≤ roundEven (q / 2 ^ ulp_exp q) ∧ roundEven (q / 2 ^ ulp_exp q) ≤ 2 ^ 24 := by
  obtain ⟨h1, h2⟩ := scaled_bounds hq
  constructor
  · have := roundEven_mono h1
    have e : ((2 : ℚ) ^ (23 : ℤ)) = ((2 ^ 23 : ℤ) : ℚ) := by norm_num
    rw [e, roundEven_intCast] at this; exact this
  · have := roundEven_mono h2.le
    have e : ((2 : ℚ) ^ (24 : ℤ)) = ((2 ^ 24 : ℤ) : ℚ) := by norm_num
    rw [e, roundEven_intCast] at this; exact this

theorem f32_bounds_pos {q : ℚ} (hq : 0 < q) :
    (2 : ℚ) ^ Int.log 2 |q| ≤ f32 q ∧ f32 q ≤ 2 ^ (Int.log 2 |q| + 1) := by
  obtain ⟨h1, h2⟩ := roundEven_scaled_bounds hq
  have hp := two_zpow_pos (ulp_exp q)
  have e1 : (2 : ℚ) ^ Int.log 2 |q| = 2 ^ (23 : ℤ) * 2 ^ ulp_exp q := by
    rw [← zpow_add₀ (by norm_num : (2 : ℚ) ≠ 0)]; congr 1; unfold ulp_exp; ring
  have e2 : (2 : ℚ) ^ (Int.log 2 |q| + 1) = 2 ^ (24 : ℤ) * 2 ^ ulp_exp q := by
    rw [← zpow_add₀ (by norm_num : (2 : ℚ) ≠ 0)]; congr 1; unfold ulp_exp; ring
  have h1q : ((2 : ℚ) ^ (23 : ℤ)) ≤ (roundEven (q / 2 ^ ulp_exp q) : ℚ) := by
    have : (((2 : ℤ) ^ 23 : ℤ) : ℚ) ≤ (roundEven (q / 2 ^ ulp_exp q) : ℚ) := by exact_mod_cast h1
    norm_num at this ⊢; exact this
  have h2q : (roundEven (q / 2 ^ ulp_exp q) : ℚ) ≤ ((2 : ℚ) ^ (24 : ℤ)) := by
    have : (roundEven (q / 2 ^ ulp_exp q) : ℚ) ≤ (((2 : ℤ) ^ 24 : ℤ) : ℚ) := by exact_mod_cast h2
    norm_num at this ⊢; exact this
  unfold f32
  rw [if_neg hq.ne', e1, e2]
  exact ⟨mul_le_mul_of_nonneg_right h1q hp.le, mul_le_mul_of_nonneg_right h2q hp.le⟩

theorem f32_pos {q : ℚ} (hq : 0 < q) : 0 < f32 q :=
  lt_of_lt_of_le (two_zpow_pos _) (f32_bounds_pos hq).1

theorem f32_mono_pos {a b : ℚ} (ha : 0 < a) (h : a ≤ b) : f32 a ≤ f32 b := by
  have hb : 0 < b := lt_of_lt_of_le ha h
  have hlog : Int.log 2 |a| ≤ Int.log 2 |b| := by
    rw [abs_of_pos ha, abs_of_pos hb]; exact Int.log_mono_right ha h
  rcases hlog.lt_or_eq with hlt | heq
  · calc f32 a ≤ 2 ^ (Int.log 2 |a| + 1) := (f32_bounds_pos ha).2
      _ ≤ 2 ^ Int.log 2 |b| := zpow_le_zpow_right₀ (by norm_num) (by omega)
      _ ≤ f32 b := (f32_bounds_pos hb).1
  · have hu : ulp_exp a = ulp_exp b := by unfold ulp_exp; rw [heq]
    unfold f32
    rw [if_neg ha.ne', if_neg hb.ne', hu]
    have hp := two_zpow_pos (ulp_exp b)
    apply mul_le_mul_of_nonneg_right _ hp.le
    exact_mod_cast roundEven_mono (div_le_div_of_nonneg_right h hp.le)

theorem f32_mono {a b : ℚ} (h : a ≤ b) : f32 a ≤ f32 b := by
  rcases lt_trichotomy a 0 with ha | ha | ha
  · rcases lt_trichotomy b 0 with hb | hb | hb
    · have := f32_mono_pos (neg_pos.mpr hb) (neg_le_neg h)
      rw [f32_neg, f32_neg] at this; linarith
    · subst hb; rw [f32_zero]
      have := f32_pos (neg_pos.mpr ha); rw [f32_neg] at this; linarith
    · have h1 := f32_pos (neg_pos.mpr ha); rw [f32_neg] at h1
      have h2 := f32_pos hb; linarith
  · subst ha
    rcases h.lt_or_eq with hb | hb
    · rw [f32_zero]; exact (f32_pos hb).le
    · rw [← hb]
  · exact f32_mono_pos ha h

theorem f32_eq_of {q : ℚ} {e m : ℤ} (h1 : (2 : ℚ) ^ e ≤ |q|) (h2 : |q| < 2 ^ (e + 1))
    (hm : IsNearestEven (q / 2 ^ (e - 23)) m) : f32 q = m * 2 ^ (e - 23) := by
  have hq : q ≠ 0 := by
    intro h; rw [h, abs_zero] at h1; exact absurd (two_zpow_pos e) (not_lt.mpr h1)
  unfold f32
  rw [if_neg hq, ulp_exp_eq_of h1 h2, roundEven_eq_of hm]

theorem int_of_float_mono {a b : ℚ} (h : a ≤ b) : int_of_float a ≤ int_of_float b := by
  unfold int_of_float
  split_ifs with ha hb hb
  · exact Int.floor_mono h
  · exact absurd (le_trans ha h) hb
  · push_neg at ha
    have h1 : ⌈a⌉ ≤ 0 := Int.ceil_le.mpr (by exact_mod_cast ha.le)
    have h2 : 0 ≤ ⌊b⌋ := Int.le_floor.mpr (by exact_mod_cast hb)
    omega
  · exact Int.ceil_mono h

theorem int_of_float_intCast (n : ℤ) : int_of_float (n : ℚ) = n := by
  unfold int_of_float; split_ifs <;> simp

theorem f32_of_scaled_int {q : ℚ} (k : ℤ) (hk : q / 2 ^ ulp_exp q = k) : f32 q = q := by
  unfold f32
  split_ifs with h
  · exact h.symm
  · rw [hk, roundEven_intCast, ← hk]
    exact div_mul_cancel₀ q (two_zpow_pos _).ne'

theorem f32_intCast (n : ℤ) (hn : |n| ≤ 2 ^ 24) : f32 (n : ℚ) = n := by
  by_cases h0 : n = 0
  · subst h0; simp [f32_zero]
  have hpos : (0 : ℚ) < |(n : ℚ)| := abs_pos.mpr (by exact_mod_cast h0)
  rcases hn.lt_or_eq with hlt | heq
  · -- the unit in the last place is at most 1
    have hq : |(n : ℚ)| < ((2 : ℕ) : ℚ) ^ (24 : ℤ) := by
      have : ((|n| : ℤ) : ℚ) < ((2 ^ 24 : ℤ) : ℚ) := by exact_mod_cast hlt
      rw [Int.cast_abs] at this; norm_num at this ⊢; exact this
    have hlog : Int.log 2 |(n : ℚ)| < 24 := (Int.lt_zpow_iff_log_lt (by norm_num) hpos).mp hq
    obtain ⟨j, hj⟩ : ∃ j : ℕ, ulp_exp (n : ℚ) = -(j : ℤ) := by
      refine ⟨(-ulp_exp (n : ℚ)).toNat, ?_⟩
      have : ulp_exp (n : ℚ) ≤ 0 := by unfold ulp_exp; omega
      omega
    apply f32_of_scaled_int (n * 2 ^ j)
    rw [hj, zpow_neg, zpow_natCast]
    push_cast
    rw [div_eq_mul_inv, inv_inv]
  · have hn' : n = 2 ^ 24 ∨ n = -2 ^ 24 := by
      rcases abs_cases n with h | h <;> omega
    rcases hn' with h | h
    · subst h
      rw [f32_eq_of (e := 24) (m := 2 ^ 23) (by norm_num) (by norm_num)
        (Or.inl (by norm_num))]
      norm_num
    · subst h
      rw [f32_eq_of (e := 24) (m := -2 ^ 23) (by norm_num) (by norm_num)
        (Or.inl (by norm_num))]
      norm_num

/-! ## `finish` against the formulas of the specification -/

theorem f32_ne_zero {q : ℚ} (hq : q ≠ 0) : f32 q ≠ 0 := by
  rcases lt_or_gt_of_ne hq with h | h
  · have := f32_pos (neg_pos.mpr h); rw [f32_neg] at this; linarith
  · exact (f32_pos h).ne'

theorem float_of_int_two : float_of_int 2 = 2 := by
  simpa [float_of_int] using f32_intCast 2 (by norm_num)

theorem float_of_int_six : float_of_int (num_blocks - 2) = 6 := by
  simpa [float_of_int, num_blocks] using f32_intCast 6 (by norm_num)

theorem float_of_int_ne_zero {i : Int} (hi : i ≠ 0) : float_of_int i ≠ 0 :=
  f32_ne_zero (by exact_mod_cast hi)

theorem scaled_average_eq (a b : Int) (scale : ℚ) (lo : Int) :
    scaled_average a b scale lo = some (spec_average a b scale lo) := by
  unfold scaled_average
  rw [float_of_int_two]
  simp [spec_average, float_div, float_mul, float_add, float_of_int]

theorem inset_delta_eq (lo hi : Int) : inset_delta lo hi = some (spec_delta lo hi) := by
  unfold inset_delta
  rw [float_of_int_six]
  simp [spec_delta, float_div, float_of_int]

theorem finish_axys_eq (c : Calib) (width height : Int) (hw : width ≠ 0) (hh : height ≠ 0) :
    finish_axys c width height =
      some (spec_axis_range c.old_axys width height
        (c.clicked_x.v0, c.clicked_y.v0) (c.clicked_x.v1, c.clicked_y.v1)
        (c.clicked_x.v2, c.clicked_y.v2) (c.clicked_x.v3, c.clicked_y.v3)) := by
  have hw' : f32 (width : ℚ) ≠ 0 := float_of_int_ne_zero hw
  have hh' : f32 (height : ℚ) ≠ 0 := float_of_int_ne_zero hh
  simp [finish_axys, spec_axis_range, spec_scale, float_div, hw', hh', scaled_average_eq,
    inset_delta_eq, float_of_int]

theorem finish_eq_of_not_swapped (c : Calib) (width height : Int) (hn : c.num_clicks = 4)
    (hs : ¬ |c.clicked_x.v0 - c.clicked_x.v1| < |c.clicked_y.v0 - c.clicked_y.v1|)
    (hw : width ≠ 0) (hh : height ≠ 0) :
    finish c width height =
      some { ret := finish_data c
               (spec_axis_range c.old_axys width height
                 (c.clicked_x.v0, c.clicked_y.v0) (c.clicked_x.v1, c.clicked_y.v1)
                 (c.clicked_x.v2, c.clicked_y.v2) (c.clicked_x.v3, c.clicked_y.v3)) false
             written := some
               (spec_axis_range c.old_axys width height
                 (c.clicked_x.v0, c.clicked_y.v0) (c.clicked_x.v1, c.clicked_y.v1)
                 (c.clicked_x.v2, c.clicked_y.v2) (c.clicked_x.v3, c.clicked_y.v3), false)
             state := c } := by
  simp [finish, get_numclicks, hn, hs, finish_axys_eq c width height hw hh]

theorem finish_eq_of_swapped (c : Calib) (width height : Int) (hn : c.num_clicks = 4)
    (hs : |c.clicked_x.v0 - c.clicked_x.v1| < |c.clicked_y.v0 - c.clicked_y.v1|)
    (hw : width ≠ 0) (hh : height ≠ 0) :
    finish c width height =
      some { ret := finish_data (swap_LL_UR c)
               (spec_unswap (spec_axis_range c.old_axys width height
                 (c.clicked_x.v0, c.clicked_y.v0) (c.clicked_x.v2, c.clicked_y.v2)
                 (c.clicked_x.v1, c.clicked_y.v1) (c.clicked_x.v3, c.clicked_y.v3))) true
             written := some
               (spec_unswap (spec_axis_range c.old_axys width height
                 (c.clicked_x.v0, c.clicked_y.v0) (c.clicked_x.v2, c.clicked_y.v2)
                 (c.clicked_x.v1, c.clicked_y.v1) (c.clicked_x.v3, c.clicked_y.v3)), true)
             state := swap_LL_UR c } := by
  simp [finish, get_numclicks, hn, hs, finish_axys_eq _ width height hw hh, swap_LL_UR,
    spec_unswap]

/-! ## Evaluation at the witnesses of the specification -/

theorem f32_eq_of_lt {q : ℚ} {e m : ℤ} (h1 : (2 : ℚ) ^ e ≤ |q|) (h2 : |q| < 2 ^ (e + 1))
    (hm : |q / 2 ^ (e - 23) - m| < 1 / 2) : f32 q = m * 2 ^ (e - 23) :=
  f32_eq_of h1 h2 (Or.inl hm)

theorem int_of_float_eq_of_nonneg {q : ℚ} {n : ℤ} (h0 : 0 ≤ n) (h1 : (n : ℚ) ≤ q)
    (h2 : q < n + 1) : int_of_float q = n := by
  have hq : (0 : ℚ) ≤ q := le_trans (by exact_mod_cast h0) h1
  unfold int_of_float
  rw [if_pos hq]
  exact Int.floor_eq_iff.mpr ⟨h1, h2⟩

theorem f32_natCast_small (n : ℕ) (hn : n ≤ 2 ^ 24) : f32 (n : ℚ) = n := by
  have := f32_intCast (n : ℤ) (by rw [abs_of_nonneg (by positivity)]; exact_mod_cast hn)
  simpa using this

theorem spec_scale_witness : spec_scale 0 1000 1000 = 1 := by
  have h : f32 (1000 : ℚ) = 1000 := by simpa using f32_natCast_small 1000 (by norm_num)
  have h1 : f32 (1 : ℚ) = 1 := by simpa using f32_natCast_small 1 (by norm_num)
  simp [spec_scale, h, h1]

theorem spec_average_witness_lo : spec_average 100 110 1 0 = 105 := by
  have h : f32 (210 : ℚ) = 210 := by simpa using f32_natCast_small 210 (by norm_num)
  have h1 : f32 (105 : ℚ) = 105 := by simpa using f32_natCast_small 105 (by norm_num)
  have e : int_of_float (105 : ℚ) = 105 := by simpa using int_of_float_intCast 105
  norm_num [spec_average, h, h1, f32_zero, e]

theorem spec_average_witness_hi : spec_average 900 890 1 0 = 895 := by
  have h : f32 (1790 : ℚ) = 1790 := by simpa using f32_natCast_small 1790 (by norm_num)
  have h1 : f32 (895 : ℚ) = 895 := by simpa using f32_natCast_small 895 (by norm_num)
  have e : int_of_float (895 : ℚ) = 895 := by simpa using int_of_float_intCast 895
  norm_num [spec_average, h, h1, f32_zero, e]

theorem spec_delta_witness : spec_delta 105 895 = 131 := by
  have h : f32 (790 : ℚ) = 790 := by simpa using f32_natCast_small 790 (by norm_num)
  have h1 : f32 ((790 : ℚ) / 6) = 8628907 / 65536 := by
    rw [f32_eq_of_lt (e := 7) (m := 8628907) (by norm_num [abs_of_pos]) (by norm_num [abs_of_pos])
      (by norm_num [abs_lt])]
    norm_num
  have e : int_of_float ((8628907 : ℚ) / 65536) = 131 :=
    int_of_float_eq_of_nonneg (by norm_num) (by norm_num) (by norm_num)
  have hc : (((895 - 105 : ℤ) : ℤ) : ℚ) = 790 := by norm_num
  unfold spec_delta
  rw [hc, h, h1, e]

theorem spec_axis_range_witness :
    spec_axis_range ⟨0, 1000, 0, 1000⟩ 1000 1000 (100, 100) (900, 110) (110, 900) (890, 890) =
      { x_min := -26, x_max := 1026, y_min := -26, y_max := 1026 } := by
  simp [spec_axis_range, spec_scale_witness, spec_average_witness_lo, spec_average_witness_hi,
    spec_delta_witness]
/-- The rounding of `float` is visible in the result: with `old_axys.x_min = 0`,
`old_axys.x_max = 1000`, `width = 15` and two clicks of x-sum `7 + 8 = 15`, the
scale is the binary32 number `8738133 / 131072` just below `1000 / 15`, the
product `15 * scale` rounds to `16383999 / 16384` just below `1000`, and the
truncation yields `499`, where the same formula in exact arithmetic yields
`15 * (1000 / 15) / 2 = 500`. -/
theorem spec_average_float_rounding : spec_average 7 8 (spec_scale 0 1000 15) 0 = 499 := by
  have h1000 : f32 (1000 : ℚ) = 1000 := by simpa using f32_natCast_small 1000 (by norm_num)
  have h15 : f32 (15 : ℚ) = 15 := by simpa using f32_natCast_small 15 (by norm_num)
  have hs : f32 ((1000 : ℚ) / 15) = 8738133 / 131072 := by
    rw [f32_eq_of_lt (e := 6) (m := 8738133) (by norm_num [abs_of_pos])
      (by norm_num [abs_of_pos]) (by norm_num [abs_lt])]
    norm_num
  have hp : f32 ((15 : ℚ) * (8738133 / 131072)) = 16383999 / 16384 := by
    rw [f32_eq_of_lt (e := 9) (m := 16383999) (by norm_num [abs_of_pos])
      (by norm_num [abs_of_pos]) (by norm_num [abs_lt])]
    norm_num
  have hh : f32 ((16383999 : ℚ) / 16384 / 2) = 16383999 / 32768 := by
    rw [f32_eq_of_lt (e := 8) (m := 16383999) (by norm_num [abs_of_pos])
      (by norm_num [abs_of_pos]) (by norm_num [abs_lt])]
    norm_num
  have ha : f32 ((16383999 : ℚ) / 32768 + 0) = 16383999 / 32768 := by
    rw [add_zero, f32_eq_of_lt (e := 8) (m := 16383999) (by norm_num [abs_of_pos])
      (by norm_num [abs_of_pos]) (by norm_num [abs_lt])]
    norm_num
  have hi : int_of_float ((16383999 : ℚ) / 32768) = 499 :=
    int_of_float_eq_of_nonneg (by norm_num) (by norm_num) (by norm_num)
  have hc1 : (((1000 - 0 : ℤ) : ℤ) : ℚ) = 1000 := by norm_num
  have hc2 : (((15 : ℤ) : ℤ) : ℚ) = 15 := by norm_num
  have hc3 : (((7 + 8 : ℤ) : ℤ) : ℚ) = 15 := by norm_num
  have hc4 : (((0 : ℤ) : ℤ) : ℚ) = 0 := by norm_num
  unfold spec_average spec_scale
  rw [hc1, hc2, hc3, hc4, h1000, h15, hs, hp, hh, f32_zero, ha, hi]

/-! ## Order of the computed bounds -/

theorem f32_nonneg {q : ℚ} (hq : 0 ≤ q) : 0 ≤ f32 q := by
  have := f32_mono hq; rwa [f32_zero] at this

theorem int_of_float_nonneg {q : ℚ} (hq : 0 ≤ q) : 0 ≤ int_of_float q := by
  have := int_of_float_mono hq
  have e : int_of_float (0 : ℚ) = 0 := by simpa using int_of_float_intCast 0
  rwa [e] at this

theorem spec_scale_nonneg {lo hi len : Int} (h : lo ≤ hi) (hl : 0 < len) :
    0 ≤ spec_scale lo hi len := by
  unfold spec_scale
  apply f32_nonneg
  apply div_nonneg
  · exact f32_nonneg (by exact_mod_cast sub_nonneg.mpr h)
  · exact f32_nonneg (by exact_mod_cast hl.le)

theorem spec_average_mono {a b a' b' : Int} {scale : ℚ} (lo : Int) (hs : 0 ≤ scale)
    (h : a + b ≤ a' + b') : spec_average a b scale lo ≤ spec_average a' b' scale lo := by
  unfold spec_average
  apply int_of_float_mono
  apply f32_mono
  apply add_le_add_right
  apply f32_mono
  apply div_le_div_of_nonneg_right _ (by norm_num : (0 : ℚ) ≤ 2)
  apply f32_mono
  apply mul_le_mul_of_nonneg_right _ hs
  apply f32_mono
  exact_mod_cast h

theorem spec_delta_nonneg {lo hi : Int} (h : lo ≤ hi) : 0 ≤ spec_delta lo hi := by
  unfold spec_delta
  apply int_of_float_nonneg
  apply f32_nonneg
  apply div_nonneg _ (by norm_num)
  exact f32_nonneg (by exact_mod_cast sub_nonneg.mpr h)

theorem spec_axis_range_ordered (old : XYinfo) (width height : Int) (ul ur ll lr : Int × Int)
    (hx : old.x_min ≤ old.x_max) (hy : old.y_min ≤ old.y_max) (hw : 0 < width)
    (hh : 0 < height) (h1 : ul.1 + ll.1 ≤ ur.1 + lr.1) (h2 : ul.2 + ur.2 ≤ ll.2 + lr.2) :
    (spec_axis_range old width height ul ur ll lr).x_min ≤
      (spec_axis_range old width height ul ur ll lr).x_max ∧
    (spec_axis_range old width height ul ur ll lr).y_min ≤
      (spec_axis_range old width height ul ur ll lr).y_max := by
  have ax := spec_average_mono old.x_min (spec_scale_nonneg hx hw) h1
  have ay := spec_average_mono old.y_min (spec_scale_nonneg hy hh) h2
  have dx := spec_delta_nonneg ax
  have dy := spec_delta_nonneg ay
  simp only [spec_axis_range]
  constructor <;> omega

/-- C3, amended. With exactly four clicks, `old_axys` ordered, `width, height > 0`
and well-formed clicks, the bounds that `finish` computes are ordered when
`swap_xy` is false (`x_min ≤ x_max` and `y_min ≤ y_max`); when `swap_xy` is true
the exchange of step 6 reverses them (`x_max ≤ x_min` and `y_max ≤ y_min`). -/
theorem finish_bounds_order (c : Calib) (width height : Int) (hn : c.num_clicks = 4)
    (hx : c.old_axys.x_min ≤ c.old_axys.x_max) (hy : c.old_axys.y_min ≤ c.old_axys.y_max)
    (hw : 0 < width) (hh : 0 < height) (hwf : well_formed_clicks c) :
    ∃ r axys swap_xy, finish c width height = some r ∧ r.written = some (axys, swap_xy) ∧
      (swap_xy = false → axys.x_min ≤ axys.x_max ∧ axys.y_min ≤ axys.y_max) ∧
      (swap_xy = true → axys.x_max ≤ axys.x_min ∧ axys.y_max ≤ axys.y_min) := by
  unfold well_formed_clicks at hwf
  by_cases hs : |c.clicked_x.v0 - c.clicked_x.v1| < |c.clicked_y.v0 - c.clicked_y.v1|
  · rw [if_pos hs] at hwf
    have ho := spec_axis_range_ordered c.old_axys width height
      (c.clicked_x.v0, c.clicked_y.v0) (c.clicked_x.v2, c.clicked_y.v2)
      (c.clicked_x.v1, c.clicked_y.v1) (c.clicked_x.v3, c.clicked_y.v3) hx hy hw hh hwf.1 hwf.2
    refine ⟨_, _, true, finish_eq_of_swapped c width height hn hs hw.ne' hh.ne', rfl, ?_, ?_⟩
    · intro h; cases h
    · intro _; exact ⟨ho.2, ho.1⟩
  · rw [if_neg hs] at hwf
    have ho := spec_axis_range_ordered c.old_axys width height
      (c.clicked_x.v0, c.clicked_y.v0) (c.clicked_x.v1, c.clicked_y.v1)
      (c.clicked_x.v2, c.clicked_y.v2) (c.clicked_x.v3, c.clicked_y.v3) hx hy hw hh hwf.1 hwf.2
    refine ⟨_, _, false, finish_eq_of_not_swapped c width height hn hs hw.ne' hh.ne', rfl, ?_, ?_⟩
    · intro _; exact ho
    · intro h; cases h

/-- Witness of C3, amended: the first witness of the specification. -/
theorem finish_bounds_order_witness :
    ∃ r axys swap_xy, finish session4 1000 1000 = some r ∧ r.written = some (axys, swap_xy) ∧
      (swap_xy = false → axys.x_min ≤ axys.x_max ∧ axys.y_min ≤ axys.y_max) ∧
      (swap_xy = true → axys.x_max ≤ axys.x_min ∧ axys.y_max ≤ axys.y_min) :=
  finish_bounds_order session4 1000 1000 (by decide) (by decide) (by decide) (by decide)
    (by decide) (by unfold well_formed_clicks; decide)

/-- Counterexample to C3 as stated: on the transposed clicks `(100, 100)`,
`(110, 900)`, `(900, 110)`, `(890, 890)` with `old_axys = {0, 1000, 0, 1000}` and
`width = height = 1000`, every hypothesis holds (the relabelled clicks have x-sums
`210 ≤ 1790` and y-sums `210 ≤ 1790`), `swap_xy` is true and `finish` computes
`x_min = 1026 > x_max = -26` and `y_min = 1026 > y_max = -26`. -/
theorem finish_swapped_bounds_reversed :
    session4_swapped.num_clicks = 4 ∧
    session4_swapped.old_axys.x_min ≤ session4_swapped.old_axys.x_max ∧
    session4_swapped.old_axys.y_min ≤ session4_swapped.old_axys.y_max ∧
    well_formed_clicks session4_swapped ∧
    ∃ r axys, finish session4_swapped 1000 1000 = some r ∧ r.written = some (axys, true) ∧
      axys.x_min = 1026 ∧ axys.x_max = -26 ∧ axys.y_min = 1026 ∧ axys.y_max = -26 ∧
      ¬ (axys.x_min ≤ axys.x_max) ∧ ¬ (axys.y_min ≤ axys.y_max) := by
  refine ⟨by decide, by decide, by decide, by unfold well_formed_clicks; decide, ?_⟩
  refine ⟨_, _, finish_eq_of_swapped session4_swapped 1000 1000 (by decide) (by decide)
    (by decide) (by decide), rfl, ?_⟩
  simp [session4_swapped, session0, CalibratorXorgPrint, spec_axis_range_witness, spec_unswap]

/-! ## The click-count bound -/

/-- Counterexample of C10 as stated. With the mis-click check disabled, the four
clicks `(100, 100)`, `(900, 100)`, `(100, 900)`, `(900, 900)` are accepted and the
count is 4; a fifth click `(500, 500)` passes the double-click loop and the
disabled mis-click test, so that `add_click` goes on to the store
`clicked_x[num_clicks] = x` at index 4, outside the four-cell arrays, before
incrementing the count to 5: the sequence of five calls does not end in a session
with `0 ≤ num_clicks ≤ 4`. -/
theorem add_click_fifth_click_overruns :
    ∃ c4, run_calls session0_nomisclick
        [Call.add_click 100 100, Call.add_click 900 100, Call.add_click 100 900,
          Call.add_click 900 900] = some c4 ∧
      c4.num_clicks = 4 ∧
      doubleclick_detect c4 500 500 = some false ∧
      misclick_detect c4 500 500 = false ∧
      c4.clicked_x.set? c4.num_clicks 500 = none ∧
      add_click c4 500 500 = none ∧
      run_calls session0_nomisclick
        [Call.add_click 100 100, Call.add_click 900 100, Call.add_click 100 900,
          Call.add_click 900 900, Call.add_click 500 500] = none ∧
      ¬ ∃ c5, run_calls session0_nomisclick
          [Call.add_click 100 100, Call.add_click 900 100, Call.add_click 100 900,
            Call.add_click 900 900, Call.add_click 500 500] = some c5 ∧
        0 ≤ c5.num_clicks ∧ c5.num_clicks ≤ 4 := by
  have h5 : run_calls session0_nomisclick
      [Call.add_click 100 100, Call.add_click 900 100, Call.add_click 100 900,
        Call.add_click 900 900, Call.add_click 500 500] = none := by decide
  refine ⟨_, rfl, by decide, by decide, by decide, by decide, by decide, h5, ?_⟩
  rintro ⟨c5, h, _⟩
  rw [h5] at h
  cases h

/-! ## `finish`: refusal, swap flag, effect on the session -/

/-- C11. `finish` is refused on an incomplete sequence: with a click count other
than 4 (below or above), whatever the width and the height, `finish` returns
`false`, does not call the writer `finish_data` (no bounds are computed or
emitted) and leaves the session as it was. -/
theorem finish_refused (c : Calib) (width height : Int) (hn : c.num_clicks ≠ 4) :
    finish c width height = some { ret := false, written := none, state := c } := by
  simp [finish, get_numclicks, hn]

/-- Witness of C11: three clicks stored, and a width and a height of zero. -/
theorem finish_refused_witness :
    finish session3 0 0 = some { ret := false, written := none, state := session3 } :=
  finish_refused session3 0 0 (by decide)

theorem finish_defined_flag (c : Calib) (width height : Int) (hn : c.num_clicks = 4)
    (hw : width ≠ 0) (hh : height ≠ 0) :
    ∃ r axys, finish c width height = some r ∧
      r.written = some (axys,
        decide (|c.clicked_x.v0 - c.clicked_x.v1| < |c.clicked_y.v0 - c.clicked_y.v1|)) := by
  by_cases hs : |c.clicked_x.v0 - c.clicked_x.v1| < |c.clicked_y.v0 - c.clicked_y.v1|
  · rw [decide_eq_true hs]
    exact ⟨_, _, finish_eq_of_swapped c width height hn hs hw hh, rfl⟩
  · rw [decide_eq_false hs]
    exact ⟨_, _, finish_eq_of_not_swapped c width height hn hs hw hh, rfl⟩

/-- C12. Swap detection: with exactly four clicks (and a width and a height other
than zero, so that `finish` reaches the writer) the flag that `finish` reports is
true exactly when `|cx[UL] - cx[UR]| < |cy[UL] - cy[UR]|` on the clicks as stored
before the relabelling; the comparison is strict, so equal differences give
`false`; and any other session with four clicks and the same UL and UR clicks,
whatever its LL and LR clicks, its `old_axys` and the width and height, gets the
same flag. -/
theorem finish_swap_flag (c : Calib) (width height : Int) (hn : c.num_clicks = 4)
    (hw : width ≠ 0) (hh : height ≠ 0) :
    ∃ r axys swap_xy, finish c width height = some r ∧ r.written = some (axys, swap_xy) ∧
      (swap_xy = true ↔
        |c.clicked_x.v0 - c.clicked_x.v1| < |c.clicked_y.v0 - c.clicked_y.v1|) ∧
      (|c.clicked_x.v0 - c.clicked_x.v1| = |c.clicked_y.v0 - c.clicked_y.v1| →
        swap_xy = false) ∧
      (∀ (c' : Calib) (width' height' : Int), c'.num_clicks = 4 → width' ≠ 0 → height' ≠ 0 →
        c'.clicked_x.v0 = c.clicked_x.v0 → c'.clicked_y.v0 = c.clicked_y.v0 →
        c'.clicked_x.v1 = c.clicked_x.v1 → c'.clicked_y.v1 = c.clicked_y.v1 →
        ∃ r' axys', finish c' width' height' = some r' ∧
          r'.written = some (axys', swap_xy)) := by
  obtain ⟨r, axys, hr, hwr⟩ := finish_defined_flag c width height hn hw hh
  refine ⟨r, axys, _, hr, hwr, by simp, ?_, ?_⟩
  · intro h; simp [h]
  · intro c' width' height' hn' hw' hh' e1 e2 e3 e4
    obtain ⟨r', axys', hr', hwr'⟩ := finish_defined_flag c' width' height' hn' hw' hh'
    rw [e1, e2, e3, e4] at hwr'
    exact ⟨r', axys', hr', hwr'⟩

/-- Witness of C12: the first witness of the specification. -/
theorem finish_swap_flag_witness :
    ∃ r axys swap_xy, finish session4 1000 1000 = some r ∧
      r.written = some (axys, swap_xy) ∧
      (swap_xy = true ↔
        |session4.clicked_x.v0 - session4.clicked_x.v1| <
          |session4.clicked_y.v0 - session4.clicked_y.v1|) ∧
      (|session4.clicked_x.v0 - session4.clicked_x.v1| =
          |session4.clicked_y.v0 - session4.clicked_y.v1| → swap_xy = false) ∧
      (∀ (c' : Calib) (width' height' : Int), c'.num_clicks = 4 → width' ≠ 0 → height' ≠ 0 →
        c'.clicked_x.v0 = session4.clicked_x.v0 → c'.clicked_y.v0 = session4.clicked_y.v0 →
        c'.clicked_x.v1 = session4.clicked_x.v1 → c'.clicked_y.v1 = session4.clicked_y.v1 →
        ∃ r' axys', finish c' width' height' = some r' ∧
          r'.written = some (axys', swap_xy)) :=
  finish_swap_flag session4 1000 1000 (by decide) (by decide) (by decide)

/-- C13, amended. With exactly four clicks and `width, height > 0`: when `swap_xy`
is false `finish` leaves the session identical, so that a second call with the
same width and height yields the same result; when `swap_xy` is true the session
after the call is the session with the stored clicks at UR and LL exchanged. -/
theorem finish_session_effect (c : Calib) (width height : Int) (hn : c.num_clicks = 4)
    (hw : 0 < width) (hh : 0 < height) :
    ∃ r, finish c width height = some r ∧
      (¬ |c.clicked_x.v0 - c.clicked_x.v1| < |c.clicked_y.v0 - c.clicked_y.v1| →
        r.state = c ∧ finish r.state width height = some r) ∧
      (|c.clicked_x.v0 - c.clicked_x.v1| < |c.clicked_y.v0 - c.clicked_y.v1| →
        r.state = swap_LL_UR c) := by
  by_cases hs : |c.clicked_x.v0 - c.clicked_x.v1| < |c.clicked_y.v0 - c.clicked_y.v1|
  · refine ⟨_, finish_eq_of_swapped c width height hn hs hw.ne' hh.ne', ?_, fun _ => rfl⟩
    intro h; exact absurd hs h
  · have e := finish_eq_of_not_swapped c width height hn hs hw.ne' hh.ne'
    refine ⟨_, e, fun _ => ⟨rfl, e⟩, ?_⟩
    intro h; exact absurd h hs

/-- Witness of C13, amended: the first witness of the specification. -/
theorem finish_session_effect_witness :
    ∃ r, finish session4 1000 1000 = some r ∧
      (¬ |session4.clicked_x.v0 - session4.clicked_x.v1| <
          |session4.clicked_y.v0 - session4.clicked_y.v1| →
        r.state = session4 ∧ finish r.state 1000 1000 = some r) ∧
      (|session4.clicked_x.v0 - session4.clicked_x.v1| <
          |session4.clicked_y.v0 - session4.clicked_y.v1| →
        r.state = swap_LL_UR session4) :=
  finish_session_effect session4 1000 1000 (by decide) (by decide) (by decide)

/-- Counterexample to C13 as stated: on the transposed clicks `(100, 100)`,
`(110, 900)`, `(900, 110)`, `(890, 890)` with `width = height = 1000`, `finish`
reports the flag `true` with the bounds `1026, -26, 1026, -26` and leaves the
clicks at UR and LL exchanged in the session (`clicked_x = {100, 900, 110, 890}`
in place of `{100, 110, 900, 890}`); a second call then reports the flag `false`
with the bounds `-26, 1026, -26, 1026`. -/
theorem finish_mutates_session :
    session4_swapped.num_clicks = 4 ∧
    ∃ r, finish session4_swapped 1000 1000 = some r ∧
      r.written =
        some ({ x_min := 1026, x_max := -26, y_min := 1026, y_max := -26 }, true) ∧
      r.state ≠ session4_swapped ∧
      r.state.clicked_x = ⟨100, 900, 110, 890⟩ ∧
      r.state.clicked_y = ⟨100, 110, 900, 890⟩ ∧
      ∃ r2, finish r.state 1000 1000 = some r2 ∧
        r2.written =
          some ({ x_min := -26, x_max := 1026, y_min := -26, y_max := 1026 }, false) ∧
        r2.written ≠ r.written := by
  refine ⟨by decide, _, finish_eq_of_swapped session4_swapped 1000 1000 (by decide) (by decide)
    (by decide) (by decide), ?_, by decide, by decide, by decide, ?_⟩
  · simp [session4_swapped, session0, CalibratorXorgPrint, spec_axis_range_witness, spec_unswap]
  · refine ⟨_, finish_eq_of_not_swapped (swap_LL_UR session4_swapped) 1000 1000 (by decide)
      (by decide) (by decide) (by decide), ?_, ?_⟩
    · simp [session4_swapped, session0, CalibratorXorgPrint, spec_axis_range_witness,
        swap_LL_UR]
    · simp [session4_swapped, session0, CalibratorXorgPrint, spec_axis_range_witness,
        swap_LL_UR, spec_unswap]

/-! ## `add_click`: disabled checks, rejection sub-cases, frame -/

theorem add_click_accept_explicit (c : Calib) (x y : Int) (hn0 : 0 ≤ c.num_clicks)
    (hn3 : c.num_clicks ≤ 3) (hd : ¬ doubleclick_rule c x y) (hm : ¬ misclick_rule c x y) :
    ∃ c', add_click c x y = some (true, c') ∧ c'.num_clicks = c.num_clicks + 1 ∧
      c'.clicked_x.get? c.num_clicks = some x ∧ c'.clicked_y.get? c.num_clicks = some y ∧
      c'.old_axys = c.old_axys ∧ c'.verbose = c.verbose ∧
      c'.threshold_doubleclick = c.threshold_doubleclick ∧
      c'.threshold_misclick = c.threshold_misclick ∧ c'.output_type = c.output_type := by
  have e := add_click_of_accept c x y (by omega) hd hm
  have hcases : c.num_clicks = 0 ∨ c.num_clicks = 1 ∨ c.num_clicks = 2 ∨ c.num_clicks = 3 := by
    omega
  rcases hcases with h | h | h | h <;>
  · simp only [h, IntArr4.set?] at e
    norm_num at e
    exact ⟨_, e, by simp [h], by simp [h, IntArr4.get?], by simp [h, IntArr4.get?], rfl, rfl,
      rfl, rfl, rfl⟩

theorem add_click_accept_not_false (c : Calib) (x y : Int) (hn : c.num_clicks ≤ 4)
    (hd : ¬ doubleclick_rule c x y) (hm : ¬ misclick_rule c x y) (c' : Calib) :
    add_click c x y ≠ some (false, c') := by
  rw [add_click_of_accept c x y hn hd hm]
  split
  · intro h; cases h
  · intro h; cases h

theorem not_misclick_rule_of_disabled (c : Calib) (x y : Int) (hm : c.threshold_misclick = 0) :
    ¬ misclick_rule c x y := by
  rintro ⟨h, _⟩; omega

theorem not_doubleclick_rule_of_disabled (c : Calib) (x y : Int)
    (ht : c.threshold_doubleclick = 0) : ¬ doubleclick_rule c x y := by
  rintro ⟨h, _⟩; omega

/-- C14. Threshold 0 disables the mis-click rule: with `threshold_misclick = 0` and
`0 ≤ n ≤ 3` stored clicks, `add_click` never clears the session: when the
double-click rule fires it returns `false` and leaves the session unchanged,
otherwise it returns `true` and appends `(x, y)` at position `n`, whatever the
geometry of the click; with `threshold_doubleclick = 0` as well every call
returns `true`. -/
theorem add_click_misclick_disabled (c : Calib) (x y : Int) (hm : c.threshold_misclick = 0)
    (hn0 : 0 ≤ c.num_clicks) (hn3 : c.num_clicks ≤ 3) :
    (doubleclick_rule c x y → add_click c x y = some (false, c)) ∧
    (¬ doubleclick_rule c x y →
      ∃ c', add_click c x y = some (true, c') ∧ c'.num_clicks = c.num_clicks + 1 ∧
        c'.clicked_x.get? c.num_clicks = some x ∧ c'.clicked_y.get? c.num_clicks = some y) ∧
    (c.threshold_doubleclick = 0 → ∃ c', add_click c x y = some (true, c')) := by
  have hmr := not_misclick_rule_of_disabled c x y hm
  refine ⟨fun hd => add_click_of_doubleclick c x y (by omega) hd, fun hd => ?_, fun ht => ?_⟩
  · obtain ⟨c', h1, h2, h3, h4, _⟩ := add_click_accept_explicit c x y hn0 hn3 hd hmr
    exact ⟨c', h1, h2, h3, h4⟩
  · obtain ⟨c', h1, _⟩ := add_click_accept_explicit c x y hn0 hn3
      (not_doubleclick_rule_of_disabled c x y ht) hmr
    exact ⟨c', h1⟩

/-- Witness of C14: with the mis-click check disabled, the click `(500, 500)`,
aligned with nothing, offered after the click `(100, 100)`. -/
theorem add_click_misclick_disabled_witness :
    (doubleclick_rule { session1 with threshold_misclick := 0 } 500 500 →
      add_click { session1 with threshold_misclick := 0 } 500 500 =
        some (false, { session1 with threshold_misclick := 0 })) ∧
    (¬ doubleclick_rule { session1 with threshold_misclick := 0 } 500 500 →
      ∃ c', add_click { session1 with threshold_misclick := 0 } 500 500 = some (true, c') ∧
        c'.num_clicks = ({ session1 with threshold_misclick := 0 } : Calib).num_clicks + 1 ∧
        c'.clicked_x.get? ({ session1 with threshold_misclick := 0 } : Calib).num_clicks =
          some 500 ∧
        c'.clicked_y.get? ({ session1 with threshold_misclick := 0 } : Calib).num_clicks =
          some 500) ∧
    (({ session1 with threshold_misclick := 0 } : Calib).threshold_doubleclick = 0 →
      ∃ c', add_click { session1 with threshold_misclick := 0 } 500 500 = some (true, c')) :=
  add_click_misclick_disabled { session1 with threshold_misclick := 0 } 500 500 (by decide)
    (by decide) (by decide)

/-- C15. The two rejection sub-cases are told apart by the count: with `0 ≤ n ≤ 4`
stored clicks, when `add_click` returns `false` either the mis-click rule fired
(and the double-click rule did not) and the session is the reset one, of count 0,
or the double-click rule fired and the session is unchanged with `n ≥ 1`; hence
`add_click` returns `false` with a count of 0 afterwards exactly when the click
is mis-click-rejected. -/
theorem add_click_rejections (c : Calib) (x y : Int) (_hn0 : 0 ≤ c.num_clicks)
    (hn4 : c.num_clicks ≤ 4) :
    (∀ c', add_click c x y = some (false, c') →
      (misclick_rule c x y ∧ ¬ doubleclick_rule c x y ∧ c' = reset c ∧ c'.num_clicks = 0) ∨
      (doubleclick_rule c x y ∧ c' = c ∧ 1 ≤ c.num_clicks)) ∧
    ((∃ c', add_click c x y = some (false, c') ∧ c'.num_clicks = 0) ↔
      (¬ doubleclick_rule c x y ∧ misclick_rule c x y)) := by
  by_cases hd : doubleclick_rule c x y
  · have e := add_click_of_doubleclick c x y hn4 hd
    have hn1 : 1 ≤ c.num_clicks := by
      obtain ⟨_, i, h0, h1, _⟩ := hd; omega
    constructor
    · intro c' h
      rw [e] at h
      simp only [Option.some.injEq, Prod.mk.injEq, true_and] at h
      exact Or.inr ⟨hd, h.symm, hn1⟩
    · constructor
      · rintro ⟨c', h, h0⟩
        rw [e] at h
        simp only [Option.some.injEq, Prod.mk.injEq, true_and] at h
        subst h; omega
      · rintro ⟨h, _⟩; exact absurd hd h
  by_cases hm : misclick_rule c x y
  · have e := add_click_of_misclick c x y hn4 hd hm
    constructor
    · intro c' h
      rw [e] at h
      simp only [Option.some.injEq, Prod.mk.injEq, true_and] at h
      subst h
      exact Or.inl ⟨hm, hd, rfl, rfl⟩
    · exact ⟨fun _ => ⟨hd, hm⟩, fun _ => ⟨_, e, rfl⟩⟩
  · constructor
    · intro c' h
      exact absurd h (add_click_accept_not_false c x y hn4 hd hm c')
    · constructor
      · rintro ⟨c', h, _⟩
        exact absurd h (add_click_accept_not_false c x y hn4 hd hm c')
      · rintro ⟨_, h⟩; exact absurd h hm

/-- Witness of C15: the click `(500, 500)` offered after `(100, 100)` with the
default thresholds. -/
theorem add_click_rejections_witness :
    (∀ c', add_click session1 500 500 = some (false, c') →
      (misclick_rule session1 500 500 ∧ ¬ doubleclick_rule session1 500 500 ∧
        c' = reset session1 ∧ c'.num_clicks = 0) ∨
      (doubleclick_rule session1 500 500 ∧ c' = session1 ∧ 1 ≤ session1.num_clicks)) ∧
    ((∃ c', add_click session1 500 500 = some (false, c') ∧ c'.num_clicks = 0) ↔
      (¬ doubleclick_rule session1 500 500 ∧ misclick_rule session1 500 500)) :=
  add_click_rejections session1 500 500 (by decide) (by decide)

/-- C16. `reset` is total and idempotent: for every session `reset` gives a count
of 0, keeps both thresholds and `old_axys`, and a second `reset` changes nothing. -/
theorem reset_idempotent (s : Calib) :
    (reset s).num_clicks = 0 ∧
    (reset s).threshold_doubleclick = s.threshold_doubleclick ∧
    (reset s).threshold_misclick = s.threshold_misclick ∧
    (reset s).old_axys = s.old_axys ∧
    reset (reset s) = reset s :=
  ⟨rfl, rfl, rfl, rfl, rfl⟩

theorem add_click_old_axys (c : Calib) (x y : Int) (r : Bool × Calib)
    (h : add_click c x y = some r) : r.2.old_axys = c.old_axys := by
  unfold add_click at h
  split at h
  · cases h
  · cases h; rfl
  · split_ifs at h
    · cases h; rfl
    · split at h
      · cases h; rfl
      · cases h

theorem finish_old_axys (c : Calib) (width height : Int) (r : FinishResult)
    (h : finish c width height = some r) : r.state.old_axys = c.old_axys := by
  unfold finish at h
  split_ifs at h with hn
  · cases h; rfl
  · simp only at h
    split at h
    · cases h
    · cases h
      by_cases hs : |c.clicked_x.v0 - c.clicked_x.v1| < |c.clicked_y.v0 - c.clicked_y.v1|
      · simp [hs, swap_LL_UR]
      · simp [hs]

/-- C17. `old_axys` is never mutated after construction: whatever the session,
each operation of the engine leaves `old_axys` as it was: `add_click` with any
coordinates and any outcome, `reset`, `finish` with any width and height, and the
two threshold setters. -/
theorem old_axys_never_mutated (c : Calib) (x y width height t : Int) :
    (∀ r, add_click c x y = some r → r.2.old_axys = c.old_axys) ∧
    (reset c).old_axys = c.old_axys ∧
    (∀ r, finish c width height = some r → r.state.old_axys = c.old_axys) ∧
    (set_threshold_doubleclick c t).old_axys = c.old_axys ∧
    (set_threshold_misclick c t).old_axys = c.old_axys :=
  ⟨add_click_old_axys c x y, rfl, finish_old_axys c width height, rfl, rfl⟩

theorem doubleclick_loop_verbose (c : Calib) (b : Bool) (x y : Int) (k : Nat) :
    doubleclick_loop { c with verbose := b } x y k = doubleclick_loop c x y k := by
  induction k with
  | zero => rfl
  | succ k ih => simp only [doubleclick_loop, ih]

theorem doubleclick_detect_verbose (c : Calib) (b : Bool) (x y : Int) :
    doubleclick_detect { c with verbose := b } x y = doubleclick_detect c x y := by
  simp only [doubleclick_detect, doubleclick_loop_verbose]

theorem add_click_verbose (c : Calib) (b : Bool) (x y : Int) :
    add_click { c with verbose := b } x y =
      (add_click c x y).map (fun r => (r.1, { r.2 with verbose := b })) := by
  have hm : misclick_detect { c with verbose := b } x y = misclick_detect c x y := rfl
  unfold add_click
  rw [doubleclick_detect_verbose, hm]
  split
  · rfl
  · rfl
  · split_ifs
    · rfl
    · simp only
      split <;> rfl

theorem finish_verbose (c : Calib) (b : Bool) (width height : Int) :
    finish { c with verbose := b } width height =
      (finish c width height).map (fun r => { r with state := { r.state with verbose := b } }) := by
  unfold finish
  by_cases hn : get_numclicks c = 4
  · have hn' : get_numclicks { c with verbose := b } = 4 := hn
    simp only [hn, hn', ne_eq, not_true_eq_false, if_false]
    by_cases hs : |c.clicked_x.v0 - c.clicked_x.v1| < |c.clicked_y.v0 - c.clicked_y.v1|
    · simp only [hs, decide_True, if_true]
      have e : finish_axys (swap_LL_UR { c with verbose := b }) width height =
          finish_axys (swap_LL_UR c) width height := rfl
      rw [e]
      cases finish_axys (swap_LL_UR c) width height <;> rfl
    · simp only [hs, decide_False]
      have e : finish_axys { c with verbose := b } width height = finish_axys c width height :=
        rfl
      simp only [Bool.false_eq_true, if_false]
      rw [e]
      cases finish_axys c width height <;> rfl
  · have hn' : get_numclicks { c with verbose := b } ≠ 4 := hn
    rw [if_pos hn, if_pos hn']
    rfl

/-- C18. `verbose` has no behavioural effect: setting the flag to any value in a
session changes neither the boolean returned by `add_click` nor the one returned
by `finish`, nor the bounds and the swap flag handed to the writer; the sessions
after the call again differ in the `verbose` flag only (and a call undefined for
one is undefined for the other). -/
theorem verbose_no_effect (c : Calib) (b : Bool) (x y width height : Int) :
    add_click { c with verbose := b } x y =
      (add_click c x y).map (fun r => (r.1, { r.2 with verbose := b })) ∧
    finish { c with verbose := b } width height =
      (finish c width height).map
        (fun r => { r with state := { r.state with verbose := b } }) :=
  ⟨add_click_verbose c b x y, finish_verbose c b width height⟩

/-! ## Numbers that binary32 represents exactly -/

theorem f32_of_repr (m j : ℤ) (hm : |m| ≤ 2 ^ 24) : f32 ((m : ℚ) * 2 ^ j) = (m : ℚ) * 2 ^ j := by
  by_cases h0 : m = 0
  · subst h0; simp [f32_zero]
  have h2 : (2 : ℚ) ≠ 0 := by norm_num
  have hq0 : (m : ℚ) * 2 ^ j ≠ 0 :=
    mul_ne_zero (by exact_mod_cast h0) (two_zpow_pos j).ne'
  have habs : |(m : ℚ) * 2 ^ j| = |(m : ℚ)| * 2 ^ j := by
    rw [abs_mul, abs_of_pos (two_zpow_pos j)]
  rcases hm.lt_or_eq with hlt | heq
  · have hmq : |(m : ℚ)| < 2 ^ (24 : ℤ) := by
      have : ((|m| : ℤ) : ℚ) < ((2 ^ 24 : ℤ) : ℚ) := by exact_mod_cast hlt
      rw [Int.cast_abs] at this; norm_num at this ⊢; exact this
    have hq : |(m : ℚ) * 2 ^ j| < ((2 : ℕ) : ℚ) ^ (24 + j) := by
      rw [habs, zpow_add₀ (by norm_num)]
      push_cast
      exact mul_lt_mul_of_pos_right hmq (two_zpow_pos j)
    have hlog : Int.log 2 |(m : ℚ) * 2 ^ j| < 24 + j :=
      (Int.lt_zpow_iff_log_lt (by norm_num) (abs_pos.mpr hq0)).mp hq
    obtain ⟨d, hd⟩ : ∃ d : ℕ, j - ulp_exp ((m : ℚ) * 2 ^ j) = (d : ℤ) := by
      refine ⟨(j - ulp_exp ((m : ℚ) * 2 ^ j)).toNat, ?_⟩
      have : ulp_exp ((m : ℚ) * 2 ^ j) ≤ j := by unfold ulp_exp; omega
      omega
    apply f32_of_scaled_int (m * 2 ^ d)
    rw [mul_div_assoc, ← zpow_sub₀ h2, hd, zpow_natCast]
    push_cast
    rfl
  · have hm' : m = 2 ^ 24 ∨ m = -2 ^ 24 := by
      rcases abs_cases m with h | h <;> omega
    have e1 : (2 : ℚ) ^ (24 + j) = 2 ^ (24 : ℤ) * 2 ^ j := zpow_add₀ h2 24 j
    have e2 : (2 : ℚ) ^ (24 + j + 1) = 2 ^ (25 : ℤ) * 2 ^ j := by
      rw [show 24 + j + 1 = 25 + j by ring]; exact zpow_add₀ h2 25 j
    have e3 : (2 : ℚ) ^ (24 + j - 23) = 2 * 2 ^ j := by
      rw [show 24 + j - 23 = 1 + j by ring, zpow_add₀ h2 1 j]; norm_num
    have hp := two_zpow_pos j
    rcases hm' with h | h
    · subst h
      rw [f32_eq_of (e := 24 + j) (m := 2 ^ 23)]
      · rw [e3]; push_cast; ring
      · rw [habs, e1]; norm_num
      · rw [habs, e2]
        apply mul_lt_mul_of_pos_right _ hp
        norm_num
      · left
        rw [e3]
        have : ((2 ^ 24 : ℤ) : ℚ) * 2 ^ j / (2 * 2 ^ j) = 2 ^ 23 := by
          field_simp; ring
        rw [this]; norm_num
    · subst h
      rw [f32_eq_of (e := 24 + j) (m := -2 ^ 23)]
      · rw [e3]; push_cast; ring
      · rw [habs, e1]; norm_num
      · rw [habs, e2]
        apply mul_lt_mul_of_pos_right _ hp
        norm_num
      · left
        rw [e3]
        have : ((-2 ^ 24 : ℤ) : ℚ) * 2 ^ j / (2 * 2 ^ j) = -2 ^ 23 := by
          field_simp; ring
        rw [this]; norm_num

theorem f32_div_pow_two (m : ℤ) (k : ℕ) (hm : |m| ≤ 2 ^ 24) :
    f32 ((m : ℚ) / 2 ^ k) = (m : ℚ) / 2 ^ k := by
  have := f32_of_repr m (-(k : ℤ)) hm
  rwa [zpow_neg, zpow_natCast, ← div_eq_mul_inv] at this

theorem f32_two_mul_int (n : ℤ) (hn : |n| ≤ 2 ^ 24) : f32 ((2 * n : ℤ) : ℚ) = (2 * n : ℤ) := by
  have := f32_of_repr n 1 hn
  rw [zpow_one] at this
  push_cast
  rw [mul_comm]; exact this

theorem f32_div_self {q : ℚ} (hq : q ≠ 0) : f32 (q / q) = 1 := by
  rw [div_self hq]
  simpa using f32_intCast 1 (by norm_num)

/-! ## The end-to-end scenario -/

theorem spec_scale_800 : spec_scale 0 1000 800 = 5 / 4 := by
  have h1 : f32 (1000 : ℚ) = 1000 := by simpa using f32_natCast_small 1000 (by norm_num)
  have h2 : f32 (800 : ℚ) = 800 := by simpa using f32_natCast_small 800 (by norm_num)
  have h3 : f32 ((1000 : ℚ) / 800) = 5 / 4 := by
    have := f32_div_pow_two 5 2 (by norm_num)
    norm_num at this ⊢; exact this
  have hc1 : (((1000 - 0 : ℤ) : ℤ) : ℚ) = 1000 := by norm_num
  have hc2 : (((800 : ℤ) : ℤ) : ℚ) = 800 := by norm_num
  unfold spec_scale
  rw [hc1, hc2, h1, h2, h3]

theorem spec_scale_600 : spec_scale 0 1000 600 = 13981013 / 8388608 := by
  have h1 : f32 (1000 : ℚ) = 1000 := by simpa using f32_natCast_small 1000 (by norm_num)
  have h2 : f32 (600 : ℚ) = 600 := by simpa using f32_natCast_small 600 (by norm_num)
  have h3 : f32 ((1000 : ℚ) / 600) = 13981013 / 8388608 := by
    rw [f32_eq_of_lt (e := 0) (m := 13981013) (by norm_num [abs_of_pos])
      (by norm_num [abs_of_pos]) (by norm_num [abs_lt])]
    norm_num
  have hc1 : (((1000 - 0 : ℤ) : ℤ) : ℚ) = 1000 := by norm_num
  have hc2 : (((600 : ℤ) : ℤ) : ℚ) = 600 := by norm_num
  unfold spec_scale
  rw [hc1, hc2, h1, h2, h3]

theorem spec_average_x_lo : spec_average 100 100 (5 / 4) 0 = 125 := by
  have h1 : f32 (200 : ℚ) = 200 := by simpa using f32_natCast_small 200 (by norm_num)
  have h2 : f32 ((200 : ℚ) * (5 / 4)) = 250 := by
    rw [show (200 : ℚ) * (5 / 4) = 250 by norm_num]
    simpa using f32_natCast_small 250 (by norm_num)
  have h3 : f32 ((250 : ℚ) / 2) = 125 := by
    rw [show (250 : ℚ) / 2 = 125 by norm_num]
    simpa using f32_natCast_small 125 (by norm_num)
  have h4 : f32 ((125 : ℚ) + 0) = 125 := by
    rw [add_zero]; simpa using f32_natCast_small 125 (by norm_num)
  have h5 : int_of_float (125 : ℚ) = 125 := by simpa using int_of_float_intCast 125
  have hc1 : (((100 + 100 : ℤ) : ℤ) : ℚ) = 200 := by norm_num
  have hc2 : (((0 : ℤ) : ℤ) : ℚ) = 0 := by norm_num
  unfold spec_average
  rw [hc1, hc2, h1, h2, h3, f32_zero, h4, h5]

theorem spec_average_x_hi : spec_average 699 699 (5 / 4) 0 = 873 := by
  have h1 : f32 (1398 : ℚ) = 1398 := by simpa using f32_natCast_small 1398 (by norm_num)
  have h2 : f32 ((1398 : ℚ) * (5 / 4)) = 3495 / 2 := by
    rw [show (1398 : ℚ) * (5 / 4) = 3495 / 2 by norm_num]
    have := f32_div_pow_two 3495 1 (by norm_num)
    norm_num at this ⊢; exact this
  have h3 : f32 ((3495 : ℚ) / 2 / 2) = 3495 / 4 := by
    rw [show (3495 : ℚ) / 2 / 2 = 3495 / 4 by norm_num]
    have := f32_div_pow_two 3495 2 (by norm_num)
    norm_num at this ⊢; exact this
  have h4 : f32 ((3495 : ℚ) / 4 + 0) = 3495 / 4 := by
    rw [add_zero]
    have := f32_div_pow_two 3495 2 (by norm_num)
    norm_num at this ⊢; exact this
  have h5 : int_of_float ((3495 : ℚ) / 4) = 873 :=
    int_of_float_eq_of_nonneg (by norm_num) (by norm_num) (by norm_num)
  have hc1 : (((699 + 699 : ℤ) : ℤ) : ℚ) = 1398 := by norm_num
  have hc2 : (((0 : ℤ) : ℤ) : ℚ) = 0 := by norm_num
  unfold spec_average
  rw [hc1, hc2, h1, h2, h3, f32_zero, h4, h5]

theorem spec_average_y_lo : spec_average 75 75 (13981013 / 8388608) 0 = 125 := by
  have h1 : f32 (150 : ℚ) = 150 := by simpa using f32_natCast_small 150 (by norm_num)
  have h2 : f32 ((150 : ℚ) * (13981013 / 8388608)) = 250 := by
    rw [f32_eq_of_lt (e := 7) (m := 16384000) (by norm_num [abs_of_pos])
      (by norm_num [abs_of_pos]) (by norm_num [abs_lt])]
    norm_num
  have h3 : f32 ((250 : ℚ) / 2) = 125 := by
    rw [show (250 : ℚ) / 2 = 125 by norm_num]
    simpa using f32_natCast_small 125 (by norm_num)
  have h4 : f32 ((125 : ℚ) + 0) = 125 := by
    rw [add_zero]; simpa using f32_natCast_small 125 (by norm_num)
  have h5 : int_of_float (125 : ℚ) = 125 := by simpa using int_of_float_intCast 125
  have hc1 : (((75 + 75 : ℤ) : ℤ) : ℚ) = 150 := by norm_num
  have hc2 : (((0 : ℤ) : ℤ) : ℚ) = 0 := by norm_num
  unfold spec_average
  rw [hc1, hc2, h1, h2, h3, f32_zero, h4, h5]

theorem spec_average_y_hi : spec_average 524 524 (13981013 / 8388608) 0 = 873 := by
  have h1 : f32 (1048 : ℚ) = 1048 := by simpa using f32_natCast_small 1048 (by norm_num)
  have h2 : f32 ((1048 : ℚ) * (13981013 / 8388608)) = 14308693 / 8192 := by
    rw [f32_eq_of_lt (e := 10) (m := 14308693) (by norm_num [abs_of_pos])
      (by norm_num [abs_of_pos]) (by norm_num [abs_lt])]
    norm_num
  have h3 : f32 ((14308693 : ℚ) / 8192 / 2) = 14308693 / 16384 := by
    rw [show (14308693 : ℚ) / 8192 / 2 = 14308693 / 16384 by norm_num]
    have := f32_div_pow_two 14308693 14 (by norm_num)
    norm_num at this ⊢; exact this
  have h4 : f32 ((14308693 : ℚ) / 16384 + 0) = 14308693 / 16384 := by
    rw [add_zero]
    have := f32_div_pow_two 14308693 14 (by norm_num)
    norm_num at this ⊢; exact this
  have h5 : int_of_float ((14308693 : ℚ) / 16384) = 873 :=
    int_of_float_eq_of_nonneg (by norm_num) (by norm_num) (by norm_num)
  have hc1 : (((524 + 524 : ℤ) : ℤ) : ℚ) = 1048 := by norm_num
  have hc2 : (((0 : ℤ) : ℤ) : ℚ) = 0 := by norm_num
  unfold spec_average
  rw [hc1, hc2, h1, h2, h3, f32_zero, h4, h5]

theorem spec_delta_125_873 : spec_delta 125 873 = 124 := by
  have h : f32 (748 : ℚ) = 748 := by simpa using f32_natCast_small 748 (by norm_num)
  have h1 : f32 ((748 : ℚ) / 6) = 16340309 / 131072 := by
    rw [f32_eq_of_lt (e := 6) (m := 16340309) (by norm_num [abs_of_pos])
      (by norm_num [abs_of_pos]) (by norm_num [abs_lt])]
    norm_num
  have e : int_of_float ((16340309 : ℚ) / 131072) = 124 :=
    int_of_float_eq_of_nonneg (by norm_num) (by norm_num) (by norm_num)
  have hc : (((873 - 125 : ℤ) : ℤ) : ℚ) = 748 := by norm_num
  unfold spec_delta
  rw [hc, h, h1, e]

theorem spec_axis_range_end_to_end :
    spec_axis_range ⟨0, 1000, 0, 1000⟩ 800 600 (100, 75) (699, 75) (100, 524) (699, 524) =
      { x_min := 1, x_max := 997, y_min := 1, y_max := 997 } := by
  simp [spec_axis_range, spec_scale_800, spec_scale_600, spec_average_x_lo, spec_average_x_hi,
    spec_average_y_lo, spec_average_y_hi, spec_delta_125_873]

/-- C19. End-to-end scenario: with the thresholds `doubleclick = 7` and
`misclick = 15`, `old_axys = {0, 1000, 0, 1000}`, `width = 800`, `height = 600` and
an output type that the writer supports, the four target clicks `(100, 75)`,
`(699, 75)`, `(100, 524)`, `(699, 524)` offered in that order to the fresh session
are all accepted, and `finish` then succeeds with `swap_xy = false` and the bounds
`x_min = 1`, `x_max = 997`, `y_min = 1`, `y_max = 997`: inside `[0, 1000]` and
beyond the raw corner averages `125` and `873`. -/
theorem end_to_end_scenario (ty : OutputType) (hty : ty ≠ OutputType.OUTYPE_XINPUT) :
    ∃ c1 c2 c3 c4 axys,
      add_click (CalibratorXorgPrint ⟨0, 1000, 0, 1000⟩ false 15 7 ty) 100 75 = some (true, c1) ∧
      add_click c1 699 75 = some (true, c2) ∧
      add_click c2 100 524 = some (true, c3) ∧
      add_click c3 699 524 = some (true, c4) ∧
      finish c4 800 600 = some { ret := true, written := some (axys, false), state := c4 } ∧
      axys = { x_min := 1, x_max := 997, y_min := 1, y_max := 997 } ∧
      (0 ≤ axys.x_min ∧ axys.x_max ≤ 1000 ∧ 0 ≤ axys.y_min ∧ axys.y_max ≤ 1000) ∧
      (axys.x_min < 125 ∧ 873 < axys.x_max ∧ axys.y_min < 125 ∧ 873 < axys.y_max) := by
  have key : ∀ c4 : Calib, c4.num_clicks = 4 → c4.clicked_x = ⟨100, 699, 100, 699⟩ →
      c4.clicked_y = ⟨75, 75, 524, 524⟩ → c4.old_axys = ⟨0, 1000, 0, 1000⟩ →
      c4.output_type ≠ OutputType.OUTYPE_XINPUT →
      finish c4 800 600 =
        some { ret := true
               written := some ({ x_min := 1, x_max := 997, y_min := 1, y_max := 997 }, false)
               state := c4 } := by
    intro c4 hn hx hy ho hout
    rw [finish_eq_of_not_swapped c4 800 600 hn (by rw [hx, hy]; decide) (by decide) (by decide)]
    have hfd : ∀ a b, finish_data c4 a b = true := by
      intro a b
      unfold finish_data
      cases h : c4.output_type <;> simp_all
    rw [hx, hy, ho, hfd]
    simp only [spec_axis_range_end_to_end]
  cases ty
  case OUTYPE_XINPUT => exact absurd rfl hty
  all_goals
    refine ⟨_, _, _, _, _, rfl, rfl, rfl, rfl, key _ rfl rfl rfl rfl (by decide), rfl,
      by decide, by decide⟩

/-- Witness of C19: the output type `OUTYPE_XORGCONFD`. -/
theorem end_to_end_scenario_witness :
    ∃ c1 c2 c3 c4 axys,
      add_click (CalibratorXorgPrint ⟨0, 1000, 0, 1000⟩ false 15 7 OutputType.OUTYPE_XORGCONFD)
        100 75 = some (true, c1) ∧
      add_click c1 699 75 = some (true, c2) ∧
      add_click c2 100 524 = some (true, c3) ∧
      add_click c3 699 524 = some (true, c4) ∧
      finish c4 800 600 = some { ret := true, written := some (axys, false), state := c4 } ∧
      axys = { x_min := 1, x_max := 997, y_min := 1, y_max := 997 } ∧
      (0 ≤ axys.x_min ∧ axys.x_max ≤ 1000 ∧ 0 ≤ axys.y_min ∧ axys.y_max ≤ 1000) ∧
      (axys.x_min < 125 ∧ 873 < axys.x_max ∧ axys.y_min < 125 ∧ 873 < axys.y_max) :=
  end_to_end_scenario OutputType.OUTYPE_XORGCONFD (by decide)

/-! ## The corner-inset correction on the targets of the GUI -/

theorem spec_scale_self (a w : Int) (hw : w ≠ 0) : spec_scale a (a + w) w = 1 := by
  unfold spec_scale
  have e : a + w - a = w := by ring
  rw [e]
  exact f32_div_self (f32_ne_zero (by exact_mod_cast hw))

theorem spec_average_scale_one (p q lo n : Int) (hpq : p + q = 2 * n) (hn : |n| ≤ 2 ^ 24)
    (hlo : |lo| ≤ 2 ^ 24) (hs : |n + lo| ≤ 2 ^ 24) : spec_average p q 1 lo = n + lo := by
  unfold spec_average
  rw [hpq, f32_two_mul_int n hn, mul_one, f32_two_mul_int n hn]
  have e1 : (((2 * n : ℤ) : ℚ)) / 2 = (n : ℚ) := by push_cast; ring
  rw [e1, f32_intCast n hn, f32_intCast lo hlo]
  have e2 : (n : ℚ) + (lo : ℚ) = ((n + lo : ℤ) : ℚ) := by push_cast; ring
  rw [e2, f32_intCast _ hs, int_of_float_intCast]

theorem spec_delta_inset (lo hi k : Int) (h : hi - lo = 6 * k - 1) (hk1 : 1 ≤ k)
    (hk : 8 * k ≤ 2 ^ 24) : spec_delta lo hi = k - 1 := by
  unfold spec_delta
  rw [h, f32_intCast _ (by rw [abs_of_nonneg (by omega)]; omega)]
  apply int_of_float_eq_of_nonneg (by omega)
  · have h1 : f32 (((k - 1 : ℤ) : ℤ) : ℚ) = ((k - 1 : ℤ) : ℚ) :=
      f32_intCast _ (by rw [abs_of_nonneg (by omega)]; omega)
    rw [← h1]
    apply f32_mono
    push_cast
    have : (1 : ℚ) ≤ k := by exact_mod_cast hk1
    linarith
  · have h2 : f32 (((8 * k - 1 : ℤ) : ℚ) / 2 ^ 3) = ((8 * k - 1 : ℤ) : ℚ) / 2 ^ 3 :=
      f32_div_pow_two _ 3 (by rw [abs_of_nonneg (by omega)]; omega)
    have hle : f32 (((6 * k - 1 : ℤ) : ℚ) / 6) ≤ f32 (((8 * k - 1 : ℤ) : ℚ) / 2 ^ 3) := by
      apply f32_mono
      push_cast
      linarith
    rw [h2] at hle
    have : ((8 * k - 1 : ℤ) : ℚ) / 2 ^ 3 < ((k - 1 : ℤ) : ℚ) + 1 := by
      push_cast; linarith
    exact lt_of_le_of_lt hle this

theorem spec_axis_range_on_targets (a b k l : Int) (hk : 1 ≤ k) (hl : 1 ≤ l)
    (ha : |a| + 8 * k ≤ 2 ^ 24) (hb : |b| + 8 * l ≤ 2 ^ 24) :
    spec_axis_range ⟨a, a + 8 * k, b, b + 8 * l⟩ (8 * k) (8 * l)
        (k, l) (8 * k - k - 1, l) (k, 8 * l - l - 1) (8 * k - k - 1, 8 * l - l - 1) =
      { x_min := a + 1, x_max := a + 8 * k - 2, y_min := b + 1, y_max := b + 8 * l - 2 } := by
  have ha' := abs_le.mp (show |a| ≤ |a| from le_rfl)
  have hb' := abs_le.mp (show |b| ≤ |b| from le_rfl)
  have x1 : spec_average k k 1 a = k + a :=
    spec_average_scale_one k k a k (by ring) (by rw [abs_le]; constructor <;> omega)
      (by rw [abs_le]; constructor <;> omega) (by rw [abs_le]; constructor <;> omega)
  have x2 : spec_average (8 * k - k - 1) (8 * k - k - 1) 1 a = (7 * k - 1) + a :=
    spec_average_scale_one _ _ a (7 * k - 1) (by ring) (by rw [abs_le]; constructor <;> omega)
      (by rw [abs_le]; constructor <;> omega) (by rw [abs_le]; constructor <;> omega)
  have y1 : spec_average l l 1 b = l + b :=
    spec_average_scale_one l l b l (by ring) (by rw [abs_le]; constructor <;> omega)
      (by rw [abs_le]; constructor <;> omega) (by rw [abs_le]; constructor <;> omega)
  have y2 : spec_average (8 * l - l - 1) (8 * l - l - 1) 1 b = (7 * l - 1) + b :=
    spec_average_scale_one _ _ b (7 * l - 1) (by ring) (by rw [abs_le]; constructor <;> omega)
      (by rw [abs_le]; constructor <;> omega) (by rw [abs_le]; constructor <;> omega)
  have dx : spec_delta (k + a) ((7 * k - 1) + a) = k - 1 :=
    spec_delta_inset _ _ k (by ring) hk (by have := abs_nonneg a; omega)
  have dy : spec_delta (l + b) ((7 * l - 1) + b) = l - 1 :=
    spec_delta_inset _ _ l (by ring) hl (by have := abs_nonneg b; omega)
  simp only [spec_axis_range, spec_scale_self a (8 * k) (by omega),
    spec_scale_self b (8 * l) (by omega), x1, x2, y1, y2, dx, dy]
  congr 1 <;> ring

theorem set_display_size_mul (k l : Int) :
    set_display_size (8 * k) (8 * l) =
      (⟨k, 8 * k - k - 1, k, 8 * k - k - 1⟩, ⟨l, l, 8 * l - l - 1, 8 * l - l - 1⟩) := by
  have e1 : Int.tdiv (8 * k) 8 = k := Int.mul_tdiv_cancel_left k (by norm_num)
  have e2 : Int.tdiv (8 * l) 8 = l := Int.mul_tdiv_cancel_left l (by norm_num)
  simp only [set_display_size, num_blocks, e1, e2]

/-- C20, amended. The corner-inset correction on the targets that the GUI draws:
for a width `W` and a height `H` that are positive multiples of 8 and
`old_axys = {a, a + W, b, b + H}` with `|a| + W ≤ 2 ^ 24` and `|b| + H ≤ 2 ^ 24` (the
range in which `float` holds every integer exactly), a session whose four stored
clicks are the targets of `set_display_size W H` makes `finish` report
`swap_xy = false` and the bounds `a + 1`, `a + W - 2`, `b + 1`, `b + H - 2`. -/
theorem finish_on_targets (c : Calib) (a b W H : Int) (hW : 0 < W) (hH : 0 < H)
    (hW8 : 8 ∣ W) (hH8 : 8 ∣ H) (ha : |a| + W ≤ 2 ^ 24) (hb : |b| + H ≤ 2 ^ 24)
    (hn : c.num_clicks = 4) (ho : c.old_axys = ⟨a, a + W, b, b + H⟩)
    (hx : c.clicked_x = (set_display_size W H).1)
    (hy : c.clicked_y = (set_display_size W H).2) :
    finish c W H =
      some { ret := finish_data c
               { x_min := a + 1, x_max := a + W - 2, y_min := b + 1, y_max := b + H - 2 } false
             written := some
               ({ x_min := a + 1, x_max := a + W - 2, y_min := b + 1, y_max := b + H - 2 }, false)
             state := c } := by
  obtain ⟨k, rfl⟩ := hW8
  obtain ⟨l, rfl⟩ := hH8
  rw [set_display_size_mul] at hx hy
  simp only at hx hy
  have hs : ¬ |c.clicked_x.v0 - c.clicked_x.v1| < |c.clicked_y.v0 - c.clicked_y.v1| := by
    rw [hx, hy]
    simp only [sub_self, abs_zero, not_lt]
    exact abs_nonneg _
  rw [finish_eq_of_not_swapped c (8 * k) (8 * l) hn hs (by omega) (by omega), ho, hx, hy]
  simp only [spec_axis_range_on_targets a b k l (by omega) (by omega) ha hb]

/-- Witness of C20, amended: a display of 800 by 600 and `old_axys = {0, 800, 0, 600}`. -/
theorem finish_on_targets_witness :
    finish { session0 with
             old_axys := ⟨0, 0 + 800, 0, 0 + 600⟩
             num_clicks := 4
             clicked_x := (set_display_size 800 600).1
             clicked_y := (set_display_size 800 600).2 } 800 600 =
      some { ret := true
             written := some
               ({ x_min := 0 + 1, x_max := 0 + 800 - 2, y_min := 0 + 1, y_max := 0 + 600 - 2 },
                 false)
             state := { session0 with
               old_axys := ⟨0, 0 + 800, 0, 0 + 600⟩
               num_clicks := 4
               clicked_x := (set_display_size 800 600).1
               clicked_y := (set_display_size 800 600).2 } } :=
  finish_on_targets _ 0 0 800 600 (by decide) (by decide) (by decide) (by decide) (by decide)
    (by decide) rfl rfl rfl rfl

theorem spec_average_far_lo : spec_average 1 1 1 268435456 = 268435456 := by
  have h2 : f32 (2 : ℚ) = 2 := by simpa using f32_natCast_small 2 (by norm_num)
  have h1 : f32 (1 : ℚ) = 1 := by simpa using f32_natCast_small 1 (by norm_num)
  have ha : f32 (268435456 : ℚ) = 268435456 := by
    have := f32_of_repr 1 28 (by norm_num)
    norm_num at this ⊢; exact this
  have hs : f32 ((1 : ℚ) + 268435456) = 268435456 := by
    rw [f32_eq_of_lt (e := 28) (m := 8388608) (by norm_num [abs_of_pos])
      (by norm_num [abs_of_pos]) (by norm_num [abs_lt])]
    norm_num
  have hi : int_of_float (268435456 : ℚ) = 268435456 := by
    simpa using int_of_float_intCast 268435456
  have hc1 : (((1 + 1 : ℤ) : ℤ) : ℚ) = 2 := by norm_num
  have hc2 : (((268435456 : ℤ) : ℤ) : ℚ) = 268435456 := by norm_num
  unfold spec_average
  rw [hc1, hc2, h2, mul_one, h2, show (2 : ℚ) / 2 = 1 by norm_num, h1, ha, hs, hi]

theorem spec_average_far_hi : spec_average 6 6 1 268435456 = 268435456 := by
  have h12 : f32 (12 : ℚ) = 12 := by simpa using f32_natCast_small 12 (by norm_num)
  have h6 : f32 (6 : ℚ) = 6 := by simpa using f32_natCast_small 6 (by norm_num)
  have ha : f32 (268435456 : ℚ) = 268435456 := by
    have := f32_of_repr 1 28 (by norm_num)
    norm_num at this ⊢; exact this
  have hs : f32 ((6 : ℚ) + 268435456) = 268435456 := by
    rw [f32_eq_of_lt (e := 28) (m := 8388608) (by norm_num [abs_of_pos])
      (by norm_num [abs_of_pos]) (by norm_num [abs_lt])]
    norm_num
  have hi : int_of_float (268435456 : ℚ) = 268435456 := by
    simpa using int_of_float_intCast 268435456
  have hc1 : (((6 + 6 : ℤ) : ℤ) : ℚ) = 12 := by norm_num
  have hc2 : (((268435456 : ℤ) : ℤ) : ℚ) = 268435456 := by norm_num
  unfold spec_average
  rw [hc1, hc2, h12, mul_one, h12, show (12 : ℚ) / 2 = 6 by norm_num, h6, ha, hs, hi]

theorem spec_delta_self (n : Int) : spec_delta n n = 0 := by
  unfold spec_delta
  rw [sub_self]
  have hi : int_of_float (0 : ℚ) = 0 := by simpa using int_of_float_intCast 0
  simp [f32_zero, hi]

theorem spec_axis_range_far :
    spec_axis_range ⟨268435456, 268435464, 0, 8⟩ 8 8 (1, 1) (6, 1) (1, 6) (6, 6) =
      { x_min := 268435456, x_max := 268435456, y_min := 1, y_max := 6 } := by
  have sx : spec_scale 268435456 268435464 8 = 1 := spec_scale_self 268435456 8 (by norm_num)
  have sy : spec_scale 0 8 8 = 1 := spec_scale_self 0 8 (by norm_num)
  have y1 : spec_average 1 1 1 0 = 1 :=
    spec_average_scale_one 1 1 0 1 (by norm_num) (by norm_num) (by norm_num) (by norm_num)
  have y3 : spec_average 6 6 1 0 = 6 :=
    spec_average_scale_one 6 6 0 6 (by norm_num) (by norm_num) (by norm_num) (by norm_num)
  have dy : spec_delta 1 6 = 0 := spec_delta_inset 1 6 1 (by norm_num) (by norm_num) (by norm_num)
  simp [spec_axis_range, sx, sy, spec_average_far_lo, spec_average_far_hi, spec_delta_self, y1,
    y3, dy]

/-- Counterexample to C20 as stated: `W = H = 8`, `a = 2 ^ 28 = 268435456`, `b = 0`, the
clicks being the targets `(1, 1)`, `(6, 1)`, `(1, 6)`, `(6, 6)` of
`set_display_size 8 8`.  Near `2 ^ 28` the `float` numbers are 32 apart, so both
`1 + a` and `6 + a` round to `a`, the inset `delta_x` is 0 and `finish` reports
`x_min = x_max = 268435456`, where the claim has `x_min = a + 1 = 268435457` and
`x_max = a + W - 2 = 268435462`; `x_max` is 8 below the old `x_max`. -/
theorem finish_on_targets_far_range :
    (0 : Int) < 8 ∧ (8 : Int) ∣ 8 ∧
    session_far.num_clicks = 4 ∧
    session_far.old_axys = ⟨268435456, 268435456 + 8, 0, 0 + 8⟩ ∧
    session_far.clicked_x = (set_display_size 8 8).1 ∧
    session_far.clicked_y = (set_display_size 8 8).2 ∧
    ∃ r axys, finish session_far 8 8 = some r ∧ r.written = some (axys, false) ∧
      axys = { x_min := 268435456, x_max := 268435456, y_min := 1, y_max := 6 } ∧
      axys.x_min ≠ 268435456 + 1 ∧ axys.x_max ≠ 268435456 + 8 - 2 := by
  refine ⟨by decide, by decide, rfl, rfl, rfl, rfl, _, _,
    finish_eq_of_not_swapped session_far 8 8 rfl (by decide) (by decide) (by decide), rfl, ?_⟩
  have e : spec_axis_range session_far.old_axys 8 8
      (session_far.clicked_x.v0, session_far.clicked_y.v0)
      (session_far.clicked_x.v1, session_far.clicked_y.v1)
      (session_far.clicked_x.v2, session_far.clicked_y.v2)
      (session_far.clicked_x.v3, session_far.clicked_y.v3) =
      { x_min := 268435456, x_max := 268435456, y_min := 1, y_max := 6 } :=
    spec_axis_range_far
  rw [e]
  exact ⟨rfl, by decide, by decide⟩

/-! ## The click count with the mis-click check enabled -/

theorem misclick_rule_of_four (c : Calib) (x y : Int) (hm : 0 < c.threshold_misclick)
    (hn : c.num_clicks = 4) : misclick_rule c x y := by
  refine ⟨hm, by omega, ?_⟩
  unfold spec_aligned
  rw [hn]
  simp

theorem add_click_count_step (c : Calib) (x y : Int) (hm : 0 < c.threshold_misclick)
    (hn0 : 0 ≤ c.num_clicks) (hn4 : c.num_clicks ≤ 4) :
    ∃ r c', add_click c x y = some (r, c') ∧ 0 ≤ c'.num_clicks ∧ c'.num_clicks ≤ 4 ∧
      c'.threshold_misclick = c.threshold_misclick ∧
      (r = true → c.num_clicks ≤ 3 ∧ c'.num_clicks = c.num_clicks + 1) := by
  by_cases hd : doubleclick_rule c x y
  · exact ⟨false, c, add_click_of_doubleclick c x y hn4 hd, hn0, hn4, rfl,
      fun h => by cases h⟩
  by_cases hmr : misclick_rule c x y
  · exact ⟨false, reset c, add_click_of_misclick c x y hn4 hd hmr, le_refl _,
      show (0 : Int) ≤ 4 by decide, rfl, fun h => by cases h⟩
  · have hn3 : c.num_clicks ≤ 3 := by
      by_contra h
      exact hmr (misclick_rule_of_four c x y hm (by omega))
    obtain ⟨c', h1, h2, _, _, _, _, _, h3, _⟩ := add_click_accept_explicit c x y hn0 hn3 hd hmr
    exact ⟨true, c', h1, by omega, by omega, h3, fun _ => ⟨hn3, h2⟩⟩

theorem run_calls_count (calls : List Call) :
    ∀ c : Calib, 0 < c.threshold_misclick → 0 ≤ c.num_clicks → c.num_clicks ≤ 4 →
      ∃ c', run_calls c calls = some c' ∧ 0 ≤ c'.num_clicks ∧ c'.num_clicks ≤ 4 := by
  induction calls with
  | nil => intro c _ h0 h4; exact ⟨c, rfl, h0, h4⟩
  | cons call rest ih =>
    intro c hm h0 h4
    cases call with
    | add_click x y =>
      obtain ⟨r, c', h1, h2, h3, h5, _⟩ := add_click_count_step c x y hm h0 h4
      simp only [run_calls, h1]
      exact ih c' (by rw [h5]; exact hm) h2 h3
    | reset =>
      simp only [run_calls]
      exact ih (reset c) hm (le_refl _) (show (0 : Int) ≤ 4 by decide)

/-- C21. With the mis-click check enabled the click arrays are never overrun: from
a session with `threshold_misclick > 0` and count 0, every finite sequence of
`add_click` and `reset` calls is defined (no store outside the arrays) and ends
with `0 ≤ num_clicks ≤ 4`; a click is only ever stored at an index of at most 3;
and a click offered when four clicks are stored is never accepted: `add_click`
returns `false`, with the session unchanged when the double-click rule fires and
reset to count 0 otherwise. -/
theorem add_click_never_overruns (c : Calib) (hm : 0 < c.threshold_misclick)
    (hn : c.num_clicks = 0) :
    (∀ calls : List Call,
      ∃ c', run_calls c calls = some c' ∧ 0 ≤ c'.num_clicks ∧ c'.num_clicks ≤ 4) ∧
    (∀ (calls : List Call) (c' c'' : Calib) (x y : Int), run_calls c calls = some c' →
      add_click c' x y = some (true, c'') → c'.num_clicks ≤ 3) ∧
    (∀ (c4 : Calib) (x y : Int), 0 < c4.threshold_misclick → c4.num_clicks = 4 →
      (doubleclick_rule c4 x y → add_click c4 x y = some (false, c4)) ∧
      (¬ doubleclick_rule c4 x y →
        add_click c4 x y = some (false, reset c4) ∧ (reset c4).num_clicks = 0)) := by
  refine ⟨fun calls => run_calls_count calls c hm (by omega) (by omega), ?_, ?_⟩
  · intro calls c' c'' x y hrun hadd
    by_contra hgt
    -- the misclick threshold is the one of `c`, hence positive, in every reached session
    have key : ∀ (l : List Call) (a b : Calib), run_calls a l = some b →
        b.threshold_misclick = a.threshold_misclick := by
      intro l
      induction l with
      | nil => intro a b h; simp only [run_calls, Option.some.injEq] at h; rw [h]
      | cons call rest ih =>
        intro a b h
        cases call with
        | add_click u v =>
          simp only [run_calls] at h
          cases hac : add_click a u v with
          | none => rw [hac] at h; cases h
          | some p =>
            rw [hac] at h
            have hp := ih p.2 b h
            have : p.2.threshold_misclick = a.threshold_misclick := by
              unfold add_click at hac
              split at hac
              · cases hac
              · cases hac; rfl
              · split_ifs at hac
                · cases hac; rfl
                · split at hac
                  · cases hac; rfl
                  · cases hac
            rw [hp, this]
        | reset =>
          simp only [run_calls] at h
          exact ih (reset a) b h
    have hm' : 0 < c'.threshold_misclick := by rw [key calls c c' hrun]; exact hm
    obtain ⟨d, hd, h0, h4⟩ := run_calls_count calls c hm (by omega) (by omega)
    rw [hrun] at hd
    cases hd
    obtain ⟨r, e, h1, _, _, _, h5⟩ := add_click_count_step c' x y hm' h0 h4
    rw [hadd] at h1
    cases h1
    exact hgt (h5 rfl).1
  · intro c4 x y hm4 hn4
    refine ⟨fun hd => add_click_of_doubleclick c4 x y (by omega) hd, fun hd => ?_⟩
    exact ⟨add_click_of_misclick c4 x y (by omega) hd (misclick_rule_of_four c4 x y hm4 hn4),
      rfl⟩

/-- Witness of C21: the fresh session with the default thresholds. -/
theorem add_click_never_overruns_witness :
    (∀ calls : List Call,
      ∃ c', run_calls session0 calls = some c' ∧ 0 ≤ c'.num_clicks ∧ c'.num_clicks ≤ 4) ∧
    (∀ (calls : List Call) (c' c'' : Calib) (x y : Int), run_calls session0 calls = some c' →
      add_click c' x y = some (true, c'') → c'.num_clicks ≤ 3) ∧
    (∀ (c4 : Calib) (x y : Int), 0 < c4.threshold_misclick → c4.num_clicks = 4 →
      (doubleclick_rule c4 x y → add_click c4 x y = some (false, c4)) ∧
      (¬ doubleclick_rule c4 x y →
        add_click c4 x y = some (false, reset c4) ∧ (reset c4).num_clicks = 0)) :=
  add_click_never_overruns session0 (by decide) (by decide)

/-! ## Clicking on the drawn targets -/

theorem doubleclick_rule_cases (c : Calib) (x y : Int) (h : doubleclick_rule c x y) :
    (0 < c.num_clicks ∧ |x - c.clicked_x.v0| ≤ c.threshold_doubleclick ∧
      |y - c.clicked_y.v0| ≤ c.threshold_doubleclick) ∨
    (1 < c.num_clicks ∧ |x - c.clicked_x.v1| ≤ c.threshold_doubleclick ∧
      |y - c.clicked_y.v1| ≤ c.threshold_doubleclick) ∨
    (2 < c.num_clicks ∧ |x - c.clicked_x.v2| ≤ c.threshold_doubleclick ∧
      |y - c.clicked_y.v2| ≤ c.threshold_doubleclick) ∨
    (3 < c.num_clicks ∧ |x - c.clicked_x.v3| ≤ c.threshold_doubleclick ∧
      |y - c.clicked_y.v3| ≤ c.threshold_doubleclick) := by
  obtain ⟨_, i, h0, h1, px, py, e1, e2, h3, h4⟩ := h
  unfold IntArr4.get? at e1 e2
  split_ifs at e1 e2 with a b d e
  · cases e1; cases e2; exact Or.inl ⟨by omega, h3, h4⟩
  · cases e1; cases e2; exact Or.inr (Or.inl ⟨by omega, h3, h4⟩)
  · cases e1; cases e2; exact Or.inr (Or.inr (Or.inl ⟨by omega, h3, h4⟩))
  · cases e1; cases e2; exact Or.inr (Or.inr (Or.inr ⟨by omega, h3, h4⟩))

theorem not_abs_le_of_lt {a b t : Int} (h : t < a - b) : ¬ |a - b| ≤ t := by
  intro h'
  have := (abs_le.mp h').2
  omega

/-- C22. Clicking exactly on the four drawn targets completes the sequence: for
every width `W`, height `H` and thresholds `t ≥ 0` (double-click) and `m ≥ 0`
(mis-click) with `W - 2 * ⌊W / 8⌋ - 1 > t` and `H - 2 * ⌊H / 8⌋ - 1 > t`, feeding a
session without clicks the targets of `set_display_size W H` in the order UL, UR,
LL, LR makes `add_click` return `true` four times and leaves the count at 4 with
the click arrays equal to the target arrays. -/
theorem add_click_on_targets (c : Calib) (W H : Int) (hn : c.num_clicks = 0)
    (ht : 0 ≤ c.threshold_doubleclick) (hm : 0 ≤ c.threshold_misclick)
    (hW : W - 2 * (W / 8) - 1 > c.threshold_doubleclick)
    (hH : H - 2 * (H / 8) - 1 > c.threshold_doubleclick) :
    ∃ c1 c2 c3 c4,
      add_click c (set_display_size W H).1.v0 (set_display_size W H).2.v0 = some (true, c1) ∧
      add_click c1 (set_display_size W H).1.v1 (set_display_size W H).2.v1 = some (true, c2) ∧
      add_click c2 (set_display_size W H).1.v2 (set_display_size W H).2.v2 = some (true, c3) ∧
      add_click c3 (set_display_size W H).1.v3 (set_display_size W H).2.v3 = some (true, c4) ∧
      c4.num_clicks = 4 ∧
      c4.clicked_x = (set_display_size W H).1 ∧ c4.clicked_y = (set_display_size W H).2 := by
  have hW0 : 0 ≤ W := by omega
  have hH0 : 0 ≤ H := by omega
  have eW : Int.tdiv W 8 = W / 8 := Int.tdiv_eq_ediv hW0 (by norm_num)
  have eH : Int.tdiv H 8 = H / 8 := Int.tdiv_eq_ediv hH0 (by norm_num)
  simp only [set_display_size, num_blocks, eW, eH]
  generalize hX0 : W / 8 = X0 at hW
  generalize hY0 : H / 8 = Y0 at hH
  generalize hX1 : W - X0 - 1 = X1
  generalize hY2 : H - Y0 - 1 = Y2
  have hx : c.threshold_doubleclick < X1 - X0 := by omega
  have hy : c.threshold_doubleclick < Y2 - Y0 := by omega
  -- first click
  have h1 : add_click c X0 Y0 = some (true,
      { c with clicked_x := { c.clicked_x with v0 := X0 }
               clicked_y := { c.clicked_y with v0 := Y0 }, num_clicks := 1 }) := by
    have hd : ¬ doubleclick_rule c X0 Y0 := by
      rintro ⟨_, i, h0, h1, _⟩; omega
    have hmr : ¬ misclick_rule c X0 Y0 := by
      rintro ⟨_, h, _⟩; omega
    have e := add_click_of_accept c X0 Y0 (by omega) hd hmr
    simp only [hn, IntArr4.set?] at e
    norm_num at e
    exact e
  -- second click
  have h2 : add_click { c with clicked_x := { c.clicked_x with v0 := X0 }
                               clicked_y := { c.clicked_y with v0 := Y0 }, num_clicks := 1 }
      X1 Y0 = some (true,
      { c with clicked_x := { c.clicked_x with v0 := X0, v1 := X1 }
               clicked_y := { c.clicked_y with v0 := Y0, v1 := Y0 }, num_clicks := 2 }) := by
    refine (add_click_of_accept _ _ _ ?_ ?_ ?_).trans ?_
    · simp
    · intro h
      rcases doubleclick_rule_cases _ _ _ h with ⟨_, a, _⟩ | ⟨a, _⟩ | ⟨a, _⟩ | ⟨a, _⟩
      · exact not_abs_le_of_lt hx a
      all_goals simp at a
    · rintro ⟨_, _, hna⟩
      apply hna
      left
      refine ⟨rfl, Or.inr (Or.inr ?_)⟩
      simpa using hm
    · simp only [IntArr4.set?]
      norm_num
  -- third click
  have h3 : add_click { c with clicked_x := { c.clicked_x with v0 := X0, v1 := X1 }
                               clicked_y := { c.clicked_y with v0 := Y0, v1 := Y0 }
                               num_clicks := 2 }
      X0 Y2 = some (true,
      { c with clicked_x := { c.clicked_x with v0 := X0, v1 := X1, v2 := X0 }
               clicked_y := { c.clicked_y with v0 := Y0, v1 := Y0, v2 := Y2 }
               num_clicks := 3 }) := by
    refine (add_click_of_accept _ _ _ ?_ ?_ ?_).trans ?_
    · simp
    · intro h
      rcases doubleclick_rule_cases _ _ _ h with ⟨_, _, a⟩ | ⟨_, _, a⟩ | ⟨a, _⟩ | ⟨a, _⟩
      · exact not_abs_le_of_lt hy a
      · exact not_abs_le_of_lt hy a
      all_goals simp at a
    · rintro ⟨_, _, hna⟩
      apply hna
      right; left
      refine ⟨rfl, Or.inr ⟨Or.inl ?_, Or.inr ?_⟩⟩
      · simpa using hm
      · simpa using hm
    · simp only [IntArr4.set?]
      norm_num
  -- fourth click
  have h4 : add_click { c with clicked_x := { c.clicked_x with v0 := X0, v1 := X1, v2 := X0 }
                               clicked_y := { c.clicked_y with v0 := Y0, v1 := Y0, v2 := Y2 }
                               num_clicks := 3 }
      X1 Y2 = some (true,
      { c with clicked_x := ⟨X0, X1, X0, X1⟩, clicked_y := ⟨Y0, Y0, Y2, Y2⟩
               num_clicks := 4 }) := by
    refine (add_click_of_accept _ _ _ ?_ ?_ ?_).trans ?_
    · simp
    · intro h
      rcases doubleclick_rule_cases _ _ _ h with ⟨_, a, _⟩ | ⟨_, _, a⟩ | ⟨_, a, _⟩ | ⟨a, _⟩
      · exact not_abs_le_of_lt hx a
      · exact not_abs_le_of_lt hy a
      · exact not_abs_le_of_lt hx a
      · simp at a
    · rintro ⟨_, _, hna⟩
      apply hna
      right; right
      refine ⟨rfl, Or.inl ⟨Or.inl ?_, Or.inr ?_⟩⟩
      · simpa using hm
      · simpa using hm
    · simp only [IntArr4.set?]
      norm_num
  exact ⟨_, _, _, _, h1, h2, h3, h4, rfl, rfl, rfl⟩

/-- Witness of C22: the display of 800 by 600 and the default thresholds 7 and 15. -/
theorem add_click_on_targets_witness :
    ∃ c1 c2 c3 c4,
      add_click session0 (set_display_size 800 600).1.v0 (set_display_size 800 600).2.v0 =
        some (true, c1) ∧
      add_click c1 (set_display_size 800 600).1.v1 (set_display_size 800 600).2.v1 =
        some (true, c2) ∧
      add_click c2 (set_display_size 800 600).1.v2 (set_display_size 800 600).2.v2 =
        some (true, c3) ∧
      add_click c3 (set_display_size 800 600).1.v3 (set_display_size 800 600).2.v3 =
        some (true, c4) ∧
      c4.num_clicks = 4 ∧
      c4.clicked_x = (set_display_size 800 600).1 ∧
      c4.clicked_y = (set_display_size 800 600).2 :=
  add_click_on_targets session0 800 600 (by decide) (by decide) (by decide) (by decide)
    (by decide)

/-! ## Symmetry under transposing the axes -/

theorem doubleclick_loop_transpose (s : Calib) (x y : Int) (k : Nat) :
    doubleclick_loop (transpose s) y x k = doubleclick_loop s x y k := by
  induction k with
  | zero => rfl
  | succ k ih =>
    simp only [doubleclick_loop, transpose] at ih ⊢
    cases hx : s.clicked_x.get? (k : Int) <;> cases hy : s.clicked_y.get? (k : Int) <;>
      simp only [ih, and_comm]

theorem doubleclick_detect_transpose (s : Calib) (x y : Int) :
    doubleclick_detect (transpose s) y x = doubleclick_detect s x y := by
  unfold doubleclick_detect
  rw [doubleclick_loop_transpose]
  rfl

theorem alongAxis_comm (m v a b : Int) : alongAxis m v a b ↔ alongAxis m v b a := by
  unfold alongAxis; exact or_comm

theorem spec_aligned_transpose (s : Calib) (x y : Int) :
    spec_aligned (transpose s) y x ↔ spec_aligned s x y := by
  unfold spec_aligned
  simp only [transpose]
  rw [alongAxis_comm _ y s.clicked_y.v0, alongAxis_comm _ x s.clicked_y.v0,
    alongAxis_comm _ s.clicked_y.v1 s.clicked_y.v0, alongAxis_comm _ s.clicked_x.v1 s.clicked_y.v0,
    alongAxis_comm _ y s.clicked_y.v1, alongAxis_comm _ x s.clicked_y.v2,
    alongAxis_comm _ x s.clicked_y.v1, alongAxis_comm _ y s.clicked_y.v2]
  tauto

theorem misclick_detect_transpose (s : Calib) (x y : Int) :
    misclick_detect (transpose s) y x = misclick_detect s x y := by
  rw [Bool.eq_iff_iff, misclick_detect_iff, misclick_detect_iff]
  unfold misclick_rule
  rw [spec_aligned_transpose]
  rfl

theorem add_click_transpose (s : Calib) (x y : Int) :
    add_click (transpose s) y x = (add_click s x y).map (fun r => (r.1, transpose r.2)) := by
  unfold add_click
  rw [doubleclick_detect_transpose, misclick_detect_transpose]
  split
  · rfl
  · rfl
  · split_ifs
    · rfl
    · show (match s.clicked_y.set? s.num_clicks y, s.clicked_x.set? s.num_clicks x with
        | some cx, some cy => _
        | _, _ => _) = _
      cases hx : s.clicked_x.set? s.num_clicks x <;> cases hy : s.clicked_y.set? s.num_clicks y <;>
        rfl

theorem add_click_defined (c : Calib) (x y : Int) (hn0 : 0 ≤ c.num_clicks)
    (hn3 : c.num_clicks ≤ 3) : ∃ b c', add_click c x y = some (b, c') := by
  by_cases hd : doubleclick_rule c x y
  · exact ⟨_, _, add_click_of_doubleclick c x y (by omega) hd⟩
  by_cases hm : misclick_rule c x y
  · exact ⟨_, _, add_click_of_misclick c x y (by omega) hd hm⟩
  · obtain ⟨c', h, _⟩ := add_click_accept_explicit c x y hn0 hn3 hd hm
    exact ⟨_, _, h⟩

/-- C23. Click validation is symmetric under transposing the axes: for every
session `s` with `0 ≤ n ≤ 3` stored clicks, any thresholds and every click
`(x, y)`, `add_click` on the transposed session with the click `(y, x)` returns the
same boolean as `add_click s x y`, and leaves the transpose of the session that
`add_click s x y` leaves. -/
theorem add_click_transpose_symmetric (s : Calib) (x y : Int) (hn0 : 0 ≤ s.num_clicks)
    (hn3 : s.num_clicks ≤ 3) :
    ∃ b s', add_click s x y = some (b, s') ∧
      add_click (transpose s) y x = some (b, transpose s') := by
  obtain ⟨b, s', h⟩ := add_click_defined s x y hn0 hn3
  refine ⟨b, s', h, ?_⟩
  rw [add_click_transpose, h]
  rfl

/-- Witness of C23: the click `(110, 900)` offered after `(100, 100)` and
`(900, 110)`. -/
theorem add_click_transpose_symmetric_witness :
    ∃ b s', add_click session2 110 900 = some (b, s') ∧
      add_click (transpose session2) 900 110 = some (b, transpose s') :=
  add_click_transpose_symmetric session2 110 900 (by decide) (by decide)

/-! ## Monotonicity in the mis-click threshold -/

theorem alongAxis_mono {m m' : Int} (h : m ≤ m') (v a b : Int) (ha : alongAxis m v a b) :
    alongAxis m' v a b := by
  unfold alongAxis at *
  rcases ha with h1 | h1
  · exact Or.inl (le_trans h1 h)
  · exact Or.inr (le_trans h1 h)

theorem spec_aligned_mono (c : Calib) (x y : Int) {m m' : Int} (h : m ≤ m')
    (ha : spec_aligned { c with threshold_misclick := m } x y) :
    spec_aligned { c with threshold_misclick := m' } x y := by
  unfold spec_aligned at *
  simp only at ha ⊢
  rcases ha with ⟨hn, h1 | h1⟩ | ⟨hn, h1 | h1⟩ | ⟨hn, h1 | h1⟩
  · exact Or.inl ⟨hn, Or.inl (alongAxis_mono h _ _ _ h1)⟩
  · exact Or.inl ⟨hn, Or.inr (alongAxis_mono h _ _ _ h1)⟩
  · exact Or.inr (Or.inl ⟨hn, Or.inl ⟨alongAxis_mono h _ _ _ h1.1, alongAxis_mono h _ _ _ h1.2⟩⟩)
  · exact Or.inr (Or.inl ⟨hn, Or.inr ⟨alongAxis_mono h _ _ _ h1.1, alongAxis_mono h _ _ _ h1.2⟩⟩)
  · exact Or.inr (Or.inr ⟨hn, Or.inl ⟨alongAxis_mono h _ _ _ h1.1, alongAxis_mono h _ _ _ h1.2⟩⟩)
  · exact Or.inr (Or.inr ⟨hn, Or.inr ⟨alongAxis_mono h _ _ _ h1.1, alongAxis_mono h _ _ _ h1.2⟩⟩)

theorem doubleclick_rule_set_misclick (c : Calib) (x y m : Int) :
    doubleclick_rule { c with threshold_misclick := m } x y ↔ doubleclick_rule c x y :=
  Iff.rfl

theorem misclick_rule_antitone (c : Calib) (x y : Int) {m m' : Int} (hm : 0 < m) (h : m ≤ m')
    (hr : misclick_rule { c with threshold_misclick := m' } x y) :
    misclick_rule { c with threshold_misclick := m } x y := by
  obtain ⟨_, hn, hna⟩ := hr
  exact ⟨hm, hn, fun ha => hna (spec_aligned_mono c x y h ha)⟩

/-- C25. A lower mis-click threshold is stricter: for thresholds `0 < m ≤ m'`, a
session with `1 ≤ n ≤ 3` stored clicks and a click `(x, y)`, when `add_click`
accepts the click in the session with `threshold_misclick = m` it accepts it in
the otherwise identical session with `threshold_misclick = m'`; and when the
click is mis-click-rejected under `m'` (`false` returned, session reset) it is
mis-click-rejected under `m`. -/
theorem add_click_misclick_monotone (c : Calib) (x y m m' : Int) (hm : 0 < m) (hmm : m ≤ m')
    (hn1 : 1 ≤ c.num_clicks) (hn3 : c.num_clicks ≤ 3) :
    ((∃ c1, add_click { c with threshold_misclick := m } x y = some (true, c1)) →
      ∃ c2, add_click { c with threshold_misclick := m' } x y = some (true, c2)) ∧
    (add_click { c with threshold_misclick := m' } x y =
        some (false, reset { c with threshold_misclick := m' }) →
      add_click { c with threshold_misclick := m } x y =
        some (false, reset { c with threshold_misclick := m })) := by
  have h4 : ∀ t : Int, ({ c with threshold_misclick := t } : Calib).num_clicks ≤ 4 := by
    intro t; show c.num_clicks ≤ 4; omega
  constructor
  · rintro ⟨c1, h1⟩
    by_cases hd : doubleclick_rule c x y
    · rw [add_click_of_doubleclick _ x y (h4 m) ((doubleclick_rule_set_misclick c x y m).mpr hd)]
        at h1
      cases h1
    by_cases hr : misclick_rule { c with threshold_misclick := m' } x y
    · rw [add_click_of_misclick _ x y (h4 m)
        (fun h => hd ((doubleclick_rule_set_misclick c x y m).mp h))
        (misclick_rule_antitone c x y hm hmm hr)] at h1
      cases h1
    · obtain ⟨c2, h2, _⟩ := add_click_accept_explicit { c with threshold_misclick := m' } x y
        (show 0 ≤ c.num_clicks by omega) (show c.num_clicks ≤ 3 from hn3)
        (fun h => hd ((doubleclick_rule_set_misclick c x y m').mp h)) hr
      exact ⟨c2, h2⟩
  · intro h
    by_cases hd : doubleclick_rule c x y
    · rw [add_click_of_doubleclick _ x y (h4 m') ((doubleclick_rule_set_misclick c x y m').mpr hd)]
        at h
      have : ({ c with threshold_misclick := m' } : Calib).num_clicks =
          (reset { c with threshold_misclick := m' }).num_clicks := by
        simp only [Option.some.injEq, Prod.mk.injEq, true_and] at h
        rw [← h]
      have e : c.num_clicks = 0 := this
      omega
    by_cases hr : misclick_rule { c with threshold_misclick := m' } x y
    · exact add_click_of_misclick _ x y (h4 m)
        (fun h => hd ((doubleclick_rule_set_misclick c x y m).mp h))
        (misclick_rule_antitone c x y hm hmm hr)
    · exact absurd h (add_click_accept_not_false _ x y (h4 m')
        (fun h => hd ((doubleclick_rule_set_misclick c x y m').mp h)) hr _)

/-- Witness of C25: the thresholds 15 and 30, the click `(900, 110)` offered after
`(100, 100)`. -/
theorem add_click_misclick_monotone_witness :
    ((∃ c1, add_click { session1 with threshold_misclick := 15 } 900 110 = some (true, c1)) →
      ∃ c2, add_click { session1 with threshold_misclick := 30 } 900 110 = some (true, c2)) ∧
    (add_click { session1 with threshold_misclick := 30 } 900 110 =
        some (false, reset { session1 with threshold_misclick := 30 }) →
      add_click { session1 with threshold_misclick := 15 } 900 110 =
        some (false, reset { session1 with threshold_misclick := 15 })) :=
  add_click_misclick_monotone session1 900 110 15 30 (by decide) (by decide) (by decide)
    (by decide)

/-! ## The footprint of `finish` on the session -/

theorem finish_state_eq (c : Calib) (width height : Int) (r : FinishResult)
    (h : finish c width height = some r) :
    r.state =
      if c.num_clicks = 4 ∧
          |c.clicked_x.v0 - c.clicked_x.v1| < |c.clicked_y.v0 - c.clicked_y.v1| then
        swap_LL_UR c
      else c := by
  unfold finish at h
  split_ifs at h with hn
  · cases h
    have hn' : ¬ c.num_clicks = 4 := hn
    simp [hn']
  · have hn' : c.num_clicks = 4 := by
      unfold get_numclicks at hn; exact not_not.mp hn
    simp only at h
    split at h
    · cases h
    · cases h
      by_cases hs : |c.clicked_x.v0 - c.clicked_x.v1| < |c.clicked_y.v0 - c.clicked_y.v1|
      · simp [hs, hn']
      · simp [hs]

/-- C27. The footprint of `finish` on the session: with exactly four clicks and
any width and height, the session that `finish` leaves has the same `num_clicks`,
thresholds and `old_axys` and the same clicks at UL and LR; when `swap_xy` is true
the clicks stored at UR and LL are exchanged with each other, and when it is
false they are unchanged. `finish` returns whenever the width and the height are
not zero. -/
theorem finish_footprint (c : Calib) (width height : Int) (hn : c.num_clicks = 4) :
    (∀ r, finish c width height = some r →
      r.state.num_clicks = c.num_clicks ∧
      r.state.threshold_doubleclick = c.threshold_doubleclick ∧
      r.state.threshold_misclick = c.threshold_misclick ∧
      r.state.old_axys = c.old_axys ∧
      r.state.clicked_x.v0 = c.clicked_x.v0 ∧ r.state.clicked_y.v0 = c.clicked_y.v0 ∧
      r.state.clicked_x.v3 = c.clicked_x.v3 ∧ r.state.clicked_y.v3 = c.clicked_y.v3 ∧
      (|c.clicked_x.v0 - c.clicked_x.v1| < |c.clicked_y.v0 - c.clicked_y.v1| →
        r.state.clicked_x.v1 = c.clicked_x.v2 ∧ r.state.clicked_y.v1 = c.clicked_y.v2 ∧
        r.state.clicked_x.v2 = c.clicked_x.v1 ∧ r.state.clicked_y.v2 = c.clicked_y.v1) ∧
      (¬ |c.clicked_x.v0 - c.clicked_x.v1| < |c.clicked_y.v0 - c.clicked_y.v1| →
        r.state.clicked_x.v1 = c.clicked_x.v1 ∧ r.state.clicked_y.v1 = c.clicked_y.v1 ∧
        r.state.clicked_x.v2 = c.clicked_x.v2 ∧ r.state.clicked_y.v2 = c.clicked_y.v2)) ∧
    (width ≠ 0 → height ≠ 0 → ∃ r, finish c width height = some r) := by
  constructor
  · intro r hr
    have e := finish_state_eq c width height r hr
    by_cases hs : |c.clicked_x.v0 - c.clicked_x.v1| < |c.clicked_y.v0 - c.clicked_y.v1|
    · rw [if_pos ⟨hn, hs⟩] at e
      rw [e]
      exact ⟨rfl, rfl, rfl, rfl, rfl, rfl, rfl, rfl, fun _ => ⟨rfl, rfl, rfl, rfl⟩,
        fun h => absurd hs h⟩
    · rw [if_neg (fun h => hs h.2)] at e
      rw [e]
      exact ⟨rfl, rfl, rfl, rfl, rfl, rfl, rfl, rfl, fun h => absurd h hs,
        fun _ => ⟨rfl, rfl, rfl, rfl⟩⟩
  · intro hw hh
    by_cases hs : |c.clicked_x.v0 - c.clicked_x.v1| < |c.clicked_y.v0 - c.clicked_y.v1|
    · exact ⟨_, finish_eq_of_swapped c width height hn hs hw hh⟩
    · exact ⟨_, finish_eq_of_not_swapped c width height hn hs hw hh⟩

/-- Witness of C27: the transposed clicks `(100, 100)`, `(110, 900)`, `(900, 110)`,
`(890, 890)` with `width = height = 1000`. -/
theorem finish_footprint_witness :
    (∀ r, finish session4_swapped 1000 1000 = some r →
      r.state.num_clicks = session4_swapped.num_clicks ∧
      r.state.threshold_doubleclick = session4_swapped.threshold_doubleclick ∧
      r.state.threshold_misclick = session4_swapped.threshold_misclick ∧
      r.state.old_axys = session4_swapped.old_axys ∧
      r.state.clicked_x.v0 = session4_swapped.clicked_x.v0 ∧
      r.state.clicked_y.v0 = session4_swapped.clicked_y.v0 ∧
      r.state.clicked_x.v3 = session4_swapped.clicked_x.v3 ∧
      r.state.clicked_y.v3 = session4_swapped.clicked_y.v3 ∧
      (|session4_swapped.clicked_x.v0 - session4_swapped.clicked_x.v1| <
          |session4_swapped.clicked_y.v0 - session4_swapped.clicked_y.v1| →
        r.state.clicked_x.v1 = session4_swapped.clicked_x.v2 ∧
        r.state.clicked_y.v1 = session4_swapped.clicked_y.v2 ∧
        r.state.clicked_x.v2 = session4_swapped.clicked_x.v1 ∧
        r.state.clicked_y.v2 = session4_swapped.clicked_y.v1) ∧
      (¬ |session4_swapped.clicked_x.v0 - session4_swapped.clicked_x.v1| <
          |session4_swapped.clicked_y.v0 - session4_swapped.clicked_y.v1| →
        r.state.clicked_x.v1 = session4_swapped.clicked_x.v1 ∧
        r.state.clicked_y.v1 = session4_swapped.clicked_y.v1 ∧
        r.state.clicked_x.v2 = session4_swapped.clicked_x.v2 ∧
        r.state.clicked_y.v2 = session4_swapped.clicked_y.v2)) ∧
    ((1000 : Int) ≠ 0 → (1000 : Int) ≠ 0 → ∃ r, finish session4_swapped 1000 1000 = some r) :=
  finish_footprint session4_swapped 1000 1000 (by decide)

/-! ## Separation of the stored clicks -/

theorem set?_range {a a' : IntArr4} {i v : Int} (h : a.set? i v = some a') : 0 ≤ i ∧ i ≤ 3 := by
  unfold IntArr4.set? at h
  split_ifs at h <;> omega

theorem get?_set?_same {a a' : IntArr4} {i v : Int} (h : a.set? i v = some a') :
    a'.get? i = some v := by
  unfold IntArr4.set? at h
  split_ifs at h with h0 h1 h2 h3
  · cases h; simp [IntArr4.get?, h0]
  · cases h; simp [IntArr4.get?, h1]
  · cases h; simp [IntArr4.get?, h2]
  · cases h; simp [IntArr4.get?, h3]

theorem get?_set?_other {a a' : IntArr4} {i j v : Int} (h : a.set? i v = some a') (hj : j ≠ i) :
    a'.get? j = a.get? j := by
  unfold IntArr4.set? at h
  unfold IntArr4.get?
  split_ifs at h with h0 h1 h2 h3
  · cases h; subst h0; simp [hj]
  · cases h; subst h1; simp [hj]
  · cases h; subst h2; simp [hj]
  · cases h; subst h3; simp [hj]

theorem add_click_cases (c : Calib) (x y : Int) (b : Bool) (c' : Calib) (hn : c.num_clicks ≤ 4)
    (h : add_click c x y = some (b, c')) :
    (b = false ∧ c' = c) ∨ (b = false ∧ c' = reset c) ∨
    (b = true ∧ ¬ doubleclick_rule c x y ∧ ∃ cx cy,
      c.clicked_x.set? c.num_clicks x = some cx ∧ c.clicked_y.set? c.num_clicks y = some cy ∧
      c' = { c with clicked_x := cx, clicked_y := cy, num_clicks := c.num_clicks + 1 }) := by
  by_cases hd : doubleclick_rule c x y
  · rw [add_click_of_doubleclick c x y hn hd] at h
    cases h; exact Or.inl ⟨rfl, rfl⟩
  by_cases hm : misclick_rule c x y
  · rw [add_click_of_misclick c x y hn hd hm] at h
    cases h; exact Or.inr (Or.inl ⟨rfl, rfl⟩)
  · rw [add_click_of_accept c x y hn hd hm] at h
    cases hx : c.clicked_x.set? c.num_clicks x with
    | none => rw [hx] at h; cases h
    | some cx =>
      cases hy : c.clicked_y.set? c.num_clicks y with
      | none => rw [hx, hy] at h; cases h
      | some cy =>
        rw [hx, hy] at h
        cases h
        exact Or.inr (Or.inr ⟨rfl, hd, cx, cy, rfl, rfl, rfl⟩)

theorem separated_add_click (c : Calib) (x y : Int) (b : Bool) (c' : Calib)
    (ht : 0 < c.threshold_doubleclick) (hn0 : 0 ≤ c.num_clicks) (hn4 : c.num_clicks ≤ 4)
    (hs : separated c) (h : add_click c x y = some (b, c')) :
    separated c' ∧ c'.threshold_doubleclick = c.threshold_doubleclick ∧
      0 ≤ c'.num_clicks ∧ c'.num_clicks ≤ 4 := by
  rcases add_click_cases c x y b c' hn4 h with ⟨_, rfl⟩ | ⟨_, rfl⟩ | ⟨_, hd, cx, cy, hx, hy, rfl⟩
  · exact ⟨hs, rfl, hn0, hn4⟩
  · refine ⟨?_, rfl, le_refl _, show (0 : Int) ≤ 4 by decide⟩
    intro i j hi hij hj
    have : j < 0 := hj
    omega
  · have hr := set?_range hx
    refine ⟨?_, rfl, show 0 ≤ c.num_clicks + 1 by omega, show c.num_clicks + 1 ≤ 4 by omega⟩
    intro i j hi hij hj xi yi xj yj e1 e2 e3 e4
    have hj' : j < c.num_clicks + 1 := hj
    simp only at e1 e2 e3 e4
    rw [get?_set?_other hx (show i ≠ c.num_clicks by omega)] at e1
    rw [get?_set?_other hy (show i ≠ c.num_clicks by omega)] at e2
    show |xi - xj| > c.threshold_doubleclick ∨ |yi - yj| > c.threshold_doubleclick
    by_cases hjn : j = c.num_clicks
    · subst hjn
      rw [get?_set?_same hx] at e3
      rw [get?_set?_same hy] at e4
      cases e3; cases e4
      by_contra hcon
      push_neg at hcon
      apply hd
      refine ⟨ht, i, hi, hij, xi, yi, e1, e2, ?_, ?_⟩
      · rw [abs_sub_comm]; exact hcon.1
      · rw [abs_sub_comm]; exact hcon.2
    · rw [get?_set?_other hx hjn] at e3
      rw [get?_set?_other hy hjn] at e4
      exact hs i j hi hij (by omega) xi yi xj yj e1 e2 e3 e4

theorem separated_swap (c : Calib) (hn : c.num_clicks = 4) (hs : separated c) :
    separated (swap_LL_UR c) := by
  have h01 := hs 0 1 (by norm_num) (by norm_num) (by omega) _ _ _ _ rfl rfl rfl rfl
  have h02 := hs 0 2 (by norm_num) (by norm_num) (by omega) _ _ _ _ rfl rfl rfl rfl
  have h03 := hs 0 3 (by norm_num) (by norm_num) (by omega) _ _ _ _ rfl rfl rfl rfl
  have h12 := hs 1 2 (by norm_num) (by norm_num) (by omega) _ _ _ _ rfl rfl rfl rfl
  have h13 := hs 1 3 (by norm_num) (by norm_num) (by omega) _ _ _ _ rfl rfl rfl rfl
  have h23 := hs 2 3 (by norm_num) (by norm_num) (by omega) _ _ _ _ rfl rfl rfl rfl
  intro i j hi hij hj xi yi xj yj e1 e2 e3 e4
  have hj' : j < 4 := by rw [← hn]; exact hj
  show |xi - xj| > c.threshold_doubleclick ∨ |yi - yj| > c.threshold_doubleclick
  have hcases : (i = 0 ∧ j = 1) ∨ (i = 0 ∧ j = 2) ∨ (i = 0 ∧ j = 3) ∨ (i = 1 ∧ j = 2) ∨
      (i = 1 ∧ j = 3) ∨ (i = 2 ∧ j = 3) := by omega
  rcases hcases with ⟨rfl, rfl⟩ | ⟨rfl, rfl⟩ | ⟨rfl, rfl⟩ | ⟨rfl, rfl⟩ | ⟨rfl, rfl⟩ | ⟨rfl, rfl⟩ <;>
    simp only [swap_LL_UR, IntArr4.get?] at e1 e2 e3 e4 <;>
    norm_num at e1 e2 e3 e4 <;>
    subst e1 e2 e3 e4
  · exact h02
  · exact h01
  · exact h03
  · rw [abs_sub_comm c.clicked_x.v2, abs_sub_comm c.clicked_y.v2]; exact h12
  · exact h23
  · exact h13

theorem separated_finish (c : Calib) (width height : Int) (r : FinishResult)
    (hs : separated c) (h : finish c width height = some r) :
    separated r.state ∧ r.state.threshold_doubleclick = c.threshold_doubleclick ∧
      r.state.num_clicks = c.num_clicks := by
  have e := finish_state_eq c width height r h
  split_ifs at e with hc
  · rw [e]; exact ⟨separated_swap c hc.1 hs, rfl, rfl⟩
  · rw [e]; exact ⟨hs, rfl, rfl⟩

theorem run_trace_separated (calls : List EngineCall) :
    ∀ (c : Calib) (os : List Outcome) (c' : Calib), 0 < c.threshold_doubleclick →
      0 ≤ c.num_clicks → c.num_clicks ≤ 4 → separated c → run_trace c calls = some (os, c') →
      separated c' ∧ c'.threshold_doubleclick = c.threshold_doubleclick ∧
        0 ≤ c'.num_clicks ∧ c'.num_clicks ≤ 4 := by
  induction calls with
  | nil =>
    intro c os c' _ h0 h4 hs h
    simp only [run_trace, Option.some.injEq, Prod.mk.injEq] at h
    rw [← h.2]; exact ⟨hs, rfl, h0, h4⟩
  | cons call rest ih =>
    intro c os c' ht h0 h4 hs h
    cases call with
    | add_click x y =>
      simp only [run_trace] at h
      cases hac : add_click c x y with
      | none => rw [hac] at h; cases h
      | some p =>
        obtain ⟨b, c1⟩ := p
        rw [hac] at h
        simp only at h
        cases hr : run_trace c1 rest with
        | none => rw [hr] at h; cases h
        | some q =>
          obtain ⟨os1, c2⟩ := q
          rw [hr] at h
          simp only [Option.some.injEq, Prod.mk.injEq] at h
          obtain ⟨s1, t1, a1, b1⟩ := separated_add_click c x y b c1 ht h0 h4 hs hac
          obtain ⟨s2, t2, a2, b2⟩ := ih c1 os1 c2 (by rw [t1]; exact ht) a1 b1 s1 hr
          rw [← h.2]
          exact ⟨s2, by rw [t2, t1], a2, b2⟩
    | reset =>
      simp only [run_trace] at h
      cases hr : run_trace (reset c) rest with
      | none => rw [hr] at h; cases h
      | some q =>
        obtain ⟨os1, c2⟩ := q
        rw [hr] at h
        simp only [Option.some.injEq, Prod.mk.injEq] at h
        have s1 : separated (reset c) := by
          intro i j hi hij hj
          have : j < 0 := hj
          omega
        obtain ⟨s2, t2, a2, b2⟩ := ih (reset c) os1 c2 ht (le_refl _)
          (show (0 : Int) ≤ 4 by decide) s1 hr
        rw [← h.2]
        exact ⟨s2, t2, a2, b2⟩
    | finish width height =>
      simp only [run_trace] at h
      cases hf : finish c width height with
      | none => rw [hf] at h; cases h
      | some r =>
        rw [hf] at h
        simp only at h
        cases hr : run_trace r.state rest with
        | none => rw [hr] at h; cases h
        | some q =>
          obtain ⟨os1, c2⟩ := q
          rw [hr] at h
          simp only [Option.some.injEq, Prod.mk.injEq] at h
          obtain ⟨s1, t1, n1⟩ := separated_finish c width height r hs hf
          obtain ⟨s2, t2, a2, b2⟩ := ih r.state os1 c2 (by rw [t1]; exact ht)
            (by rw [n1]; exact h0) (by rw [n1]; exact h4) s1 hr
          rw [← h.2]
          exact ⟨s2, by rw [t2, t1], a2, b2⟩

/-- C24. Stored clicks are pairwise separated: from a session with
`threshold_doubleclick = t > 0` and count 0, after every finite sequence of
`add_click`, `reset` and `finish` calls (every call being defined, so that the
count stays at most 4), the threshold is still `t`, the count is between 0 and 4
and any two clicks stored at positions `i < j < num_clicks` satisfy
`|x_i - x_j| > t` or `|y_i - y_j| > t`. -/
theorem stored_clicks_separated (c : Calib) (calls : List EngineCall) (os : List Outcome)
    (c' : Calib) (ht : 0 < c.threshold_doubleclick) (hn : c.num_clicks = 0)
    (h : run_trace c calls = some (os, c')) :
    c'.threshold_doubleclick = c.threshold_doubleclick ∧
    0 ≤ c'.num_clicks ∧ c'.num_clicks ≤ 4 ∧
    ∀ i j : Int, 0 ≤ i → i < j → j < c'.num_clicks →
      ∀ xi yi xj yj, c'.clicked_x.get? i = some xi → c'.clicked_y.get? i = some yi →
        c'.clicked_x.get? j = some xj → c'.clicked_y.get? j = some yj →
        |xi - xj| > c'.threshold_doubleclick ∨ |yi - yj| > c'.threshold_doubleclick := by
  have hs : separated c := by
    intro i j hi hij hj
    omega
  obtain ⟨s, t, a, b⟩ := run_trace_separated calls c os c' ht (by omega) (by omega) hs h
  exact ⟨t, a, b, s⟩

theorem run_trace_cons_add_click (c c1 c2 : Calib) (x y : Int) (b : Bool)
    (rest : List EngineCall) (os : List Outcome) (h : add_click c x y = some (b, c1))
    (hr : run_trace c1 rest = some (os, c2)) :
    run_trace c (EngineCall.add_click x y :: rest) = some (Outcome.clicked b :: os, c2) := by
  simp only [run_trace, h, hr]

theorem run_trace_cons_finish (c c2 : Calib) (width height : Int) (r : FinishResult)
    (rest : List EngineCall) (os : List Outcome) (h : finish c width height = some r)
    (hr : run_trace r.state rest = some (os, c2)) :
    run_trace c (EngineCall.finish width height :: rest) =
      some (Outcome.finished r.ret r.written :: os, c2) := by
  simp only [run_trace, h, hr]

theorem finish_session4_swapped :
    finish session4_swapped 1000 1000 =
      some { ret := true
             written := some ({ x_min := 1026, x_max := -26, y_min := 1026, y_max := -26 }, true)
             state := swap_LL_UR session4_swapped } := by
  rw [finish_eq_of_swapped session4_swapped 1000 1000 (by decide) (by decide) (by decide)
    (by decide)]
  simp [session4_swapped, session0, CalibratorXorgPrint, spec_axis_range_witness, finish_data,
    spec_unswap, swap_LL_UR]

theorem run_trace_session0_swapped :
    run_trace session0
        [EngineCall.add_click 100 100, EngineCall.add_click 110 900,
          EngineCall.add_click 900 110, EngineCall.add_click 890 890,
          EngineCall.finish 1000 1000] =
      some ([Outcome.clicked true, Outcome.clicked true, Outcome.clicked true,
          Outcome.clicked true,
          Outcome.finished true
            (some ({ x_min := 1026, x_max := -26, y_min := 1026, y_max := -26 }, true))],
        swap_LL_UR session4_swapped) :=
  run_trace_cons_add_click session0 session1 _ 100 100 true _ _ (by decide)
    (run_trace_cons_add_click session1
      { session0 with num_clicks := 2, clicked_x := ⟨100, 110, 0, 0⟩,
                      clicked_y := ⟨100, 900, 0, 0⟩ } _ 110 900 true _ _ (by decide)
      (run_trace_cons_add_click _
        { session0 with num_clicks := 3, clicked_x := ⟨100, 110, 900, 0⟩,
                        clicked_y := ⟨100, 900, 110, 0⟩ } _ 900 110 true _ _ (by decide)
        (run_trace_cons_add_click _ session4_swapped _ 890 890 true _ _ (by decide)
          (run_trace_cons_finish session4_swapped _ 1000 1000 _ [] [] finish_session4_swapped
            rfl))))

/-- Witness of C24: the four transposed clicks `(100, 100)`, `(110, 900)`,
`(900, 110)`, `(890, 890)` accepted from the fresh session, followed by `finish`,
which exchanges the clicks at UR and LL. -/
theorem stored_clicks_separated_witness :
    (swap_LL_UR session4_swapped).threshold_doubleclick = session0.threshold_doubleclick ∧
    0 ≤ (swap_LL_UR session4_swapped).num_clicks ∧
    (swap_LL_UR session4_swapped).num_clicks ≤ 4 ∧
    ∀ i j : Int, 0 ≤ i → i < j → j < (swap_LL_UR session4_swapped).num_clicks →
      ∀ xi yi xj yj, (swap_LL_UR session4_swapped).clicked_x.get? i = some xi →
        (swap_LL_UR session4_swapped).clicked_y.get? i = some yi →
        (swap_LL_UR session4_swapped).clicked_x.get? j = some xj →
        (swap_LL_UR session4_swapped).clicked_y.get? j = some yj →
        |xi - xj| > (swap_LL_UR session4_swapped).threshold_doubleclick ∨
          |yi - yj| > (swap_LL_UR session4_swapped).threshold_doubleclick :=
  stored_clicks_separated session0 _ _ _ (by decide) (by decide) run_trace_session0_swapped

/-! ## The click-count bound under the discipline of the GUI -/

theorem add_click_count_step_of_le_three (c : Calib) (x y : Int) (hn0 : 0 ≤ c.num_clicks)
    (hn3 : c.num_clicks ≤ 3) :
    ∃ r c', add_click c x y = some (r, c') ∧ 0 ≤ c'.num_clicks ∧ c'.num_clicks ≤ 4 := by
  by_cases hd : doubleclick_rule c x y
  · exact ⟨false, c, add_click_of_doubleclick c x y (by omega) hd, hn0, by omega⟩
  by_cases hmr : misclick_rule c x y
  · exact ⟨false, reset c, add_click_of_misclick c x y (by omega) hd hmr, le_refl _,
      show (0 : Int) ≤ 4 by decide⟩
  · obtain ⟨c', h1, h2, _⟩ := add_click_accept_explicit c x y hn0 hn3 hd hmr
    exact ⟨true, c', h1, by omega, by omega⟩

theorem run_calls_count_of_capacity (calls : List Call) :
    ∀ c : Calib, 0 ≤ c.num_clicks → c.num_clicks ≤ 4 → respects_capacity c calls = true →
      ∃ c', run_calls c calls = some c' ∧ 0 ≤ c'.num_clicks ∧ c'.num_clicks ≤ 4 := by
  induction calls with
  | nil => intro c h0 h4 _; exact ⟨c, rfl, h0, h4⟩
  | cons call rest ih =>
    intro c h0 h4 hr
    cases call with
    | add_click x y =>
      simp only [respects_capacity, Bool.and_eq_true, decide_eq_true_eq] at hr
      obtain ⟨hn3, hrest⟩ := hr
      obtain ⟨r, c', h1, h2, h3⟩ := add_click_count_step_of_le_three c x y h0 hn3
      rw [h1] at hrest
      simp only [run_calls, h1]
      exact ih c' h2 h3 hrest
    | reset =>
      simp only [respects_capacity] at hr
      simp only [run_calls]
      exact ih (reset c) (le_refl _) (show (0 : Int) ≤ 4 by decide) hr

/-- C10, amended. Click-count bound: starting from a freshly constructed session
(count 0) with any thresholds, after every finite sequence of `add_click` and
`reset` calls with arbitrary coordinates in which `add_click` is never called on a
session that already holds four clicks (the discipline of the GUI, which calls
`finish` and leaves as soon as the count reaches 4), every call is defined and the
count satisfies `0 ≤ num_clicks ≤ 4`; when `threshold_misclick > 0` this holds for
every sequence, with no restriction. -/
theorem click_count_bound (axys0 : XYinfo) (verbose0 : Bool)
    (thr_misclick thr_doubleclick : Int) (output_type : OutputType) (calls : List Call)
    (h : 0 < thr_misclick ∨
      respects_capacity
        (CalibratorXorgPrint axys0 verbose0 thr_misclick thr_doubleclick output_type) calls =
        true) :
    ∃ c', run_calls
        (CalibratorXorgPrint axys0 verbose0 thr_misclick thr_doubleclick output_type) calls =
        some c' ∧ 0 ≤ c'.num_clicks ∧ c'.num_clicks ≤ 4 := by
  rcases h with h | h
  · exact run_calls_count calls _ h (le_refl _) (show (0 : Int) ≤ 4 by decide)
  · exact run_calls_count_of_capacity calls _ (le_refl _) (show (0 : Int) ≤ 4 by decide) h

/-- Witness of C10: with the mis-click check disabled, four accepted clicks, a
`reset` and a further click. -/
theorem click_count_bound_witness :
    ∃ c', run_calls
        (CalibratorXorgPrint ⟨0, 1000, 0, 1000⟩ false 0 7 OutputType.OUTYPE_XORGCONFD)
        [Call.add_click 100 100, Call.add_click 900 100, Call.add_click 100 900,
          Call.add_click 900 900, Call.reset, Call.add_click 500 500] =
        some c' ∧ 0 ≤ c'.num_clicks ∧ c'.num_clicks ≤ 4 :=
  click_count_bound ⟨0, 1000, 0, 1000⟩ false 0 7 OutputType.OUTYPE_XORGCONFD
    [Call.add_click 100 100, Call.add_click 900 100, Call.add_click 100 900,
      Call.add_click 900 900, Call.reset, Call.add_click 500 500] (Or.inr (by decide))

/-! ## The rounding error of binary32 -/

theorem roundEven_abs_sub_le (q : ℚ) : |q - roundEven q| ≤ 1 / 2 := by
  rcases roundEven_isNearestEven q with h | h
  · exact h.le
  · exact h.1.le

theorem f32_abs_sub_le (q : ℚ) : |f32 q - q| ≤ |q| / 2 ^ 24 := by
  by_cases hq : q = 0
  · subst hq; simp [f32_zero]
  have hp := two_zpow_pos (ulp_exp q)
  have h1 : ((2 : ℕ) : ℚ) ^ Int.log 2 |q| ≤ |q| :=
    Int.zpow_log_le_self (by norm_num) (abs_pos.mpr hq)
  push_cast at h1
  have e1 : (2 : ℚ) ^ Int.log 2 |q| = 2 ^ (23 : ℤ) * 2 ^ ulp_exp q := by
    rw [← zpow_add₀ (by norm_num : (2 : ℚ) ≠ 0)]; congr 1; unfold ulp_exp; ring
  have hr := roundEven_abs_sub_le (q / 2 ^ ulp_exp q)
  have e : f32 q - q = -((q / 2 ^ ulp_exp q - roundEven (q / 2 ^ ulp_exp q)) * 2 ^ ulp_exp q) := by
    unfold f32
    rw [if_neg hq]
    field_simp
    ring
  rw [e, abs_neg, abs_mul, abs_of_pos hp]
  have h2 : |q / 2 ^ ulp_exp q - roundEven (q / 2 ^ ulp_exp q)| * 2 ^ ulp_exp q
      ≤ 1 / 2 * 2 ^ ulp_exp q := mul_le_mul_of_nonneg_right hr hp.le
  rw [e1] at h1
  have h3 : (2 : ℚ) ^ (23 : ℤ) = 8388608 := by norm_num
  rw [h3] at h1
  have h4 : ((2 : ℚ) ^ 24) = 16777216 := by norm_num
  rw [h4, le_div_iff₀ (by norm_num)]
  linarith

theorem f32_abs_sub_le_of_le {q B : ℚ} (h : |q| ≤ B) : |f32 q - q| ≤ B / 2 ^ 24 :=
  le_trans (f32_abs_sub_le q) (div_le_div_of_nonneg_right h (by positivity))

theorem trunc_toward_zero_eq (q : ℚ) : trunc_toward_zero q = int_of_float q := rfl

theorem int_of_float_add_one_le (v : ℚ) : int_of_float (v + 1) ≤ int_of_float v + 1 := by
  unfold int_of_float
  split_ifs with h1 h2 h2
  · rw [Int.floor_add_one]
  · push_neg at h2
    have a : ⌊v + 1⌋ ≤ 0 := by
      have : ⌊v + 1⌋ < 1 := Int.floor_lt.mpr (by push_cast; linarith)
      omega
    have b : -2 < ⌈v⌉ := Int.lt_ceil.mpr (by push_cast; linarith)
    omega
  · exfalso; linarith
  · rw [Int.ceil_add_one]

theorem int_of_float_close {t v : ℚ} (h : |t - v| ≤ 1) :
    |int_of_float t - int_of_float v| ≤ 1 := by
  obtain ⟨h1, h2⟩ := abs_le.mp h
  have a : int_of_float t ≤ int_of_float v + 1 :=
    le_trans (int_of_float_mono (by linarith)) (int_of_float_add_one_le v)
  have b : int_of_float v ≤ int_of_float t + 1 :=
    le_trans (int_of_float_mono (by linarith)) (int_of_float_add_one_le t)
  rw [abs_le]; constructor <;> omega

theorem int_of_float_abs_le {t : ℚ} {B : ℤ} (h : |t| ≤ B) : |int_of_float t| ≤ B := by
  obtain ⟨h1, h2⟩ := abs_le.mp h
  have a := int_of_float_mono h2
  have b := int_of_float_mono h1
  rw [int_of_float_intCast] at a
  rw [show (-(B : ℚ)) = ((-B : ℤ) : ℚ) by push_cast; ring, int_of_float_intCast] at b
  rw [abs_le]; constructor <;> omega

/-- The value of step 4 in `float` against its value in exact arithmetic, before
the truncation: on inputs of moderate size the two differ by less than 1, and the
`float` value is at most `2 ^ 22` in absolute value. -/
theorem scaled_average_error (a b lo hi len L : Int) (hlen : 0 < len) (hlenB : len ≤ 2 ^ 20)
    (ha : 0 ≤ a) (ha' : a ≤ len) (hb : 0 ≤ b) (hb' : b ≤ len)
    (hlo : |lo| ≤ 2 ^ 20) (hhi : |hi| ≤ 2 ^ 20) (hL : |L| ≤ 2 ^ 20) :
    |f32 (f32 (f32 (f32 ((a + b : Int) : ℚ) * spec_scale lo hi len) / 2) + f32 (L : ℚ)) -
        (((a + b : Int) : ℚ) * exact_scale lo hi len / 2 + (L : ℚ))| ≤ 1 ∧
    |f32 (f32 (f32 (f32 ((a + b : Int) : ℚ) * spec_scale lo hi len) / 2) + f32 (L : ℚ))| ≤
        ((2 ^ 22 : ℤ) : ℚ) := by
  have hlo' := abs_le.mp hlo
  have hhi' := abs_le.mp hhi
  have hL' := abs_le.mp hL
  have eS : f32 ((a + b : Int) : ℚ) = ((a + b : Int) : ℚ) :=
    f32_intCast _ (by rw [abs_le]; constructor <;> omega)
  have eR : f32 ((hi - lo : Int) : ℚ) = ((hi - lo : Int) : ℚ) :=
    f32_intCast _ (by rw [abs_le]; constructor <;> omega)
  have eW : f32 (len : ℚ) = (len : ℚ) :=
    f32_intCast _ (by rw [abs_le]; constructor <;> omega)
  have eL : f32 (L : ℚ) = (L : ℚ) := f32_intCast _ (by rw [abs_le]; constructor <;> omega)
  unfold spec_scale exact_scale
  rw [eS, eR, eW, eL]
  -- names for the intermediate values
  have hW : (0 : ℚ) < (len : ℚ) := by exact_mod_cast hlen
  have hS0 : (0 : ℚ) ≤ ((a + b : Int) : ℚ) := by exact_mod_cast (by omega : 0 ≤ a + b)
  have hS2 : ((a + b : Int) : ℚ) ≤ 2 * (len : ℚ) := by
    exact_mod_cast (by omega : a + b ≤ 2 * len)
  have hR : |((hi - lo : Int) : ℚ)| ≤ 2097152 := by
    have : |hi - lo| ≤ 2097152 := by rw [abs_le]; constructor <;> omega
    exact_mod_cast this
  have hLq : |(L : ℚ)| ≤ 1048576 := by
    have : |L| ≤ 1048576 := by rw [abs_le]; constructor <;> omega
    exact_mod_cast this
  generalize ((a + b : Int) : ℚ) = S at hS0 hS2 ⊢
  generalize ((hi - lo : Int) : ℚ) = R at hR ⊢
  generalize (len : ℚ) = W at hW hS2 ⊢
  generalize (L : ℚ) = Lq at hLq ⊢
  -- the exact product is at most 2 ^ 22
  have hX : |S * (R / W)| ≤ 4194304 := by
    rw [abs_mul, abs_div, abs_of_nonneg hS0, abs_of_pos hW]
    have h1 : S * (|R| / W) ≤ 2 * W * (|R| / W) :=
      mul_le_mul_of_nonneg_right hS2 (div_nonneg (abs_nonneg R) hW.le)
    have h2 : 2 * W * (|R| / W) = 2 * |R| := by field_simp; ring
    linarith
  -- the scale
  have e1 : |S * f32 (R / W) - S * (R / W)| ≤ 1 / 4 := by
    have h := f32_abs_sub_le (R / W)
    have : S * f32 (R / W) - S * (R / W) = S * (f32 (R / W) - R / W) := by ring
    rw [this, abs_mul, abs_of_nonneg hS0]
    have h1 : S * |f32 (R / W) - R / W| ≤ S * (|R / W| / 2 ^ 24) :=
      mul_le_mul_of_nonneg_left h hS0
    have h2 : S * (|R / W| / 2 ^ 24) = |S * (R / W)| / 2 ^ 24 := by
      rw [abs_mul, abs_of_nonneg hS0]; ring
    have h3 : |S * (R / W)| / 2 ^ 24 ≤ 4194304 / 2 ^ 24 :=
      div_le_div_of_nonneg_right hX (by positivity)
    have h4 : (4194304 : ℚ) / 2 ^ 24 = 1 / 4 := by norm_num
    linarith
  obtain ⟨x1, x2⟩ := abs_le.mp hX
  obtain ⟨a1, a2⟩ := abs_le.mp e1
  -- the product
  have e2 : |f32 (S * f32 (R / W)) - S * f32 (R / W)| ≤ 1 / 2 := by
    have := f32_abs_sub_le_of_le (q := S * f32 (R / W)) (B := 8388608)
      (by rw [abs_le]; constructor <;> linarith)
    norm_num at this ⊢
    exact this
  obtain ⟨b1, b2⟩ := abs_le.mp e2
  -- the halving
  have e3 : |f32 (f32 (S * f32 (R / W)) / 2) - f32 (S * f32 (R / W)) / 2| ≤ 1 / 4 := by
    have := f32_abs_sub_le_of_le (q := f32 (S * f32 (R / W)) / 2) (B := 4194304)
      (by rw [abs_le]; constructor <;> linarith)
    norm_num at this ⊢
    exact this
  obtain ⟨c1, c2⟩ := abs_le.mp e3
  obtain ⟨l1, l2⟩ := abs_le.mp hLq
  -- the sum
  have e4 : |f32 (f32 (f32 (S * f32 (R / W)) / 2) + Lq) -
      (f32 (f32 (S * f32 (R / W)) / 2) + Lq)| ≤ 1 / 4 := by
    have := f32_abs_sub_le_of_le (q := f32 (f32 (S * f32 (R / W)) / 2) + Lq) (B := 4194304)
      (by rw [abs_le]; constructor <;> linarith)
    norm_num at this ⊢
    exact this
  obtain ⟨d1, d2⟩ := abs_le.mp e4
  constructor
  · rw [abs_le]; constructor <;> linarith
  · rw [abs_le]; push_cast; constructor <;> linarith

theorem spec_average_close (a b lo hi len L : Int) (hlen : 0 < len) (hlenB : len ≤ 2 ^ 20)
    (ha : 0 ≤ a) (ha' : a ≤ len) (hb : 0 ≤ b) (hb' : b ≤ len)
    (hlo : |lo| ≤ 2 ^ 20) (hhi : |hi| ≤ 2 ^ 20) (hL : |L| ≤ 2 ^ 20) :
    |spec_average a b (spec_scale lo hi len) L -
        exact_average a b (exact_scale lo hi len) L| ≤ 1 ∧
    |spec_average a b (spec_scale lo hi len) L| ≤ 2 ^ 22 := by
  obtain ⟨h1, h2⟩ := scaled_average_error a b lo hi len L hlen hlenB ha ha' hb hb' hlo hhi hL
  exact ⟨int_of_float_close h1, int_of_float_abs_le h2⟩

theorem int_of_float_neg (q : ℚ) : int_of_float (-q) = -int_of_float q := by
  unfold int_of_float
  split_ifs with h1 h2 h2
  · have : q = 0 := le_antisymm (by linarith) h2
    subst this; simp
  · rw [Int.floor_neg]
  · rw [Int.ceil_neg]
  · exfalso; push_neg at h1 h2; linarith

theorem int_of_float_f32_div_six_nonneg (d : Int) (h0 : 0 ≤ d) (h : d ≤ 2 ^ 23) :
    int_of_float (f32 ((d : ℚ) / 6)) = int_of_float ((d : ℚ) / 6) := by
  have hk : (((d / 6 : Int) : Int) : ℚ) ≤ (d : ℚ) / 6 := by
    rw [le_div_iff₀ (by norm_num)]
    exact_mod_cast (by omega : d / 6 * 6 ≤ d)
  have hk' : (d : ℚ) / 6 ≤ ((d / 6 : Int) : ℚ) + 5 / 6 := by
    rw [div_le_iff₀ (by norm_num)]
    have : (d : ℚ) ≤ ((d / 6 * 6 + 5 : Int) : ℚ) := by exact_mod_cast (by omega : d ≤ d / 6 * 6 + 5)
    push_cast at this
    linarith
  have hd : ((d : ℚ)) ≤ 8388608 := by exact_mod_cast (by omega : d ≤ 8388608)
  have hd0 : (0 : ℚ) ≤ (d : ℚ) := by exact_mod_cast h0
  have e1 : int_of_float ((d : ℚ) / 6) = d / 6 :=
    int_of_float_eq_of_nonneg (by omega) hk (by linarith)
  have ek : f32 ((d / 6 : Int) : ℚ) = ((d / 6 : Int) : ℚ) :=
    f32_intCast _ (by rw [abs_le]; constructor <;> omega)
  have lo : ((d / 6 : Int) : ℚ) ≤ f32 ((d : ℚ) / 6) := by
    have := f32_mono hk
    rw [ek] at this
    exact this
  have er := f32_abs_sub_le_of_le (q := (d : ℚ) / 6) (B := 1398102)
    (by rw [abs_le]; constructor <;> linarith)
  obtain ⟨_, r2⟩ := abs_le.mp er
  have e2 : int_of_float (f32 ((d : ℚ) / 6)) = d / 6 :=
    int_of_float_eq_of_nonneg (by omega) lo (by norm_num at r2; linarith)
  rw [e1, e2]

theorem spec_delta_eq_exact (lo hi : Int) (h : |hi - lo| ≤ 2 ^ 23) :
    spec_delta lo hi = exact_delta lo hi := by
  obtain ⟨h1, h2⟩ := abs_le.mp h
  have eD : f32 ((hi - lo : Int) : ℚ) = ((hi - lo : Int) : ℚ) :=
    f32_intCast _ (by rw [abs_le]; constructor <;> omega)
  unfold spec_delta exact_delta
  rw [eD, trunc_toward_zero_eq]
  rcases le_total 0 (hi - lo) with hs | hs
  · exact int_of_float_f32_div_six_nonneg _ hs h2
  · have key := int_of_float_f32_div_six_nonneg (-(hi - lo)) (by omega) (by omega)
    have e : (((-(hi - lo) : Int) : ℚ)) / 6 = -(((hi - lo : Int) : ℚ) / 6) := by
      push_cast; ring
    rw [e, f32_neg, int_of_float_neg, int_of_float_neg] at key
    exact neg_injective key

/-- On inputs of moderate size the bounds that the code computes are step 5 of the
specification, exactly as written, applied to raw bounds each of which is within
1 of the raw bound of step 4 in exact arithmetic. -/
theorem spec_axis_range_close (old : XYinfo) (width height : Int) (ul ur ll lr : Int × Int)
    (hw : 0 < width) (hh : 0 < height) (hwB : width ≤ 2 ^ 20) (hhB : height ≤ 2 ^ 20)
    (ho : |old.x_min| ≤ 2 ^ 20 ∧ |old.x_max| ≤ 2 ^ 20 ∧ |old.y_min| ≤ 2 ^ 20 ∧
      |old.y_max| ≤ 2 ^ 20)
    (hx : 0 ≤ ul.1 ∧ ul.1 ≤ width ∧ 0 ≤ ur.1 ∧ ur.1 ≤ width ∧
      0 ≤ ll.1 ∧ ll.1 ≤ width ∧ 0 ≤ lr.1 ∧ lr.1 ≤ width)
    (hy : 0 ≤ ul.2 ∧ ul.2 ≤ height ∧ 0 ≤ ur.2 ∧ ur.2 ≤ height ∧
      0 ≤ ll.2 ∧ ll.2 ≤ height ∧ 0 ≤ lr.2 ∧ lr.2 ≤ height) :
    spec_axis_range old width height ul ur ll lr =
        inset (float_raw old width height ul ur ll lr) ∧
      within_one (float_raw old width height ul ur ll lr)
        (exact_raw old width height ul ur ll lr) := by
  obtain ⟨o1, o2, o3, o4⟩ := ho
  obtain ⟨x1, x2, x3, x4, x5, x6, x7, x8⟩ := hx
  obtain ⟨y1, y2, y3, y4, y5, y6, y7, y8⟩ := hy
  obtain ⟨a1, a2⟩ := spec_average_close ul.1 ll.1 old.x_min old.x_max width old.x_min hw hwB
    x1 x2 x5 x6 o1 o2 o1
  obtain ⟨b1, b2⟩ := spec_average_close ur.1 lr.1 old.x_min old.x_max width old.x_min hw hwB
    x3 x4 x7 x8 o1 o2 o1
  obtain ⟨c1, c2⟩ := spec_average_close ul.2 ur.2 old.y_min old.y_max height old.y_min hh hhB
    y1 y2 y3 y4 o3 o4 o3
  obtain ⟨d1, d2⟩ := spec_average_close ll.2 lr.2 old.y_min old.y_max height old.y_min hh hhB
    y5 y6 y7 y8 o3 o4 o3
  refine ⟨?_, a1, b1, c1, d1⟩
  have ex := spec_delta_eq_exact _ _
    (show |spec_average ur.1 lr.1 (spec_scale old.x_min old.x_max width) old.x_min -
        spec_average ul.1 ll.1 (spec_scale old.x_min old.x_max width) old.x_min| ≤ 2 ^ 23 by
      have p := abs_le.mp a2
      have q := abs_le.mp b2
      rw [abs_le]; constructor <;> omega)
  have ey := spec_delta_eq_exact _ _
    (show |spec_average ll.2 lr.2 (spec_scale old.y_min old.y_max height) old.y_min -
        spec_average ul.2 ur.2 (spec_scale old.y_min old.y_max height) old.y_min| ≤ 2 ^ 23 by
      have p := abs_le.mp c2
      have q := abs_le.mp d2
      rw [abs_le]; constructor <;> omega)
  unfold spec_axis_range inset float_raw
  simp only [ex, ey]

/-! ## `finish` on a display 15 pixels wide -/

theorem spec_average_congr {a b a' b' : Int} (h : a + b = a' + b') (scale : ℚ) (lo : Int) :
    spec_average a b scale lo = spec_average a' b' scale lo := by
  unfold spec_average
  rw [h]

theorem spec_average_narrow_lo : spec_average 2 13 (spec_scale 0 1000 15) 0 = 499 := by
  rw [spec_average_congr (show (2 : Int) + 13 = 7 + 8 by decide)]
  exact spec_average_float_rounding

theorem spec_average_narrow_hi : spec_average 14 14 (spec_scale 0 1000 15) 0 = 933 := by
  have h1000 : f32 (1000 : ℚ) = 1000 := by simpa using f32_natCast_small 1000 (by norm_num)
  have h15 : f32 (15 : ℚ) = 15 := by simpa using f32_natCast_small 15 (by norm_num)
  have h28 : f32 (28 : ℚ) = 28 := by simpa using f32_natCast_small 28 (by norm_num)
  have hs : f32 ((1000 : ℚ) / 15) = 8738133 / 131072 := by
    rw [f32_eq_of_lt (e := 6) (m := 8738133) (by norm_num [abs_of_pos])
      (by norm_num [abs_of_pos]) (by norm_num [abs_lt])]
    norm_num
  have hp : f32 ((28 : ℚ) * (8738133 / 131072)) = 15291733 / 8192 := by
    rw [f32_eq_of_lt (e := 10) (m := 15291733) (by norm_num [abs_of_pos])
      (by norm_num [abs_of_pos]) (by norm_num [abs_lt])]
    norm_num
  have hh : f32 ((15291733 : ℚ) / 8192 / 2) = 15291733 / 16384 := by
    rw [f32_eq_of_lt (e := 9) (m := 15291733) (by norm_num [abs_of_pos])
      (by norm_num [abs_of_pos]) (by norm_num [abs_lt])]
    norm_num
  have ha : f32 ((15291733 : ℚ) / 16384 + 0) = 15291733 / 16384 := by
    rw [add_zero, f32_eq_of_lt (e := 9) (m := 15291733) (by norm_num [abs_of_pos])
      (by norm_num [abs_of_pos]) (by norm_num [abs_lt])]
    norm_num
  have hi : int_of_float ((15291733 : ℚ) / 16384) = 933 :=
    int_of_float_eq_of_nonneg (by norm_num) (by norm_num) (by norm_num)
  have hc1 : (((1000 - 0 : ℤ) : ℤ) : ℚ) = 1000 := by norm_num
  have hc2 : (((15 : ℤ) : ℤ) : ℚ) = 15 := by norm_num
  have hc3 : (((14 + 14 : ℤ) : ℤ) : ℚ) = 28 := by norm_num
  have hc4 : (((0 : ℤ) : ℤ) : ℚ) = 0 := by norm_num
  unfold spec_average spec_scale
  rw [hc1, hc2, hc3, hc4, h1000, h15, h28, hs, hp, hh, f32_zero, ha, hi]

theorem spec_delta_499_933 : spec_delta 499 933 = 72 := by
  have h : f32 (434 : ℚ) = 434 := by simpa using f32_natCast_small 434 (by norm_num)
  have h1 : f32 ((434 : ℚ) / 6) = 9480875 / 131072 := by
    rw [f32_eq_of_lt (e := 6) (m := 9480875) (by norm_num [abs_of_pos]) (by norm_num [abs_of_pos])
      (by norm_num [abs_lt])]
    norm_num
  have e : int_of_float ((9480875 : ℚ) / 131072) = 72 :=
    int_of_float_eq_of_nonneg (by norm_num) (by norm_num) (by norm_num)
  have hc : (((933 - 499 : ℤ) : ℤ) : ℚ) = 434 := by norm_num
  unfold spec_delta
  rw [hc, h, h1, e]

theorem spec_axis_range_narrow :
    spec_axis_range ⟨0, 1000, 0, 1000⟩ 15 1000 (2, 100) (14, 110) (13, 900) (14, 890) =
      { x_min := 427, x_max := 1005, y_min := -26, y_max := 1026 } := by
  simp [spec_axis_range, spec_scale_witness, spec_average_witness_lo, spec_average_witness_hi,
    spec_delta_witness, spec_average_narrow_lo, spec_average_narrow_hi, spec_delta_499_933]

theorem spec_axis_range_narrow_swapped :
    spec_axis_range ⟨0, 1000, 0, 1000⟩ 1000 15 (100, 2) (900, 13) (110, 14) (890, 14) =
      { x_min := -26, x_max := 1026, y_min := 427, y_max := 1005 } := by
  simp [spec_axis_range, spec_scale_witness, spec_average_witness_lo, spec_average_witness_hi,
    spec_delta_witness, spec_average_narrow_lo, spec_average_narrow_hi, spec_delta_499_933]

theorem trunc_toward_zero_eq_of_nonneg {q : ℚ} {n : ℤ} (h0 : 0 ≤ n) (h1 : (n : ℚ) ≤ q)
    (h2 : q < n + 1) : trunc_toward_zero q = n :=
  int_of_float_eq_of_nonneg h0 h1 h2

theorem exact_axis_range_narrow :
    exact_axis_range ⟨0, 1000, 0, 1000⟩ 15 1000 (2, 100) (14, 110) (13, 900) (14, 890) =
      { x_min := 428, x_max := 1005, y_min := -26, y_max := 1026 } := by
  have a1 : exact_average 2 13 (exact_scale 0 1000 15) 0 = 500 := by
    unfold exact_average exact_scale
    exact trunc_toward_zero_eq_of_nonneg (by norm_num) (by norm_num) (by norm_num)
  have a2 : exact_average 14 14 (exact_scale 0 1000 15) 0 = 933 := by
    unfold exact_average exact_scale
    exact trunc_toward_zero_eq_of_nonneg (by norm_num) (by norm_num) (by norm_num)
  have a3 : exact_average 100 110 (exact_scale 0 1000 1000) 0 = 105 := by
    unfold exact_average exact_scale
    exact trunc_toward_zero_eq_of_nonneg (by norm_num) (by norm_num) (by norm_num)
  have a4 : exact_average 900 890 (exact_scale 0 1000 1000) 0 = 895 := by
    unfold exact_average exact_scale
    exact trunc_toward_zero_eq_of_nonneg (by norm_num) (by norm_num) (by norm_num)
  have d1 : exact_delta 500 933 = 72 := by
    unfold exact_delta
    exact trunc_toward_zero_eq_of_nonneg (by norm_num) (by norm_num) (by norm_num)
  have d2 : exact_delta 105 895 = 131 := by
    unfold exact_delta
    exact trunc_toward_zero_eq_of_nonneg (by norm_num) (by norm_num) (by norm_num)
  simp [exact_axis_range, exact_raw, inset, a1, a2, a3, a4, d1, d2]

theorem exact_axis_range_narrow_swapped :
    exact_axis_range ⟨0, 1000, 0, 1000⟩ 1000 15 (100, 2) (900, 13) (110, 14) (890, 14) =
      { x_min := -26, x_max := 1026, y_min := 428, y_max := 1005 } := by
  have a1 : exact_average 2 13 (exact_scale 0 1000 15) 0 = 500 := by
    unfold exact_average exact_scale
    exact trunc_toward_zero_eq_of_nonneg (by norm_num) (by norm_num) (by norm_num)
  have a2 : exact_average 14 14 (exact_scale 0 1000 15) 0 = 933 := by
    unfold exact_average exact_scale
    exact trunc_toward_zero_eq_of_nonneg (by norm_num) (by norm_num) (by norm_num)
  have a3 : exact_average 100 110 (exact_scale 0 1000 1000) 0 = 105 := by
    unfold exact_average exact_scale
    exact trunc_toward_zero_eq_of_nonneg (by norm_num) (by norm_num) (by norm_num)
  have a4 : exact_average 900 890 (exact_scale 0 1000 1000) 0 = 895 := by
    unfold exact_average exact_scale
    exact trunc_toward_zero_eq_of_nonneg (by norm_num) (by norm_num) (by norm_num)
  have d1 : exact_delta 500 933 = 72 := by
    unfold exact_delta
    exact trunc_toward_zero_eq_of_nonneg (by norm_num) (by norm_num) (by norm_num)
  have d2 : exact_delta 105 895 = 131 := by
    unfold exact_delta
    exact trunc_toward_zero_eq_of_nonneg (by norm_num) (by norm_num) (by norm_num)
  simp [exact_axis_range, exact_raw, inset, a1, a2, a3, a4, d1, d2]

/-! ## Claims on `finish`: the bounds against the formulas of the specification -/

/-- Counterexample of C1 as stated. On a display 15 pixels wide and 1000 pixels
high, with `old_axys = {0, 1000, 0, 1000}` and the clicks UL `(2, 100)`,
UR `(14, 110)`, LL `(13, 900)`, LR `(14, 890)`, `swap_xy` is false and the formulas
of steps 3 to 5 give `x_min = 500 - 72 = 428`, while `finish` hands
`x_min = 499 - 72 = 427` to the writer: in `float`, `1000 / 15` rounds down, so
that `15 * scale_x / 2` is just below 500 and truncates to 499. -/
theorem finish_not_swapped_inexact :
    session4_narrow.num_clicks = 4 ∧
    ¬ |session4_narrow.clicked_x.v0 - session4_narrow.clicked_x.v1| <
        |session4_narrow.clicked_y.v0 - session4_narrow.clicked_y.v1| ∧
    (0 : Int) < 15 ∧ (0 : Int) < 1000 ∧
    exact_axis_range session4_narrow.old_axys 15 1000
        (session4_narrow.clicked_x.v0, session4_narrow.clicked_y.v0)
        (session4_narrow.clicked_x.v1, session4_narrow.clicked_y.v1)
        (session4_narrow.clicked_x.v2, session4_narrow.clicked_y.v2)
        (session4_narrow.clicked_x.v3, session4_narrow.clicked_y.v3) =
      { x_min := 428, x_max := 1005, y_min := -26, y_max := 1026 } ∧
    ∃ r, finish session4_narrow 15 1000 = some r ∧
      r.written =
        some ({ x_min := 427, x_max := 1005, y_min := -26, y_max := 1026 }, false) ∧
      r.written ≠
        some (exact_axis_range session4_narrow.old_axys 15 1000
          (session4_narrow.clicked_x.v0, session4_narrow.clicked_y.v0)
          (session4_narrow.clicked_x.v1, session4_narrow.clicked_y.v1)
          (session4_narrow.clicked_x.v2, session4_narrow.clicked_y.v2)
          (session4_narrow.clicked_x.v3, session4_narrow.clicked_y.v3), false) := by
  have he : exact_axis_range session4_narrow.old_axys 15 1000
        (session4_narrow.clicked_x.v0, session4_narrow.clicked_y.v0)
        (session4_narrow.clicked_x.v1, session4_narrow.clicked_y.v1)
        (session4_narrow.clicked_x.v2, session4_narrow.clicked_y.v2)
        (session4_narrow.clicked_x.v3, session4_narrow.clicked_y.v3) =
      { x_min := 428, x_max := 1005, y_min := -26, y_max := 1026 } :=
    exact_axis_range_narrow
  have hf : spec_axis_range session4_narrow.old_axys 15 1000
        (session4_narrow.clicked_x.v0, session4_narrow.clicked_y.v0)
        (session4_narrow.clicked_x.v1, session4_narrow.clicked_y.v1)
        (session4_narrow.clicked_x.v2, session4_narrow.clicked_y.v2)
        (session4_narrow.clicked_x.v3, session4_narrow.clicked_y.v3) =
      { x_min := 427, x_max := 1005, y_min := -26, y_max := 1026 } :=
    spec_axis_range_narrow
  refine ⟨by decide, by decide, by decide, by decide, he, _,
    finish_eq_of_not_swapped session4_narrow 15 1000 (by decide) (by decide) (by decide)
      (by decide), ?_, ?_⟩
  · show some (_, false) = _
    rw [hf]
  · show some (_, false) ≠ _
    rw [hf, he]
    decide

/-- C1, amended. With exactly four clicks, `swap_xy` false and `width, height > 0`,
`finish` hands to the writer the flag `false` and the bounds of steps 3 to 5 of
the specification taken on the clicks as stored (UL, UR, LL, LR at the indices 0
to 3) and evaluated in the `float` arithmetic of the code, every operation rounded
to binary32; the session is unchanged and the returned boolean is the one of the
writer.  On inputs of moderate size (old bounds, width and height at most
`2 ^ 20`, clicks on the screen) these bounds are step 5 exactly as written
(`delta = trunc((max - min) / 6)`, minimum lowered and maximum raised by `delta`)
on raw bounds each of which is within 1 of the raw bound of step 4 in exact
arithmetic. -/
theorem finish_not_swapped (c : Calib) (width height : Int) (hn : c.num_clicks = 4)
    (hs : ¬ |c.clicked_x.v0 - c.clicked_x.v1| < |c.clicked_y.v0 - c.clicked_y.v1|)
    (hw : 0 < width) (hh : 0 < height) :
    finish c width height =
      some { ret := finish_data c
               (spec_axis_range c.old_axys width height
                 (c.clicked_x.v0, c.clicked_y.v0) (c.clicked_x.v1, c.clicked_y.v1)
                 (c.clicked_x.v2, c.clicked_y.v2) (c.clicked_x.v3, c.clicked_y.v3)) false
             written := some
               (spec_axis_range c.old_axys width height
                 (c.clicked_x.v0, c.clicked_y.v0) (c.clicked_x.v1, c.clicked_y.v1)
                 (c.clicked_x.v2, c.clicked_y.v2) (c.clicked_x.v3, c.clicked_y.v3), false)
             state := c } ∧
    (moderate_inputs c width height →
      spec_axis_range c.old_axys width height
          (c.clicked_x.v0, c.clicked_y.v0) (c.clicked_x.v1, c.clicked_y.v1)
          (c.clicked_x.v2, c.clicked_y.v2) (c.clicked_x.v3, c.clicked_y.v3) =
        inset (float_raw c.old_axys width height
          (c.clicked_x.v0, c.clicked_y.v0) (c.clicked_x.v1, c.clicked_y.v1)
          (c.clicked_x.v2, c.clicked_y.v2) (c.clicked_x.v3, c.clicked_y.v3)) ∧
      within_one
        (float_raw c.old_axys width height
          (c.clicked_x.v0, c.clicked_y.v0) (c.clicked_x.v1, c.clicked_y.v1)
          (c.clicked_x.v2, c.clicked_y.v2) (c.clicked_x.v3, c.clicked_y.v3))
        (exact_raw c.old_axys width height
          (c.clicked_x.v0, c.clicked_y.v0) (c.clicked_x.v1, c.clicked_y.v1)
          (c.clicked_x.v2, c.clicked_y.v2) (c.clicked_x.v3, c.clicked_y.v3))) := by
  refine ⟨finish_eq_of_not_swapped c width height hn hs hw.ne' hh.ne', ?_⟩
  rintro ⟨ho, ⟨hwB, hhB⟩, ⟨x0, x0', x1, x1', x2, x2', x3, x3'⟩,
    ⟨y0, y0', y1, y1', y2, y2', y3, y3'⟩⟩
  exact spec_axis_range_close c.old_axys width height _ _ _ _ hw hh hwB hhB ho
    ⟨x0, x0', x1, x1', x2, x2', x3, x3'⟩ ⟨y0, y0', y1, y1', y2, y2', y3, y3'⟩

theorem moderate_inputs_session4 : moderate_inputs session4 1000 1000 := by
  unfold moderate_inputs
  decide

/-- Witness of C1: the first witness of the specification, `old_axys = {0, 1000, 0,
1000}`, `width = height = 1000`, clicks `(100, 100)`, `(900, 110)`, `(110, 900)`,
`(890, 890)`: the flag is `false` and the bounds are `-26, 1026, -26, 1026`. -/
theorem finish_not_swapped_witness :
    finish session4 1000 1000 =
      some { ret := true
             written := some ({ x_min := -26, x_max := 1026, y_min := -26, y_max := 1026 }, false)
             state := session4 } ∧
    within_one
      (float_raw session4.old_axys 1000 1000
        (session4.clicked_x.v0, session4.clicked_y.v0)
        (session4.clicked_x.v1, session4.clicked_y.v1)
        (session4.clicked_x.v2, session4.clicked_y.v2)
        (session4.clicked_x.v3, session4.clicked_y.v3))
      (exact_raw session4.old_axys 1000 1000
        (session4.clicked_x.v0, session4.clicked_y.v0)
        (session4.clicked_x.v1, session4.clicked_y.v1)
        (session4.clicked_x.v2, session4.clicked_y.v2)
        (session4.clicked_x.v3, session4.clicked_y.v3)) := by
  obtain ⟨h1, h2⟩ :=
    finish_not_swapped session4 1000 1000 (by decide) (by decide) (by decide) (by decide)
  refine ⟨?_, (h2 moderate_inputs_session4).2⟩
  rw [h1]
  simp [session4, session0, CalibratorXorgPrint, spec_axis_range_witness, finish_data]

/-- Counterexample of C2 as stated. The clicks of the counterexample of C1 with the
axes transposed, on a display 1000 pixels wide and 15 pixels high: UL `(100, 2)`,
UR `(110, 14)`, LL `(900, 13)`, LR `(890, 14)`.  `swap_xy` is true; on the
relabelled clicks the formulas of steps 3 to 5 give `a_ymin = 500 - 72 = 428`, so
that the claim gives the final `x_max = 428`, while `finish` hands `x_max = 427`
to the writer. -/
theorem finish_swapped_inexact :
    session4_narrow_swapped.num_clicks = 4 ∧
    |session4_narrow_swapped.clicked_x.v0 - session4_narrow_swapped.clicked_x.v1| <
        |session4_narrow_swapped.clicked_y.v0 - session4_narrow_swapped.clicked_y.v1| ∧
    (0 : Int) < 1000 ∧ (0 : Int) < 15 ∧
    spec_unswap (exact_axis_range session4_narrow_swapped.old_axys 1000 15
        (session4_narrow_swapped.clicked_x.v0, session4_narrow_swapped.clicked_y.v0)
        (session4_narrow_swapped.clicked_x.v2, session4_narrow_swapped.clicked_y.v2)
        (session4_narrow_swapped.clicked_x.v1, session4_narrow_swapped.clicked_y.v1)
        (session4_narrow_swapped.clicked_x.v3, session4_narrow_swapped.clicked_y.v3)) =
      { x_min := 1005, x_max := 428, y_min := 1026, y_max := -26 } ∧
    ∃ r, finish session4_narrow_swapped 1000 15 = some r ∧
      r.written =
        some ({ x_min := 1005, x_max := 427, y_min := 1026, y_max := -26 }, true) ∧
      r.written ≠
        some (spec_unswap (exact_axis_range session4_narrow_swapped.old_axys 1000 15
          (session4_narrow_swapped.clicked_x.v0, session4_narrow_swapped.clicked_y.v0)
          (session4_narrow_swapped.clicked_x.v2, session4_narrow_swapped.clicked_y.v2)
          (session4_narrow_swapped.clicked_x.v1, session4_narrow_swapped.clicked_y.v1)
          (session4_narrow_swapped.clicked_x.v3, session4_narrow_swapped.clicked_y.v3)),
          true) := by
  have he : exact_axis_range session4_narrow_swapped.old_axys 1000 15
        (session4_narrow_swapped.clicked_x.v0, session4_narrow_swapped.clicked_y.v0)
        (session4_narrow_swapped.clicked_x.v2, session4_narrow_swapped.clicked_y.v2)
        (session4_narrow_swapped.clicked_x.v1, session4_narrow_swapped.clicked_y.v1)
        (session4_narrow_swapped.clicked_x.v3, session4_narrow_swapped.clicked_y.v3) =
      { x_min := -26, x_max := 1026, y_min := 428, y_max := 1005 } :=
    exact_axis_range_narrow_swapped
  have hf : spec_axis_range session4_narrow_swapped.old_axys 1000 15
        (session4_narrow_swapped.clicked_x.v0, session4_narrow_swapped.clicked_y.v0)
        (session4_narrow_swapped.clicked_x.v2, session4_narrow_swapped.clicked_y.v2)
        (session4_narrow_swapped.clicked_x.v1, session4_narrow_swapped.clicked_y.v1)
        (session4_narrow_swapped.clicked_x.v3, session4_narrow_swapped.clicked_y.v3) =
      { x_min := -26, x_max := 1026, y_min := 427, y_max := 1005 } :=
    spec_axis_range_narrow_swapped
  refine ⟨by decide, by decide, by decide, by decide, by rw [he]; rfl, _,
    finish_eq_of_swapped session4_narrow_swapped 1000 15 (by decide) (by decide) (by decide)
      (by decide), ?_, ?_⟩
  · show some (spec_unswap _, true) = _
    rw [hf]; rfl
  · show some (spec_unswap _, true) ≠ _
    rw [hf, he]
    decide

/-- C2, amended. With exactly four clicks, `swap_xy` true and `width, height > 0`,
`finish` hands to the writer the flag `true` and the bounds obtained by exchanging
the stored clicks at UR and LL (both coordinates), taking steps 3 to 5 on the
relabelled clicks, evaluated in the `float` arithmetic of the code, to get `a`,
and un-swapping: `x_min = a.y_max`, `x_max = a.y_min`, `y_min = a.x_max`,
`y_max = a.x_min`; the session is left with the clicks exchanged.  On inputs of
moderate size `a` is step 5 exactly as written on raw bounds each of which is
within 1 of the raw bound of step 4 in exact arithmetic. -/
theorem finish_swapped (c : Calib) (width height : Int) (hn : c.num_clicks = 4)
    (hs : |c.clicked_x.v0 - c.clicked_x.v1| < |c.clicked_y.v0 - c.clicked_y.v1|)
    (hw : 0 < width) (hh : 0 < height) :
    finish c width height =
      some { ret := finish_data (swap_LL_UR c)
               (spec_unswap (spec_axis_range c.old_axys width height
                 (c.clicked_x.v0, c.clicked_y.v0) (c.clicked_x.v2, c.clicked_y.v2)
                 (c.clicked_x.v1, c.clicked_y.v1) (c.clicked_x.v3, c.clicked_y.v3))) true
             written := some
               (spec_unswap (spec_axis_range c.old_axys width height
                 (c.clicked_x.v0, c.clicked_y.v0) (c.clicked_x.v2, c.clicked_y.v2)
                 (c.clicked_x.v1, c.clicked_y.v1) (c.clicked_x.v3, c.clicked_y.v3)), true)
             state := swap_LL_UR c } ∧
    (moderate_inputs c width height →
      spec_axis_range c.old_axys width height
          (c.clicked_x.v0, c.clicked_y.v0) (c.clicked_x.v2, c.clicked_y.v2)
          (c.clicked_x.v1, c.clicked_y.v1) (c.clicked_x.v3, c.clicked_y.v3) =
        inset (float_raw c.old_axys width height
          (c.clicked_x.v0, c.clicked_y.v0) (c.clicked_x.v2, c.clicked_y.v2)
          (c.clicked_x.v1, c.clicked_y.v1) (c.clicked_x.v3, c.clicked_y.v3)) ∧
      within_one
        (float_raw c.old_axys width height
          (c.clicked_x.v0, c.clicked_y.v0) (c.clicked_x.v2, c.clicked_y.v2)
          (c.clicked_x.v1, c.clicked_y.v1) (c.clicked_x.v3, c.clicked_y.v3))
        (exact_raw c.old_axys width height
          (c.clicked_x.v0, c.clicked_y.v0) (c.clicked_x.v2, c.clicked_y.v2)
          (c.clicked_x.v1, c.clicked_y.v1) (c.clicked_x.v3, c.clicked_y.v3))) := by
  refine ⟨finish_eq_of_swapped c width height hn hs hw.ne' hh.ne', ?_⟩
  rintro ⟨ho, ⟨hwB, hhB⟩, ⟨x0, x0', x1, x1', x2, x2', x3, x3'⟩,
    ⟨y0, y0', y1, y1', y2, y2', y3, y3'⟩⟩
  exact spec_axis_range_close c.old_axys width height _ _ _ _ hw hh hwB hhB ho
    ⟨x0, x0', x2, x2', x1, x1', x3, x3'⟩ ⟨y0, y0', y2, y2', y1, y1', y3, y3'⟩

theorem moderate_inputs_session4_swapped : moderate_inputs session4_swapped 1000 1000 := by
  unfold moderate_inputs
  decide

/-- Witness of C2: the transposed clicks `(100, 100)`, `(110, 900)`, `(900, 110)`,
`(890, 890)`: the flag is `true` and the bounds are `1026, -26, 1026, -26`. -/
theorem finish_swapped_witness :
    finish session4_swapped 1000 1000 =
      some { ret := true
             written := some ({ x_min := 1026, x_max := -26, y_min := 1026, y_max := -26 }, true)
             state := swap_LL_UR session4_swapped } ∧
    within_one
      (float_raw session4_swapped.old_axys 1000 1000
        (session4_swapped.clicked_x.v0, session4_swapped.clicked_y.v0)
        (session4_swapped.clicked_x.v2, session4_swapped.clicked_y.v2)
        (session4_swapped.clicked_x.v1, session4_swapped.clicked_y.v1)
        (session4_swapped.clicked_x.v3, session4_swapped.clicked_y.v3))
      (exact_raw session4_swapped.old_axys 1000 1000
        (session4_swapped.clicked_x.v0, session4_swapped.clicked_y.v0)
        (session4_swapped.clicked_x.v2, session4_swapped.clicked_y.v2)
        (session4_swapped.clicked_x.v1, session4_swapped.clicked_y.v1)
        (session4_swapped.clicked_x.v3, session4_swapped.clicked_y.v3)) := by
  obtain ⟨h1, h2⟩ :=
    finish_swapped session4_swapped 1000 1000 (by decide) (by decide) (by decide) (by decide)
  refine ⟨?_, (h2 moderate_inputs_session4_swapped).2⟩
  rw [h1]
  simp [session4_swapped, session0, CalibratorXorgPrint, spec_axis_range_witness, finish_data,
    spec_unswap, swap_LL_UR]

/-! ## Equivalent sessions -/

theorem equivalent_refl_of (c : Calib) (hn : c.num_clicks ≤ 4) : equivalent c c :=
  ⟨rfl, rfl, rfl, rfl, hn, fun _ _ _ => ⟨rfl, rfl⟩⟩

theorem doubleclick_loop_equivalent (a b : Calib) (x y : Int) (h : equivalent a b) :
    ∀ k : Nat, (k : Int) ≤ a.num_clicks →
      doubleclick_loop a x y k = doubleclick_loop b x y k := by
  obtain ⟨ht, _, _, _, _, hc⟩ := h
  intro k
  induction k with
  | zero => intro _; rfl
  | succ k ih =>
    intro hk
    have hk' : ((k : Nat) : Int) < a.num_clicks := by push_cast at hk; omega
    obtain ⟨ex, ey⟩ := hc (k : Int) (by omega) hk'
    simp only [doubleclick_loop, ex, ey, ht, ih (by omega)]

theorem doubleclick_detect_equivalent (a b : Calib) (x y : Int) (h : equivalent a b) :
    doubleclick_detect a x y = doubleclick_detect b x y := by
  have hl := doubleclick_loop_equivalent a b x y h
  obtain ⟨ht, _, _, hn, _, _⟩ := h
  unfold doubleclick_detect
  rw [← ht, ← hn]
  split_ifs with hg
  · exact hl _ (by omega)
  · rfl

theorem equivalent_fields (a b : Calib) (h : equivalent a b) :
    (0 < a.num_clicks → a.clicked_x.v0 = b.clicked_x.v0 ∧ a.clicked_y.v0 = b.clicked_y.v0) ∧
    (1 < a.num_clicks → a.clicked_x.v1 = b.clicked_x.v1 ∧ a.clicked_y.v1 = b.clicked_y.v1) ∧
    (2 < a.num_clicks → a.clicked_x.v2 = b.clicked_x.v2 ∧ a.clicked_y.v2 = b.clicked_y.v2) ∧
    (3 < a.num_clicks → a.clicked_x.v3 = b.clicked_x.v3 ∧ a.clicked_y.v3 = b.clicked_y.v3) := by
  obtain ⟨_, _, _, _, _, hc⟩ := h
  refine ⟨fun hn => ?_, fun hn => ?_, fun hn => ?_, fun hn => ?_⟩
  · have := hc 0 (by norm_num) hn
    simpa [IntArr4.get?] using this
  · have := hc 1 (by norm_num) hn
    simpa [IntArr4.get?] using this
  · have := hc 2 (by norm_num) hn
    simpa [IntArr4.get?] using this
  · have := hc 3 (by norm_num) hn
    simpa [IntArr4.get?] using this

theorem misclick_detect_equivalent (a b : Calib) (x y : Int) (h : equivalent a b) :
    misclick_detect a x y = misclick_detect b x y := by
  obtain ⟨f0, f1, f2, _⟩ := equivalent_fields a b h
  obtain ⟨_, hm, _, hn, _, _⟩ := h
  unfold misclick_detect misclick_flag along_axis
  rw [← hm, ← hn]
  by_cases h1 : a.num_clicks = 1
  · obtain ⟨e1, e2⟩ := f0 (by omega)
    simp [h1, e1, e2]
  by_cases h2 : a.num_clicks = 2
  · obtain ⟨e1, e2⟩ := f0 (by omega)
    obtain ⟨e3, e4⟩ := f1 (by omega)
    simp [h2, e1, e2, e3, e4]
  by_cases h3 : a.num_clicks = 3
  · obtain ⟨e3, e4⟩ := f1 (by omega)
    obtain ⟨e5, e6⟩ := f2 (by omega)
    simp [h3, e3, e4, e5, e6]
  simp [h1, h2, h3]

theorem set?_isSome_iff (a b : IntArr4) (i v : Int) :
    (a.set? i v = none ↔ b.set? i v = none) := by
  unfold IntArr4.set?
  split_ifs <;> simp

theorem add_click_equivalent (a b : Calib) (x y : Int) (h : equivalent_out a b) :
    agree_add_click (add_click a x y) (add_click b x y) := by
  obtain ⟨h, hot⟩ := h
  have hd := doubleclick_detect_equivalent a b x y h
  have hm := misclick_detect_equivalent a b x y h
  obtain ⟨ht, hmt, ho, hn, hn4, hc⟩ := h
  have heq : equivalent a b := ⟨ht, hmt, ho, hn, hn4, hc⟩
  unfold add_click
  rw [← hd, ← hm]
  cases hdd : doubleclick_detect a x y with
  | none => trivial
  | some d =>
    cases d with
    | true => exact ⟨rfl, heq, hot⟩
    | false =>
      simp only
      cases hmm : misclick_detect a x y with
      | true =>
        simp only [if_true]
        exact ⟨rfl, ⟨ht, hmt, ho, rfl, show (0 : Int) ≤ 4 by decide,
          fun i hi hi' => absurd (show i < 0 from hi') (by omega)⟩, hot⟩
      | false =>
        simp only [Bool.false_eq_true, if_false]
        rw [← hn]
        cases hax : a.clicked_x.set? a.num_clicks x with
        | none =>
          have := (set?_isSome_iff a.clicked_x b.clicked_x a.num_clicks x).mp hax
          rw [this]
          trivial
        | some cx =>
          have hr := set?_range hax
          cases hbx : b.clicked_x.set? a.num_clicks x with
          | none =>
            have := (set?_isSome_iff a.clicked_x b.clicked_x a.num_clicks x).mpr hbx
            rw [this] at hax; cases hax
          | some cx' =>
            cases hay : a.clicked_y.set? a.num_clicks y with
            | none =>
              exfalso
              unfold IntArr4.set? at hay
              split_ifs at hay
              omega
            | some cy =>
              cases hby : b.clicked_y.set? a.num_clicks y with
              | none =>
                exfalso
                unfold IntArr4.set? at hby
                split_ifs at hby
                omega
              | some cy' =>
                refine ⟨rfl, ⟨ht, hmt, ho, by simp only [hn],
                  show a.num_clicks + 1 ≤ 4 by omega, ?_⟩, hot⟩
                intro i hi hi'
                have hi'' : i < a.num_clicks + 1 := hi'
                simp only
                by_cases hin : i = a.num_clicks
                · subst hin
                  rw [get?_set?_same hax, get?_set?_same hbx, get?_set?_same hay,
                    get?_set?_same hby]
                  exact ⟨rfl, rfl⟩
                · rw [get?_set?_other hax hin, get?_set?_other hbx hin,
                    get?_set?_other hay hin, get?_set?_other hby hin]
                  exact hc i hi (by omega)

theorem finish_axys_congr (a b : Calib) (width height : Int) (ho : a.old_axys = b.old_axys)
    (hx : a.clicked_x = b.clicked_x) (hy : a.clicked_y = b.clicked_y) :
    finish_axys a width height = finish_axys b width height := by
  unfold finish_axys
  rw [ho, hx, hy]

theorem equivalent_arrays (a b : Calib) (h : equivalent a b) (hn : a.num_clicks = 4) :
    a.clicked_x = b.clicked_x ∧ a.clicked_y = b.clicked_y := by
  obtain ⟨f0, f1, f2, f3⟩ := equivalent_fields a b h
  obtain ⟨e0, g0⟩ := f0 (by omega)
  obtain ⟨e1, g1⟩ := f1 (by omega)
  obtain ⟨e2, g2⟩ := f2 (by omega)
  obtain ⟨e3, g3⟩ := f3 (by omega)
  constructor
  · cases ha : a.clicked_x; cases hb : b.clicked_x
    rw [ha, hb] at e0 e1 e2 e3
    simp only at e0 e1 e2 e3
    rw [e0, e1, e2, e3]
  · cases ha : a.clicked_y; cases hb : b.clicked_y
    rw [ha, hb] at g0 g1 g2 g3
    simp only at g0 g1 g2 g3
    rw [g0, g1, g2, g3]

theorem equivalent_swap (a b : Calib) (h : equivalent a b) (hn : a.num_clicks = 4) :
    equivalent (swap_LL_UR a) (swap_LL_UR b) := by
  obtain ⟨hx, hy⟩ := equivalent_arrays a b h hn
  obtain ⟨ht, hm, ho, hnn, hn4, _⟩ := h
  refine ⟨ht, hm, ho, hnn, hn4, ?_⟩
  intro i _ _
  simp [swap_LL_UR, hx, hy]

theorem finish_equivalent (a b : Calib) (width height : Int) (h : equivalent_out a b) :
    agree_finish (finish a width height) (finish b width height) := by
  obtain ⟨h, hot⟩ := h
  have hnn : a.num_clicks = b.num_clicks := h.2.2.2.1
  by_cases hn : a.num_clicks = 4
  · obtain ⟨hx, hy⟩ := equivalent_arrays a b h hn
    have ho : a.old_axys = b.old_axys := h.2.2.1
    have hsw := equivalent_swap a b h hn
    have hnb : b.num_clicks = 4 := by rw [← hnn]; exact hn
    unfold finish
    simp only [get_numclicks, hn, hnb, ne_eq, not_true_eq_false, if_false, ← hx, ← hy]
    by_cases hs : |a.clicked_x.v0 - a.clicked_x.v1| < |a.clicked_y.v0 - a.clicked_y.v1|
    · simp only [hs, decide_True, if_true]
      have e : finish_axys (swap_LL_UR a) width height = finish_axys (swap_LL_UR b) width height :=
        finish_axys_congr _ _ width height ho (by simp only [swap_LL_UR, hx])
          (by simp only [swap_LL_UR, hy])
      rw [← e]
      cases finish_axys (swap_LL_UR a) width height with
      | none => trivial
      | some axys =>
        unfold agree_finish
        dsimp only
        refine ⟨?_, rfl, hsw, hot⟩
        unfold finish_data
        dsimp only [swap_LL_UR]
        rw [hot]
    · simp only [hs, decide_False, Bool.false_eq_true, if_false]
      have e : finish_axys a width height = finish_axys b width height :=
        finish_axys_congr _ _ width height ho hx hy
      rw [← e]
      cases finish_axys a width height with
      | none => trivial
      | some axys =>
        unfold agree_finish
        dsimp only
        refine ⟨?_, rfl, h, hot⟩
        unfold finish_data
        rw [hot]
  · have hnb : b.num_clicks ≠ 4 := by rw [← hnn]; exact hn
    unfold finish
    simp only [get_numclicks, ne_eq, hn, hnb, not_false_eq_true, if_true]
    exact ⟨rfl, rfl, h, hot⟩

theorem equivalent_out_reset (a b : Calib) (h : equivalent_out a b) :
    equivalent_out (reset a) (reset b) :=
  ⟨⟨h.1.1, h.1.2.1, h.1.2.2.1, rfl, show (0 : Int) ≤ 4 by decide,
    fun i hi hi' => absurd (show i < 0 from hi') (by omega)⟩, h.2⟩

theorem run_trace_equivalent (calls : List EngineCall) :
    ∀ a b : Calib, equivalent_out a b →
      agree_trace (run_trace a calls) (run_trace b calls) := by
  induction calls with
  | nil => intro a b h; exact ⟨rfl, h⟩
  | cons call rest ih =>
    intro a b h
    cases call with
    | add_click x y =>
      have hs := add_click_equivalent a b x y h
      simp only [run_trace]
      cases ha : add_click a x y with
      | none =>
        cases hb : add_click b x y with
        | none => trivial
        | some q => rw [ha, hb] at hs; exact hs.elim
      | some p =>
        cases hb : add_click b x y with
        | none => rw [ha, hb] at hs; exact hs.elim
        | some q =>
          obtain ⟨p1, ca⟩ := p
          obtain ⟨q1, cb⟩ := q
          rw [ha, hb] at hs
          obtain ⟨e, he⟩ := hs
          subst e
          have hr := ih ca cb he
          dsimp only
          cases hra : run_trace ca rest with
          | none =>
            cases hrb : run_trace cb rest with
            | none => trivial
            | some w => rw [hra, hrb] at hr; exact hr.elim
          | some u =>
            cases hrb : run_trace cb rest with
            | none => rw [hra, hrb] at hr; exact hr.elim
            | some w =>
              obtain ⟨oa, da⟩ := u
              obtain ⟨ob, db⟩ := w
              rw [hra, hrb] at hr
              obtain ⟨e1, e2⟩ := hr
              exact ⟨by rw [e1], e2⟩
    | reset =>
      have hr := ih (reset a) (reset b) (equivalent_out_reset a b h)
      simp only [run_trace]
      cases hra : run_trace (reset a) rest with
      | none =>
        cases hrb : run_trace (reset b) rest with
        | none => trivial
        | some w => rw [hra, hrb] at hr; exact hr.elim
      | some u =>
        cases hrb : run_trace (reset b) rest with
        | none => rw [hra, hrb] at hr; exact hr.elim
        | some w =>
          obtain ⟨oa, da⟩ := u
          obtain ⟨ob, db⟩ := w
          rw [hra, hrb] at hr
          obtain ⟨e1, e2⟩ := hr
          exact ⟨by rw [e1], e2⟩
    | finish width height =>
      have hs := finish_equivalent a b width height h
      simp only [run_trace]
      cases ha : finish a width height with
      | none =>
        cases hb : finish b width height with
        | none => trivial
        | some q => rw [ha, hb] at hs; exact hs.elim
      | some p =>
        cases hb : finish b width height with
        | none => rw [ha, hb] at hs; exact hs.elim
        | some q =>
          rw [ha, hb] at hs
          obtain ⟨er, e, he⟩ := hs
          have hr := ih p.state q.state he
          dsimp only
          cases hra : run_trace p.state rest with
          | none =>
            cases hrb : run_trace q.state rest with
            | none => trivial
            | some w => rw [hra, hrb] at hr; exact hr.elim
          | some u =>
            cases hrb : run_trace q.state rest with
            | none => rw [hra, hrb] at hr; exact hr.elim
            | some w =>
              obtain ⟨oa, da⟩ := u
              obtain ⟨ob, db⟩ := w
              rw [hra, hrb] at hr
              obtain ⟨e1, e2⟩ := hr
              exact ⟨by rw [er, e, e1], e2⟩

theorem finish_session4 :
    finish session4 1000 1000 =
      some { ret := true
             written := some ({ x_min := -26, x_max := 1026, y_min := -26, y_max := 1026 }, false)
             state := session4 } := by
  rw [finish_eq_of_not_swapped session4 1000 1000 (by decide) (by decide) (by decide)
    (by decide)]
  simp [session4, session0, CalibratorXorgPrint, spec_axis_range_witness, finish_data]

theorem finish_session4_xinput :
    finish session4_xinput 1000 1000 =
      some { ret := false
             written := some ({ x_min := -26, x_max := 1026, y_min := -26, y_max := 1026 }, false)
             state := session4_xinput } := by
  rw [finish_eq_of_not_swapped session4_xinput 1000 1000 (by decide) (by decide) (by decide)
    (by decide)]
  simp [session4_xinput, session4, session0, CalibratorXorgPrint, spec_axis_range_witness,
    finish_data]

/-- Counterexample of C26 as stated: `session4` and `session4_xinput` agree on the
thresholds, on `old_axys`, on `num_clicks = 4` and on the four stored clicks, so
they are equivalent in the sense of the claim; they differ in the output type,
and `finish` with the same width and height returns `true` on the first and
`false` on the second (the writer refuses the output type `OUTYPE_XINPUT`), the
bounds and the flag handed to the writer being the same. -/
theorem finish_differs_on_equivalent_sessions :
    equivalent session4 session4_xinput ∧
    ∃ r r', finish session4 1000 1000 = some r ∧ finish session4_xinput 1000 1000 = some r' ∧
      r.ret = true ∧ r'.ret = false ∧ r.ret ≠ r'.ret ∧ r.written = r'.written :=
  ⟨⟨rfl, rfl, rfl, rfl, by decide, fun _ _ _ => ⟨rfl, rfl⟩⟩,
    _, _, finish_session4, finish_session4_xinput, rfl, rfl, by decide, rfl⟩

/-- C26, amended. A reset session behaves like a fresh one: on two equivalent
sessions (same thresholds, `old_axys`, `num_clicks = n ≤ 4` and clicks at the
positions below `n`, whatever the array contents from `n` on) that also have the
same output type, `add_click` with the same coordinates returns the same boolean,
`finish` with the same width and height returns the same boolean and hands the
same bounds and flag to the writer (or is refused for both), the sessions left
are again equivalent with the same output type, and every sequence of
`add_click`, `reset` and `finish` calls gives the same outcomes; in particular the
sequences of calls after `reset s` give the outcomes they give on the session
newly constructed with the thresholds, the `old_axys` and the output type of
`s`. -/
theorem equivalent_sessions_agree (a b : Calib) (h : equivalent a b)
    (hot : a.output_type = b.output_type) :
    (∀ x y : Int, agree_add_click (add_click a x y) (add_click b x y)) ∧
    (∀ width height : Int, agree_finish (finish a width height) (finish b width height)) ∧
    (∀ calls : List EngineCall, agree_trace (run_trace a calls) (run_trace b calls)) ∧
    (∀ (s : Calib) (verbose0 : Bool) (calls : List EngineCall),
      agree_trace (run_trace (reset s) calls)
        (run_trace (CalibratorXorgPrint s.old_axys verbose0 s.threshold_misclick
          s.threshold_doubleclick s.output_type) calls)) := by
  refine ⟨fun x y => add_click_equivalent a b x y ⟨h, hot⟩,
    fun width height => finish_equivalent a b width height ⟨h, hot⟩,
    fun calls => run_trace_equivalent calls a b ⟨h, hot⟩, ?_⟩
  intro s verbose0 calls
  apply run_trace_equivalent
  exact ⟨⟨rfl, rfl, rfl, rfl, show (0 : Int) ≤ 4 by decide,
    fun i hi hi' => absurd (show i < 0 from hi') (by omega)⟩, rfl⟩

/-- Witness of C26: the session `session3` after `reset`, whose arrays still hold
three clicks, against the fresh session `session0`, whose arrays hold zeros; both
have the output type `OUTYPE_XORGCONFD`. -/
theorem equivalent_sessions_agree_witness :
    (∀ x y : Int, agree_add_click (add_click (reset session3) x y) (add_click session0 x y)) ∧
    (∀ width height : Int,
      agree_finish (finish (reset session3) width height) (finish session0 width height)) ∧
    (∀ calls : List EngineCall,
      agree_trace (run_trace (reset session3) calls) (run_trace session0 calls)) ∧
    (∀ (s : Calib) (verbose0 : Bool) (calls : List EngineCall),
      agree_trace (run_trace (reset s) calls)
        (run_trace (CalibratorXorgPrint s.old_axys verbose0 s.threshold_misclick
          s.threshold_doubleclick s.output_type) calls)) :=
  equivalent_sessions_agree (reset session3) session0
    ⟨rfl, rfl, rfl, rfl, by decide, fun i hi hi' => absurd (show i < 0 from hi') (by omega)⟩
    rfl

end XinputCalibrator
